import Mathlib

/-!
# A verification development for the disk-backed B-tree index (`btree.cc`)

The index of `btree.cc` is embedded as pure functions over an explicit state
(`BTreeIndex`: the buffer cache, the superblock index and the in-memory
superblock).  Block ids and counts (`SIZE_T`), keys (`KEY_T`) and values
(`VALUE_T`) are natural numbers: a key stands for the fixed-width byte string it
is, ordered by the comparator of `KEY_T`.  No wrap-around is modelled: the
counters of the source only ever move by one, from values far below the width of
`SIZE_T`.

The node class (`BTreeNode`, its slot accessors, `Serialize`/`Unserialize`) and
the buffer cache are not part of `btree.cc`; they are modelled from the
specification and marked so.  An `assert` that fails aborts the call
(`Res.abort`); a recursion deeper than the fuel given is `Res.nofuel`.
-/

namespace Btrees

/-- Error codes used by `btree.cc`, the two accessor errors of the specification
(`ERROR_SIZE`, `ERROR_NODETYPE`), a code for a block the cache refuses to read or
write (`ERROR_CACHE`), and `ERROR_ONE`: the code whose numeric value is 1, which
is what `rc=newRoot.info.numkeys=1` stores in `rc` (btree.cc:375); which named
code has that value is not visible in `btree.cc`. -/
inductive ERROR_T where
  | ERROR_NOERROR
  | ERROR_NONEXISTENT
  | ERROR_CONFLICT
  | ERROR_NOSPACE
  | ERROR_SIZE
  | ERROR_NODETYPE
  | ERROR_UNIMPL
  | ERROR_INSANE
  | ERROR_CACHE
  | ERROR_ONE
deriving DecidableEq, Repr

open ERROR_T

/-- The five node kinds stored in a node header. -/
inductive NodeType where
  | BTREE_SUPERBLOCK
  | BTREE_ROOT_NODE
  | BTREE_INTERIOR_NODE
  | BTREE_LEAF_NODE
  | BTREE_UNALLOCATED_BLOCK
deriving DecidableEq, Repr

open NodeType

/-- The two operations of `LookupOrUpdateInternal`. -/
inductive BTreeOp where
  | BTREE_OP_LOOKUP
  | BTREE_OP_UPDATE
deriving DecidableEq, Repr

open BTreeOp

/-- Outcome of a call: it returned a value, an `assert` aborted it, or the
recursion went deeper than the fuel. -/
inductive Res (α : Type) where
  | ret : α → Res α
  | abort : Res α
  | nofuel : Res α
deriving DecidableEq

/-- Modelled from the spec: the node header of section 3 (`NodeMetadata`, the
type of `BTreeNode::info`), whose declaration is in the absent `btree_ds.h`. -/
structure NodeMetadata where
  nodetype : NodeType
  keysize : Nat
  valuesize : Nat
  blocksize : Nat
  rootnode : Nat
  freelist : Nat
  numkeys : Nat
deriving DecidableEq

/-- Modelled from the spec: a node is its header and its slot array (section 3,
section 4.1), read through kind-specific views: key slots, child-pointer slots
and value slots.  Slots outside the live range keep whatever they held. The
class itself is in the absent `btree_ds.h`. -/
structure BTreeNode where
  info : NodeMetadata
  keys : Nat → Nat
  ptrs : Nat → Nat
  vals : Nat → Nat

/-- Modelled from the spec: the buffer cache of section 6 (absent from
`btree.cc`): `GetBlockSize`, `GetNumBlocks` and the block images that
`ReadBlock`/`WriteBlock` move. The advisory `Notify...` hooks have no effect on
the index and are left out. -/
structure BufferCache where
  blocksize : Nat
  numblocks : Nat
  blocks : Nat → BTreeNode

/-- The members of `BTreeIndex` that `btree.cc` uses. -/
structure BTreeIndex where
  buffercache : BufferCache
  superblock_index : Nat
  superblock : BTreeNode

/-- Modelled from the spec: `BTreeNode(nodetype, keysize, valuesize, blocksize)`
of the absent `btree_ds.cc`, a fresh node: the remaining header fields and all
slots are zero. -/
def BTreeNode.construct (t : NodeType) (ks vs bs : Nat) : BTreeNode :=
  { info := { nodetype := t, keysize := ks, valuesize := vs, blocksize := bs,
              rootnode := 0, freelist := 0, numkeys := 0 },
    keys := fun _ => 0, ptrs := fun _ => 0, vals := fun _ => 0 }

/-- Modelled from the spec: a node declared without arguments (`BTreeNode node;`),
from the absent `btree_ds.cc`: blocks begin `Unallocated` (section 3), every
other field is zero. -/
def BTreeNode.blank : BTreeNode :=
  BTreeNode.construct BTREE_UNALLOCATED_BLOCK 0 0 0

/-- Modelled from the spec: `BTreeNode::Serialize` (section 4.1) from the absent
`btree_ds.cc`: the node is written whole to block `blocknum`; a block id outside
the cache is refused. -/
def Serialize (b : BTreeNode) (c : BufferCache) (blocknum : Nat) :
    ERROR_T × BufferCache :=
  if blocknum < c.numblocks then
    (ERROR_NOERROR, { c with blocks := Function.update c.blocks blocknum b })
  else (ERROR_CACHE, c)

/-- Modelled from the spec: `BTreeNode::Unserialize` (section 4.1) from the
absent `btree_ds.cc`: returns the node stored in block `blocknum`, or an error
for a block id outside the cache. -/
def Unserialize (c : BufferCache) (blocknum : Nat) : Except ERROR_T BTreeNode :=
  if blocknum < c.numblocks then .ok (c.blocks blocknum) else .error ERROR_CACHE

/-- Whether a node kind has key slots interleaved with child pointers. -/
def NodeType.isInterior : NodeType → Bool
  | BTREE_ROOT_NODE => true
  | BTREE_INTERIOR_NODE => true
  | _ => false

/-- Modelled from the spec: `BTreeNode::GetKey` (section 4.1) from the absent
`btree_ds.cc`. A root, interior or leaf node has `numkeys` live key slots
(section 3); an index outside them is `SizeError`. -/
def GetKey (b : BTreeNode) (offset : Nat) : Except ERROR_T Nat :=
  if b.info.nodetype.isInterior ∨ b.info.nodetype = BTREE_LEAF_NODE then
    if offset < b.info.numkeys then .ok (b.keys offset) else .error ERROR_SIZE
  else .error ERROR_NODETYPE

/-- Modelled from the spec: `BTreeNode::SetKey` (section 4.1) from the absent
`btree_ds.cc`; same range as `GetKey`. -/
def SetKey (b : BTreeNode) (offset : Nat) (k : Nat) : Except ERROR_T BTreeNode :=
  if b.info.nodetype.isInterior ∨ b.info.nodetype = BTREE_LEAF_NODE then
    if offset < b.info.numkeys then .ok { b with keys := Function.update b.keys offset k }
    else .error ERROR_SIZE
  else .error ERROR_NODETYPE

/-- Modelled from the spec: `BTreeNode::GetPtr` (section 4.1) from the absent
`btree_ds.cc`. A root or interior node has `numkeys + 1` live child pointers
(section 3); on a leaf the accessor is `NodeTypeError`. -/
def GetPtr (b : BTreeNode) (offset : Nat) : Except ERROR_T Nat :=
  if b.info.nodetype.isInterior then
    if offset ≤ b.info.numkeys then .ok (b.ptrs offset) else .error ERROR_SIZE
  else .error ERROR_NODETYPE

/-- Modelled from the spec: `BTreeNode::SetPtr` (section 4.1) from the absent
`btree_ds.cc`; same range as `GetPtr`. -/
def SetPtr (b : BTreeNode) (offset : Nat) (p : Nat) : Except ERROR_T BTreeNode :=
  if b.info.nodetype.isInterior then
    if offset ≤ b.info.numkeys then .ok { b with ptrs := Function.update b.ptrs offset p }
    else .error ERROR_SIZE
  else .error ERROR_NODETYPE

/-- Modelled from the spec: `BTreeNode::GetVal` (section 4.1) from the absent
`btree_ds.cc`. A leaf has `numkeys` live value slots; on a root or interior node
the accessor is `NodeTypeError`. -/
def GetVal (b : BTreeNode) (offset : Nat) : Except ERROR_T Nat :=
  if b.info.nodetype = BTREE_LEAF_NODE then
    if offset < b.info.numkeys then .ok (b.vals offset) else .error ERROR_SIZE
  else .error ERROR_NODETYPE

/-- Modelled from the spec: `BTreeNode::SetVal` (section 4.1) from the absent
`btree_ds.cc`; same range as `GetVal`. -/
def SetVal (b : BTreeNode) (offset : Nat) (v : Nat) : Except ERROR_T BTreeNode :=
  if b.info.nodetype = BTREE_LEAF_NODE then
    if offset < b.info.numkeys then .ok { b with vals := Function.update b.vals offset v }
    else .error ERROR_SIZE
  else .error ERROR_NODETYPE

/-- Modelled from the spec: the width of the node header in bytes, the `header`
of the capacity formulas of section 3. The spec names seven header fields and no
widths; eight bytes each are taken here. The source uses the capacities only
multiplied by `2/3`, see `fillThreshold`. -/
def headerBytes : Nat := 56

/-- Modelled from the spec: `sizeof(SIZE_T)`, the width of a block id. -/
def sizeofSIZE_T : Nat := 8

/-- Modelled from the spec: `slots_as_interior` of section 3
(`NodeMetadata::GetNumSlotsAsInterior` of the absent `btree_ds.cc`). -/
def GetNumSlotsAsInterior (info : NodeMetadata) : Nat :=
  (info.blocksize - headerBytes) / (info.keysize + sizeofSIZE_T)

/-- Modelled from the spec: `slots_as_leaf` of section 3
(`NodeMetadata::GetNumSlotsAsLeaf` of the absent `btree_ds.cc`). -/
def GetNumSlotsAsLeaf (info : NodeMetadata) : Nat :=
  (info.blocksize - headerBytes) / (info.keysize + info.valuesize)

/-- The constructor `BTreeIndex(keysize, valuesize, cache, unique)`
(btree.cc:28-37): only the two sizes of the in-memory superblock and the cache
are set. -/
def BTreeIndex.create (keysize valuesize : Nat) (cache : BufferCache) : BTreeIndex :=
  { buffercache := cache,
    superblock_index := 0,
    superblock :=
      { BTreeNode.blank with
        info := { BTreeNode.blank.info with keysize := keysize, valuesize := valuesize } } }

/-- `BTreeIndex::AllocateNode` (btree.cc:67-88). The result carries the out
parameter `n`. The return codes of `Unserialize` and `Serialize` are not looked
at by the source. -/
def AllocateNode (st : BTreeIndex) : Res (ERROR_T × Nat × BTreeIndex) :=
  let n := st.superblock.info.freelist
  if n = 0 then .ret (ERROR_NOSPACE, n, st)
  else
    let node : BTreeNode :=
      match Unserialize st.buffercache n with
      | .ok b => b
      | .error _ => BTreeNode.blank
    if node.info.nodetype ≠ BTREE_UNALLOCATED_BLOCK then .abort
    else
      let sb : BTreeNode :=
        { st.superblock with
          info := { st.superblock.info with freelist := node.info.freelist } }
      let c := (Serialize sb st.buffercache st.superblock_index).2
      .ret (ERROR_NOERROR, n, { st with superblock := sb, buffercache := c })

/-- `BTreeIndex::DeallocateNode` (btree.cc:91-113). -/
def DeallocateNode (st : BTreeIndex) (n : Nat) : Res (ERROR_T × BTreeIndex) :=
  let node : BTreeNode :=
    match Unserialize st.buffercache n with
    | .ok b => b
    | .error _ => BTreeNode.blank
  if node.info.nodetype = BTREE_UNALLOCATED_BLOCK then .abort
  else
    let node1 : BTreeNode :=
      { node with
        info := { node.info with nodetype := BTREE_UNALLOCATED_BLOCK,
                                 freelist := st.superblock.info.freelist } }
    let c1 := (Serialize node1 st.buffercache n).2
    let sb : BTreeNode :=
      { st.superblock with info := { st.superblock.info with freelist := n } }
    let c2 := (Serialize sb c1 st.superblock_index).2
    .ret (ERROR_NOERROR, { st with superblock := sb, buffercache := c2 })

/-- The node written to block `i` by the free-list loop of `Attach`
(btree.cc:161-166). -/
def newfreenode (keysize valuesize : Nat) (c : BufferCache) (superblock_index i : Nat) :
    BTreeNode :=
  let b := BTreeNode.construct BTREE_UNALLOCATED_BLOCK keysize valuesize c.blocksize
  { b with
    info := { b.info with rootnode := superblock_index + 1,
                          freelist := if i + 1 = c.numblocks then 0 else i + 1 } }

/-- The loop `for (i=superblock_index+2; i<GetNumBlocks(); i++)` of `Attach`
(btree.cc:160-174), started at `i` with at most `m` iterations left. -/
def attachFreeList (keysize valuesize superblock_index : Nat) :
    Nat → Nat → BufferCache → ERROR_T × BufferCache
  | 0, _, c => (ERROR_NOERROR, c)
  | m + 1, i, c =>
    if i < c.numblocks then
      match Serialize (newfreenode keysize valuesize c superblock_index i) c i with
      | (rc, c1) =>
        if rc ≠ ERROR_NOERROR then (rc, c1)
        else attachFreeList keysize valuesize superblock_index m (i + 1) c1
    else (ERROR_NOERROR, c)

/-- `BTreeIndex::Attach` (btree.cc:115-180). -/
def Attach (st : BTreeIndex) (initblock : Nat) (create : Bool) : Res (ERROR_T × BTreeIndex) :=
  let st0 : BTreeIndex := { st with superblock_index := initblock }
  if initblock ≠ 0 then .abort
  else
    let mount (s : BTreeIndex) : Res (ERROR_T × BTreeIndex) :=
      match Unserialize s.buffercache initblock with
      | .ok b => .ret (ERROR_NOERROR, { s with superblock := b })
      | .error rc => .ret (rc, s)
    if create then
      let ks := st0.superblock.info.keysize
      let vs := st0.superblock.info.valuesize
      let c0 := st0.buffercache
      let nsb := BTreeNode.construct BTREE_SUPERBLOCK ks vs c0.blocksize
      let newsuperblock : BTreeNode :=
        { nsb with info := { nsb.info with rootnode := initblock + 1,
                                           freelist := initblock + 2, numkeys := 0 } }
      match Serialize newsuperblock c0 initblock with
      | (rc, c1) =>
        if rc ≠ ERROR_NOERROR then .ret (rc, { st0 with buffercache := c1 })
        else
          let nrn := BTreeNode.construct BTREE_ROOT_NODE ks vs c1.blocksize
          let newrootnode : BTreeNode :=
            { nrn with info := { nrn.info with rootnode := initblock + 1,
                                               freelist := initblock + 2, numkeys := 0 } }
          match Serialize newrootnode c1 (initblock + 1) with
          | (rc, c2) =>
            if rc ≠ ERROR_NOERROR then .ret (rc, { st0 with buffercache := c2 })
            else
              match attachFreeList ks vs initblock c2.numblocks (initblock + 2) c2 with
              | (rc, c3) =>
                if rc ≠ ERROR_NOERROR then .ret (rc, { st0 with buffercache := c3 })
                else mount { st0 with buffercache := c3 }
    else mount st0

/-- `BTreeIndex::Detach` (btree.cc:183-186). -/
def Detach (st : BTreeIndex) : ERROR_T × BTreeIndex :=
  match Serialize st.superblock st.buffercache st.superblock_index with
  | (rc, c) => (rc, { st with buffercache := c })

/-- Where the key scan of a root or interior node ends (btree.cc:211-222 and
btree.cc:457-460): an accessor error, the first slot whose key is not below the
searched key, or past the last key. -/
inductive Descent where
  | err : ERROR_T → Descent
  | slot : Nat → Nat → Descent
  | last : Descent

/-- The loop `for (offset=0;offset<b.info.numkeys;offset++)` over the keys of a
root or interior node, with the test `key<testkey || key==testkey`
(btree.cc:211-214, btree.cc:457-460), from `offset` with at most `m` iterations
left; it is started with `m = numkeys`. -/
def findSlot (b : BTreeNode) (key : Nat) : Nat → Nat → Descent
  | 0, _ => .last
  | m + 1, offset =>
    if offset < b.info.numkeys then
      match GetKey b offset with
      | .error rc => .err rc
      | .ok testkey =>
        if key < testkey ∨ key = testkey then .slot offset testkey
        else findSlot b key m (offset + 1)
    else .last

/-- The loop over the keys of a leaf with the test `testkey==key`
(btree.cc:235-248): the first offset holding the key, if any. -/
def leafFind (b : BTreeNode) (key : Nat) : Nat → Nat → Except ERROR_T (Option Nat)
  | 0, _ => .ok none
  | m + 1, offset =>
    if offset < b.info.numkeys then
      match GetKey b offset with
      | .error rc => .error rc
      | .ok testkey =>
        if testkey = key then .ok (some offset)
        else leafFind b key m (offset + 1)
    else .ok none

/-- `BTreeIndex::LookupOrUpdateInternal` (btree.cc:189-258). It uses the cache
only; the result carries the in/out parameter `value` and the cache. The
`switch` on the node type is the chain of tests below. -/
def LookupOrUpdateInternal :
    Nat → BufferCache → Nat → BTreeOp → Nat → Nat → Res (ERROR_T × Nat × BufferCache)
  | 0, _, _, _, _, _ => .nofuel
  | fuel + 1, c, node, op, key, value =>
    match Unserialize c node with
    | .error rc => .ret (rc, value, c)
    | .ok b =>
      if b.info.nodetype.isInterior then
        match findSlot b key b.info.numkeys 0 with
        | .err rc => .ret (rc, value, c)
        | .slot offset _ =>
          match GetPtr b offset with
          | .error rc => .ret (rc, value, c)
          | .ok ptr => LookupOrUpdateInternal fuel c ptr op key value
        | .last =>
          if b.info.numkeys > 0 then
            match GetPtr b b.info.numkeys with
            | .error rc => .ret (rc, value, c)
            | .ok ptr => LookupOrUpdateInternal fuel c ptr op key value
          else .ret (ERROR_NONEXISTENT, value, c)
      else if b.info.nodetype = BTREE_LEAF_NODE then
        match leafFind b key b.info.numkeys 0 with
        | .error rc => .ret (rc, value, c)
        | .ok none => .ret (ERROR_NONEXISTENT, value, c)
        | .ok (some offset) =>
          match op with
          | BTREE_OP_LOOKUP =>
            match GetVal b offset with
            | .error rc => .ret (rc, value, c)
            | .ok v => .ret (ERROR_NOERROR, v, c)
          | BTREE_OP_UPDATE =>
            match SetVal b offset value with
            | .error rc => .ret (rc, value, c)
            | .ok b1 =>
              match Serialize b1 c node with
              | (rc, c1) => .ret (rc, value, c1)
      else .ret (ERROR_INSANE, value, c)

/-- `BTreeIndex::Lookup` (btree.cc:353-356); `value` is the caller's buffer, the
result carries what it holds on return. -/
def Lookup (fuel : Nat) (st : BTreeIndex) (key : Nat) (value : Nat) :
    Res (ERROR_T × Nat) :=
  match LookupOrUpdateInternal fuel st.buffercache st.superblock.info.rootnode
      BTREE_OP_LOOKUP key value with
  | .ret (rc, v, _) => .ret (rc, v)
  | .abort => .abort
  | .nofuel => .nofuel

/-- `BTreeIndex::Update` (btree.cc:797-801). -/
def Update (fuel : Nat) (st : BTreeIndex) (key : Nat) (value : Nat) :
    Res (ERROR_T × BTreeIndex) :=
  match LookupOrUpdateInternal fuel st.buffercache st.superblock.info.rootnode
      BTREE_OP_UPDATE key value with
  | .ret (rc, _, c) => .ret (rc, { st with buffercache := c })
  | .abort => .abort
  | .nofuel => .nofuel

/-- The fill threshold as the source writes it, `floor(slots*(2/3))`
(btree.cc:507, 586, 695, 750): `2/3` is a division of two integers. -/
def fillThreshold (slots : Nat) : Nat :=
  slots * (2 / 3)

/-- What `InsertRecursion` hands back: the return code, the in/out parameters
`newkey` and `newnode`, and the index. -/
abbrev InsertResult := ERROR_T × Nat × Nat × BTreeIndex

/-- The empty-root case of `InsertRecursion` (btree.cc:417-453); `b` is the root
read from block `node`. -/
def insertEmptyRoot (st : BTreeIndex) (node : Nat) (b : BTreeNode) (key : Nat)
    (value : Nat) (newkey : Nat) (newnode : Nat) : Res InsertResult :=
  let leaf1 : BTreeNode :=
    { b with info := { b.info with numkeys := 1, nodetype := BTREE_LEAF_NODE } }
  let leaf2 : BTreeNode :=
    { b with info := { b.info with numkeys := 0, nodetype := BTREE_LEAF_NODE } }
  let b1 : BTreeNode := { b with info := { b.info with numkeys := b.info.numkeys + 1 } }
  match SetKey leaf1 0 key with
  | .error rc => .ret (rc, newkey, newnode, st)
  | .ok leaf1a =>
  match SetVal leaf1a 0 value with
  | .error rc => .ret (rc, newkey, newnode, st)
  | .ok leaf1b =>
  match SetKey b1 0 key with
  | .error rc => .ret (rc, newkey, newnode, st)
  | .ok b2 =>
  match AllocateNode st with
  | .abort => .abort
  | .nofuel => .nofuel
  | .ret (rc1, leafBlock1, st1) =>
  if rc1 ≠ ERROR_NOERROR then .ret (rc1, newkey, newnode, st1)
  else
  match AllocateNode st1 with
  | .abort => .abort
  | .nofuel => .nofuel
  | .ret (rc2, leafBlock2, st2) =>
  if rc2 ≠ ERROR_NOERROR then .ret (rc2, newkey, newnode, st2)
  else
  match SetPtr b2 0 leafBlock1 with
  | .error rc => .ret (rc, newkey, newnode, st2)
  | .ok b3 =>
  match SetPtr b3 1 leafBlock2 with
  | .error rc => .ret (rc, newkey, newnode, st2)
  | .ok b4 =>
  match Serialize b4 st2.buffercache node with
  | (rc3, c3) =>
  if rc3 ≠ ERROR_NOERROR then .ret (rc3, newkey, newnode, { st2 with buffercache := c3 })
  else
  match Serialize leaf1b c3 leafBlock1 with
  | (rc4, c4) =>
  if rc4 ≠ ERROR_NOERROR then .ret (rc4, newkey, newnode, { st2 with buffercache := c4 })
  else
  match Serialize leaf2 c4 leafBlock2 with
  | (rc5, c5) =>
  if rc5 ≠ ERROR_NOERROR then .ret (rc5, newkey, newnode, { st2 with buffercache := c5 })
  else .ret (ERROR_NOERROR, newkey, newnode, { st2 with buffercache := c5 })

/-- The local variables of the two shifting loops (btree.cc:473-492 and
btree.cc:661-683): the node and the `Prev`/`Current` temporaries; `sndPrev` and
`sndCur` are pointers in an interior node and values in a leaf. -/
structure ShiftState where
  b : BTreeNode
  keyPrev : Nat
  sndPrev : Nat
  keyCur : Nat
  sndCur : Nat

/-- The loop `for (Nat i=offset;i<b.info.numkeys;i++)` of the interior fix-up
(btree.cc:481-492), from `i` with at most `m` iterations left. -/
def fixupShift : Nat → Nat → ShiftState → Except ERROR_T ShiftState
  | 0, _, s => .ok s
  | m + 1, i, s =>
    if i < s.b.info.numkeys then
      match SetKey s.b i s.keyPrev with
      | .error rc => .error rc
      | .ok b1 =>
      match SetPtr b1 i s.sndPrev with
      | .error rc => .error rc
      | .ok b2 =>
      match GetKey b2 (i + 1) with
      | .error rc => .error rc
      | .ok k =>
      match GetPtr b2 (i + 1) with
      | .error rc => .error rc
      | .ok p =>
        fixupShift m (i + 1)
          { b := b2, keyPrev := s.keyCur, sndPrev := s.sndCur, keyCur := k, sndCur := p }
    else .ok s

/-- The loop `for (Nat i=firstKeyIndex;i<splitNode.info.numkeys;i++)` of the
interior split (btree.cc:524-534): keys and pointers of `b` from `i` on go to
`splitNode` from `insertIndex` on. The result carries `splitNode`,
`insertIndex` and the last `tempPtr`. -/
def interiorMove (b : BTreeNode) :
    Nat → Nat → Nat → BTreeNode → Nat → Except ERROR_T (BTreeNode × Nat × Nat)
  | 0, _, insertIndex, splitNode, tempPtr => .ok (splitNode, insertIndex, tempPtr)
  | m + 1, i, insertIndex, splitNode, tempPtr =>
    if i < splitNode.info.numkeys then
      match GetKey b i with
      | .error rc => .error rc
      | .ok tempKey =>
      match GetPtr b i with
      | .error rc => .error rc
      | .ok tempPtr1 =>
      match SetKey splitNode insertIndex tempKey with
      | .error rc => .error rc
      | .ok s1 =>
      match SetPtr s1 insertIndex tempPtr1 with
      | .error rc => .error rc
      | .ok s2 => interiorMove b m (i + 1) (insertIndex + 1) s2 tempPtr1
    else .ok (splitNode, insertIndex, tempPtr)

/-- The interior overfull test and split (btree.cc:507-558); `b` is the node
just serialized to block `node`. `lastKeyIndex` is `floor(numkeys/2)-1`; the
source reaches it with `numkeys >= 2` only. -/
def interiorSplit (st : BTreeIndex) (node : Nat) (b : BTreeNode) (newkey : Nat)
    (newnode : Nat) : Res InsertResult :=
  if fillThreshold (GetNumSlotsAsInterior b.info) ≤ b.info.numkeys then
    let splitNode := b
    let lastKeyIndex := b.info.numkeys / 2 - 1
    let firstKeyIndex := lastKeyIndex + 2
    match GetKey b (lastKeyIndex + 1) with
    | .error rc => .ret (rc, newkey, newnode, st)
    | .ok newkey1 =>
    match interiorMove b splitNode.info.numkeys firstKeyIndex 0 splitNode 0 with
    | .error rc => .ret (rc, newkey1, newnode, st)
    | .ok (s1, insertIndex, tempPtr0) =>
      let tempPtr := match GetPtr b b.info.numkeys with
        | .ok p => p
        | .error _ => tempPtr0
      let s2 := match SetPtr s1 insertIndex tempPtr with
        | .ok s => s
        | .error _ => s1
      let b1 : BTreeNode := { b with info := { b.info with numkeys := lastKeyIndex + 1 } }
      let s3 : BTreeNode := { s2 with info := { s2.info with numkeys := insertIndex } }
      match AllocateNode st with
      | .abort => .abort
      | .nofuel => .nofuel
      | .ret (rc1, newnode1, st1) =>
      if rc1 ≠ ERROR_NOERROR then .ret (rc1, newkey1, newnode1, st1)
      else
      match Serialize s3 st1.buffercache newnode1 with
      | (rc2, c2) =>
      if rc2 ≠ ERROR_NOERROR then .ret (rc2, newkey1, newnode1, { st1 with buffercache := c2 })
      else
      match Serialize b1 c2 node with
      | (rc3, c3) =>
      if rc3 ≠ ERROR_NOERROR then .ret (rc3, newkey1, newnode1, { st1 with buffercache := c3 })
      else .ret (ERROR_NOERROR, newkey1, newnode1, { st1 with buffercache := c3 })
  else .ret (ERROR_NOERROR, newkey, 0, st)

/-- The interior fix-up after the child returned a new node (btree.cc:470-558):
`b` is the node read from block `node` before the recursion, `offset` and
`testkey` the slot the descent took, `newkey`/`newnode` what the child handed
up. -/
def interiorFixup (st : BTreeIndex) (node : Nat) (b : BTreeNode) (offset : Nat)
    (testkey : Nat) (newkey : Nat) (newnode : Nat) : Res InsertResult :=
  match GetPtr b offset with
  | .error rc => .ret (rc, newkey, newnode, st)
  | .ok tempPtrCurrent =>
  match fixupShift b.info.numkeys offset
      { b := b, keyPrev := newkey, sndPrev := newnode, keyCur := testkey,
        sndCur := tempPtrCurrent } with
  | .error rc => .ret (rc, newkey, newnode, st)
  | .ok s =>
    let b1 : BTreeNode := { s.b with info := { s.b.info with numkeys := s.b.info.numkeys + 1 } }
    match SetKey b1 (b1.info.numkeys - 1) s.keyCur with
    | .error rc => .ret (rc, newkey, newnode, st)
    | .ok b2 =>
    match SetPtr b2 (b2.info.numkeys - 1) s.sndCur with
    | .error rc => .ret (rc, newkey, newnode, st)
    | .ok b3 =>
    match Serialize b3 st.buffercache node with
    | (rc, c1) =>
    if rc ≠ ERROR_NOERROR then .ret (rc, newkey, newnode, { st with buffercache := c1 })
    else interiorSplit { st with buffercache := c1 } node b3 newkey newnode

/-- Where the key scan of a leaf ends in `InsertRecursion` (btree.cc:651-656):
an accessor error, the key itself, the first slot holding a larger key, or past
the last key. -/
inductive LeafScan where
  | err : ERROR_T → LeafScan
  | conflict : LeafScan
  | insertAt : Nat → Nat → LeafScan
  | append : LeafScan

/-- The loop `for (offset=0;offset<b.info.numkeys;offset++)` over a leaf in
`InsertRecursion` (btree.cc:651-656), from `offset` with at most `m` iterations
left. -/
def leafScan (b : BTreeNode) (key : Nat) : Nat → Nat → LeafScan
  | 0, _ => .append
  | m + 1, offset =>
    if offset < b.info.numkeys then
      match GetKey b offset with
      | .error rc => .err rc
      | .ok testkey =>
        if testkey = key then .conflict
        else if key < testkey then .insertAt offset testkey
        else leafScan b key m (offset + 1)
    else .append

/-- The loop `for (Nat i=offset;i<b.info.numkeys-1;i++)` of the leaf insert
(btree.cc:672-683), from `i` with at most `m` iterations left. -/
def leafShift : Nat → Nat → ShiftState → Except ERROR_T ShiftState
  | 0, _, s => .ok s
  | m + 1, i, s =>
    if i < s.b.info.numkeys - 1 then
      match SetKey s.b i s.keyPrev with
      | .error rc => .error rc
      | .ok b1 =>
      match SetVal b1 i s.sndPrev with
      | .error rc => .error rc
      | .ok b2 =>
      match GetKey b2 (i + 1) with
      | .error rc => .error rc
      | .ok k =>
      match GetVal b2 (i + 1) with
      | .error rc => .error rc
      | .ok v =>
        leafShift m (i + 1)
          { b := b2, keyPrev := s.keyCur, sndPrev := s.sndCur, keyCur := k, sndCur := v }
    else .ok s

/-- The loop `for (Nat i=halfIndex;i<splitNode.info.numkeys;i++)` of the leaf
split (btree.cc:707-717 and btree.cc:762-772): entries of `b` from `i` on go to
`splitNode` from `insertIndex` on. -/
def leafMove (b : BTreeNode) :
    Nat → Nat → Nat → BTreeNode → Except ERROR_T (BTreeNode × Nat)
  | 0, _, insertIndex, splitNode => .ok (splitNode, insertIndex)
  | m + 1, i, insertIndex, splitNode =>
    if i < splitNode.info.numkeys then
      match GetKey b i with
      | .error rc => .error rc
      | .ok tempKey =>
      match GetVal b i with
      | .error rc => .error rc
      | .ok tempValue =>
      match SetKey splitNode insertIndex tempKey with
      | .error rc => .error rc
      | .ok s1 =>
      match SetVal s1 insertIndex tempValue with
      | .error rc => .error rc
      | .ok s2 => leafMove b m (i + 1) (insertIndex + 1) s2
    else .ok (splitNode, insertIndex)

/-- The leaf overfull test and split, written twice in the source with the same
text (btree.cc:695-732 and btree.cc:750-787); `b` is the leaf just serialized to
block `node`. -/
def leafSplit (st : BTreeIndex) (node : Nat) (b : BTreeNode) (newkey : Nat)
    (newnode : Nat) : Res InsertResult :=
  if fillThreshold (GetNumSlotsAsLeaf b.info) ≤ b.info.numkeys then
    let splitNode := b
    let halfIndex := b.info.numkeys / 2
    match GetKey b halfIndex with
    | .error rc => .ret (rc, newkey, newnode, st)
    | .ok newkey1 =>
    match leafMove b splitNode.info.numkeys halfIndex 0 splitNode with
    | .error rc => .ret (rc, newkey1, newnode, st)
    | .ok (s1, insertIndex) =>
      let b1 : BTreeNode := { b with info := { b.info with numkeys := halfIndex } }
      let s2 : BTreeNode := { s1 with info := { s1.info with numkeys := insertIndex } }
      match AllocateNode st with
      | .abort => .abort
      | .nofuel => .nofuel
      | .ret (rc1, newnode1, st1) =>
      if rc1 ≠ ERROR_NOERROR then .ret (rc1, newkey1, newnode1, st1)
      else
      match Serialize s2 st1.buffercache newnode1 with
      | (rc2, c2) =>
      if rc2 ≠ ERROR_NOERROR then .ret (rc2, newkey1, newnode1, { st1 with buffercache := c2 })
      else
      match Serialize b1 c2 node with
      | (rc3, c3) =>
      if rc3 ≠ ERROR_NOERROR then .ret (rc3, newkey1, newnode1, { st1 with buffercache := c3 })
      else .ret (ERROR_NOERROR, newkey1, newnode1, { st1 with buffercache := c3 })
  else .ret (ERROR_NOERROR, newkey, newnode, st)

/-- Inserting into a leaf before the slot `offset`, whose key `testkey` is larger
than `key` (btree.cc:656-733). -/
def leafInsertAt (st : BTreeIndex) (node : Nat) (b : BTreeNode) (offset : Nat)
    (testkey : Nat) (key : Nat) (value : Nat) (newkey : Nat) (newnode : Nat) :
    Res InsertResult :=
  match GetVal b offset with
  | .error rc => .ret (rc, newkey, newnode, st)
  | .ok tempValueCurrent =>
    let b1 : BTreeNode := { b with info := { b.info with numkeys := b.info.numkeys + 1 } }
    match leafShift b1.info.numkeys offset
        { b := b1, keyPrev := key, sndPrev := value, keyCur := testkey,
          sndCur := tempValueCurrent } with
    | .error rc => .ret (rc, newkey, newnode, st)
    | .ok s =>
      match SetKey s.b (s.b.info.numkeys - 1) s.keyPrev with
      | .error rc => .ret (rc, newkey, newnode, st)
      | .ok b2 =>
      match SetVal b2 (b2.info.numkeys - 1) s.sndPrev with
      | .error rc => .ret (rc, newkey, newnode, st)
      | .ok b3 =>
      match Serialize b3 st.buffercache node with
      | (rc, c1) =>
      if rc ≠ ERROR_NOERROR then .ret (rc, newkey, newnode, { st with buffercache := c1 })
      else leafSplit { st with buffercache := c1 } node b3 newkey newnode

/-- Appending to a leaf all of whose keys are below `key` (btree.cc:735-788). -/
def leafAppend (st : BTreeIndex) (node : Nat) (b : BTreeNode) (key : Nat)
    (value : Nat) (newkey : Nat) (newnode : Nat) : Res InsertResult :=
  let b1 : BTreeNode := { b with info := { b.info with numkeys := b.info.numkeys + 1 } }
  match SetKey b1 (b1.info.numkeys - 1) key with
  | .error rc => .ret (rc, newkey, newnode, st)
  | .ok b2 =>
  match SetVal b2 (b2.info.numkeys - 1) value with
  | .error rc => .ret (rc, newkey, newnode, st)
  | .ok b3 =>
  match Serialize b3 st.buffercache node with
  | (rc, c1) =>
  if rc ≠ ERROR_NOERROR then .ret (rc, newkey, newnode, { st with buffercache := c1 })
  else leafSplit { st with buffercache := c1 } node b3 newkey newnode

/-- `BTreeIndex::InsertRecursion` (btree.cc:397-795). A root with keys falls
through to the interior case. In the last-pointer branch the source returns the
result of the recursive call at once (btree.cc:569); the statements after that
`return` (btree.cc:570-641) are never executed and have no counterpart here. -/
def InsertRecursion :
    Nat → BTreeIndex → Nat → Nat → Nat → Nat → Nat → Res InsertResult
  | 0, _, _, _, _, _, _ => .nofuel
  | fuel + 1, st, node, key, value, newkey, newnode =>
    match Unserialize st.buffercache node with
    | .error rc => .ret (rc, newkey, newnode, st)
    | .ok b =>
      if b.info.nodetype = BTREE_ROOT_NODE ∧ b.info.numkeys = 0 then
        insertEmptyRoot st node b key value newkey newnode
      else if b.info.nodetype.isInterior then
        match findSlot b key b.info.numkeys 0 with
        | .err rc => .ret (rc, newkey, newnode, st)
        | .slot offset testkey =>
          match GetPtr b offset with
          | .error rc => .ret (rc, newkey, newnode, st)
          | .ok ptr =>
            match InsertRecursion fuel st ptr key value newkey newnode with
            | .abort => .abort
            | .nofuel => .nofuel
            | .ret (rc, newkey1, newnode1, st1) =>
              if rc ≠ ERROR_NOERROR then .ret (rc, newkey1, newnode1, st1)
              else if newnode1 ≠ 0 then
                interiorFixup st1 node b offset testkey newkey1 newnode1
              else .ret (ERROR_NOERROR, newkey1, newnode1, st1)
        | .last =>
          match GetPtr b b.info.numkeys with
          | .error rc => .ret (rc, newkey, newnode, st)
          | .ok ptr => InsertRecursion fuel st ptr key value newkey newnode
      else if b.info.nodetype = BTREE_LEAF_NODE then
        match leafScan b key b.info.numkeys 0 with
        | .err rc => .ret (rc, newkey, newnode, st)
        | .conflict => .ret (ERROR_CONFLICT, newkey, newnode, st)
        | .insertAt offset testkey =>
          leafInsertAt st node b offset testkey key value newkey newnode
        | .append => leafAppend st node b key value newkey newnode
      else .ret (ERROR_INSANE, newkey, newnode, st)

/-- The new-root part of `Insert` (btree.cc:368-392), run when `InsertRecursion`
handed up a new node. `rc=newRoot.info.numkeys=1` stores 1 in `rc`, and the test
`if (rc)` that follows returns it. -/
def insertNewRoot (st : BTreeIndex) (newkey : Nat) (newnode : Nat) :
    Res (ERROR_T × BTreeIndex) :=
  match Unserialize st.buffercache st.superblock.info.rootnode with
  | .error rc => .ret (rc, st)
  | .ok oldRoot =>
    let newRoot : BTreeNode :=
      { BTreeNode.blank with info := { oldRoot.info with numkeys := 1 } }
    let rc : ERROR_T := ERROR_ONE
    if rc ≠ ERROR_NOERROR then .ret (rc, st)
    else
    match SetKey newRoot 0 newkey with
    | .error rc => .ret (rc, st)
    | .ok r1 =>
    match SetPtr r1 0 st.superblock.info.rootnode with
    | .error rc => .ret (rc, st)
    | .ok r2 =>
    match SetPtr r2 1 newnode with
    | .error rc => .ret (rc, st)
    | .ok r3 =>
    match AllocateNode st with
    | .abort => .abort
    | .nofuel => .nofuel
    | .ret (rc1, newRootBlock, st1) =>
    if rc1 ≠ ERROR_NOERROR then .ret (rc1, st1)
    else
    match Serialize r3 st1.buffercache newRootBlock with
    | (rc2, c2) => .ret (rc2, { st1 with buffercache := c2 })

/-- The statement `superblock.info.numkeys++` (btree.cc:393). -/
def incrNumkeys (st : BTreeIndex) : BTreeIndex :=
  { st with superblock :=
      { st.superblock with
        info := { st.superblock.info with numkeys := st.superblock.info.numkeys + 1 } } }

/-- `BTreeIndex::Insert` (btree.cc:358-395); `newnode` starts as 0 and `newkey`
as an empty key. -/
def Insert (fuel : Nat) (st : BTreeIndex) (key : Nat) (value : Nat) :
    Res (ERROR_T × BTreeIndex) :=
  match InsertRecursion fuel st st.superblock.info.rootnode key value 0 0 with
  | .abort => .abort
  | .nofuel => .nofuel
  | .ret (rc, newkey, newnode, st1) =>
    if rc ≠ ERROR_NOERROR then .ret (rc, st1)
    else if newnode ≠ 0 then
      match insertNewRoot st1 newkey newnode with
      | .abort => .abort
      | .nofuel => .nofuel
      | .ret (rc1, st2) =>
        if rc1 ≠ ERROR_NOERROR then .ret (rc1, st2)
        else .ret (ERROR_NOERROR, incrNumkeys st2)
    else .ret (ERROR_NOERROR, incrNumkeys st1)

/-- `BTreeIndex::Delete` (btree.cc:804-810). -/
def Delete (st : BTreeIndex) (_key : Nat) : ERROR_T × BTreeIndex :=
  (ERROR_UNIMPL, st)

/-- Following `freelist` fields from block id `cur` until 0: the block ids
visited, in order; `none` when the chain leaves the cache or does not end
within `fuel` steps. -/
def freeChain (c : BufferCache) : Nat → Nat → Option (List Nat)
  | 0, _ => none
  | fuel + 1, cur =>
    if cur = 0 then some []
    else
      match Unserialize c cur with
      | .error _ => none
      | .ok b => (freeChain c fuel b.info.freelist).map (fun l => cur :: l)

/-- An index with 8-byte keys and values, not yet attached, over a cache of `n`
blocks of 256 bytes holding blank nodes; used to instantiate the theorems at a
concrete input. -/
def sampleIndex (n : Nat) : BTreeIndex :=
  BTreeIndex.create 8 8 { blocksize := 256, numblocks := n, blocks := fun _ => BTreeNode.blank }

/-- The index a call left behind, or `dflt` when the call did not return. -/
def Res.indexOr (r : Res (ERROR_T × BTreeIndex)) (dflt : BTreeIndex) : BTreeIndex :=
  match r with
  | .ret (_, st) => st
  | _ => dflt

/-- The index `Attach(0, create=true)` leaves on `sampleIndex n`. -/
def freshIndex (n : Nat) : BTreeIndex :=
  (Attach (sampleIndex n) 0 true).indexOr (sampleIndex n)

/-- A two-block image whose superblock names block 1, the root, as the head of
the free list. -/
def crossedImage : BufferCache :=
  { blocksize := 256, numblocks := 2,
    blocks := fun i =>
      if i = 0 then
        { BTreeNode.construct BTREE_SUPERBLOCK 8 8 256 with
          info := { nodetype := BTREE_SUPERBLOCK, keysize := 8, valuesize := 8,
                    blocksize := 256, rootnode := 1, freelist := 1, numkeys := 0 } }
      else BTreeNode.construct BTREE_ROOT_NODE 8 8 256 }

/-- The index `Attach(0, create=false)` mounts from `crossedImage`. -/
def crossedIndex : BTreeIndex :=
  (Attach (BTreeIndex.create 8 8 crossedImage) 0 false).indexOr (sampleIndex 0)

/-- The return code of a call, without what else it hands back. -/
def Res.code {α : Type} : Res (ERROR_T × α) → Res ERROR_T
  | .ret (rc, _) => .ret rc
  | .abort => .abort
  | .nofuel => .nofuel

/-- The cache `c2` is the cache `c` after the value slot `off` of the leaf in
block `w`, whose key is `key`, was set to `value` and nothing else changed. -/
def UpdatedAt (c c2 : BufferCache) (w off key value : Nat) : Prop :=
  w < c.numblocks ∧ (c.blocks w).info.nodetype = BTREE_LEAF_NODE ∧
  off < (c.blocks w).info.numkeys ∧ (c.blocks w).keys off = key ∧
  (∀ j, j < off → (c.blocks w).keys j ≠ key) ∧
  c2 = { c with
         blocks := Function.update c.blocks w
           { c.blocks w with vals := Function.update (c.blocks w).vals off value } }

/-- The child pointer that the descent of `LookupOrUpdateInternal` and
`InsertRecursion` follows from a root or interior node with at least one key:
`ptr[offset]` for the first slot with `key <= key[offset]`, else
`ptr[numkeys]`. -/
def childFor (b : BTreeNode) (key : Nat) : Nat :=
  match findSlot b key b.info.numkeys 0 with
  | .slot offset _ => b.ptrs offset
  | _ => b.ptrs b.info.numkeys

/-- What `Lookup` keeps of the result of `LookupOrUpdateInternal`: the return
code and the value buffer. -/
def lookupResult : Res (ERROR_T × Nat × BufferCache) → Res (ERROR_T × Nat)
  | .ret (rc, v, _) => .ret (rc, v)
  | .abort => .abort
  | .nofuel => .nofuel

/-- The index after the first insert, of key 50 with value 1, into
`freshIndex n`. -/
def insertedIndex (n : Nat) : BTreeIndex :=
  (Insert 1 (freshIndex n) 50 1).indexOr (sampleIndex n)

/-- The index after `Update(50, 9)` on `insertedIndex n`. -/
def updatedIndex (n : Nat) : BTreeIndex :=
  (Update 2 (insertedIndex n) 50 9).indexOr (sampleIndex n)

/-- The index that the first insert (the empty-root case, btree.cc:417-453, and
the increment of btree.cc:393) leaves, written out: `r` is the root block, `l1`
and `l2` the two blocks taken from the free list. -/
def afterFirstInsert (st : BTreeIndex) (k v r l1 l2 : Nat) : BTreeIndex :=
  { buffercache :=
      { st.buffercache with
        blocks :=
          Function.update
            (Function.update
              (Function.update
                (Function.update
                  (Function.update st.buffercache.blocks 0
                    { st.superblock with
                      info := { st.superblock.info with freelist := l2 } })
                  0
                  { st.superblock with
                    info := { st.superblock.info with
                              freelist := (st.buffercache.blocks l2).info.freelist } })
                r
                { st.buffercache.blocks r with
                  info := { (st.buffercache.blocks r).info with numkeys := 1 },
                  keys := Function.update (st.buffercache.blocks r).keys 0 k,
                  ptrs := Function.update
                    (Function.update (st.buffercache.blocks r).ptrs 0 l1) 1 l2 })
              l1
              { st.buffercache.blocks r with
                info := { (st.buffercache.blocks r).info with
                          numkeys := 1, nodetype := BTREE_LEAF_NODE },
                keys := Function.update (st.buffercache.blocks r).keys 0 k,
                vals := Function.update (st.buffercache.blocks r).vals 0 v })
            l2
            { st.buffercache.blocks r with
              info := { (st.buffercache.blocks r).info with
                        numkeys := 0, nodetype := BTREE_LEAF_NODE } } },
    superblock_index := st.superblock_index,
    superblock :=
      { st.superblock with
        info := { st.superblock.info with
                  freelist := (st.buffercache.blocks l2).info.freelist,
                  numkeys := st.superblock.info.numkeys + 1 } } }

/-- The keys of every leaf of the cache are strictly ascending over the live
slots. -/
def LeavesAscending (c : BufferCache) : Prop :=
  ∀ j, j < c.numblocks → (c.blocks j).info.nodetype = BTREE_LEAF_NODE →
    ∀ a b, a < b → b < (c.blocks j).info.numkeys → (c.blocks j).keys a < (c.blocks j).keys b

/-- The index after the second insert, of the smaller key 30 with value 2, was
attempted on `insertedIndex n`. -/
def secondInsertIndex (n : Nat) : BTreeIndex :=
  (Insert 2 (insertedIndex n) 30 2).indexOr (sampleIndex n)

/-- `BTreeIndex::NodesInOrder` (btree.cc:911-989): the body is commented out and
the function returns `ERROR_NOERROR` at once; the reference parameter
`totalKeys` is handed back as it came. -/
def NodesInOrder (_st : BTreeIndex) (_node : Nat) (totalKeys : Nat) : ERROR_T × Nat :=
  (ERROR_NOERROR, totalKeys)

/-- `BTreeIndex::SanityCheck` (btree.cc:892-907). The local `totalKeys` is
declared without a value and `NodesInOrder` never assigns it; `totalKeys` here is
whatever that local holds when the comparison reads it. -/
def SanityCheck (st : BTreeIndex) (totalKeys : Nat) : ERROR_T :=
  match NodesInOrder st st.superblock.info.rootnode totalKeys with
  | (rc, totalKeys1) =>
    if rc ≠ ERROR_NOERROR then rc
    else if totalKeys1 ≠ st.superblock.info.numkeys then ERROR_INSANE
    else ERROR_NOERROR

/-- The sum of `numkeys` over the leaves reachable from block `node` through
child pointers `ptr[0..numkeys]` (a root or interior node without keys has no
children, as in `DisplayInternal`, btree.cc:850); `none` when a block is
unreadable, is not a tree node, or the tree is deeper than `fuel`. -/
def leafKeyTotal (c : BufferCache) : Nat → Nat → Option Nat
  | 0, _ => none
  | fuel + 1, node =>
    match Unserialize c node with
    | .error _ => none
    | .ok b =>
      if b.info.nodetype.isInterior then
        if b.info.numkeys = 0 then some 0
        else
          ((List.range (b.info.numkeys + 1)).mapM
            (fun i => leafKeyTotal c fuel (b.ptrs i))).map List.sum
      else if b.info.nodetype = BTREE_LEAF_NODE then some b.info.numkeys
      else none

/-- The keys stored in the leaves reachable from block `node`, left to right;
`none` as for `leafKeyTotal`. -/
def subtreeKeys (c : BufferCache) : Nat → Nat → Option (List Nat)
  | 0, _ => none
  | fuel + 1, node =>
    match Unserialize c node with
    | .error _ => none
    | .ok b =>
      if b.info.nodetype.isInterior then
        if b.info.numkeys = 0 then some []
        else
          ((List.range (b.info.numkeys + 1)).mapM
            (fun i => subtreeKeys c fuel (b.ptrs i))).map List.flatten
      else if b.info.nodetype = BTREE_LEAF_NODE then
        some ((List.range b.info.numkeys).map b.keys)
      else none

/-- The index an `InsertRecursion` call left behind, or `dflt` when the call did
not return. -/
def Res.splitIndexOr (r : Res InsertResult) (dflt : BTreeIndex) : BTreeIndex :=
  match r with
  | .ret (_, _, _, st) => st
  | _ => dflt

/-- The index after `Insert(70, 2)`, a larger key, was attempted on
`insertedIndex n`. -/
def rightInsertIndex (n : Nat) : BTreeIndex :=
  (Insert 2 (insertedIndex n) 70 2).indexOr (sampleIndex n)

/-- The index `Attach(0, create=false)` mounts right after the first insert,
without a `Detach` in between. -/
def reattachedIndex (n : Nat) : BTreeIndex :=
  (Attach (insertedIndex n) 0 false).indexOr (sampleIndex n)

/-- The index after `InsertRecursion` ran on the leaf in block 2 of
`insertedIndex n` with key 30 and value 2. -/
def childSplitIndex (n : Nat) : BTreeIndex :=
  (InsertRecursion 1 (insertedIndex n) 2 30 2 0 0).splitIndexOr (sampleIndex n)

/-- A three-block image whose block 0 is an empty `Root` node that names itself
as the root (`rootnode = 0`); blocks 1 and 2 form the free list. -/
def rootAtZeroImage : BufferCache :=
  { blocksize := 256, numblocks := 3,
    blocks := fun i =>
      if i = 0 then
        { BTreeNode.construct BTREE_ROOT_NODE 8 8 256 with
          info := { nodetype := BTREE_ROOT_NODE, keysize := 8, valuesize := 8,
                    blocksize := 256, rootnode := 0, freelist := 1, numkeys := 0 } }
      else
        { BTreeNode.construct BTREE_UNALLOCATED_BLOCK 8 8 256 with
          info := { nodetype := BTREE_UNALLOCATED_BLOCK, keysize := 8, valuesize := 8,
                    blocksize := 256, rootnode := 0,
                    freelist := if i = 1 then 2 else 0, numkeys := 0 } } }

/-- The index `Attach(0, create=false)` mounts from `rootAtZeroImage`, after
`Insert(50, 1)`. -/
def rootAtZeroIndex : BTreeIndex :=
  (Insert 1 ((Attach (BTreeIndex.create 8 8 rootAtZeroImage) 0 false).indexOr (sampleIndex 0))
    50 1).indexOr (sampleIndex 0)

/-- The index after `Detach` and `Attach(0, create=false)` on `st`. -/
def detachAttach (st : BTreeIndex) : BTreeIndex :=
  (Attach (Detach st).2 0 false).indexOr (sampleIndex 0)

/-- A node with its `freelist` field blanked. -/
def eraseFreelist (n : BTreeNode) : BTreeNode :=
  { n with info := { n.info with freelist := 0 } }

/-- The index `b` differs from the index `a` at most in the contents of blocks
and in `superblock.freelist`: the superblock index, the size of the cache and
every other field of the in-memory superblock (`rootnode` and `numkeys` among
them) are the same. -/
def SameButFreelist (a b : BTreeIndex) : Prop :=
  b.superblock_index = a.superblock_index ∧
  b.buffercache.numblocks = a.buffercache.numblocks ∧
  b.buffercache.blocksize = a.buffercache.blocksize ∧
  eraseFreelist b.superblock = eraseFreelist a.superblock

/-- The live entries of a leaf, in slot order. -/
def leafEntries (b : BTreeNode) : List (Nat × Nat) :=
  (List.range b.info.numkeys).map (fun i => (b.keys i, b.vals i))

/-- The sequence obtained by inserting the entry `(k, v)` into a sequence of
entries ascending by key: before the first entry with a larger key. -/
def insertEntry (k v : Nat) : List (Nat × Nat) → List (Nat × Nat)
  | [] => [(k, v)]
  | e :: es => if k < e.1 then (k, v) :: e :: es else e :: insertEntry k v es

/-- The leaf `b3` is the leaf `b` with one more live slot and the entry `(k, v)`
placed at slot `p`: the slots before `p` are those of `b`, the slots after `p`
up to the old `numkeys` hold what the slot before them held in `b`. -/
def InsertedAt (b b3 : BTreeNode) (p k v : Nat) : Prop :=
  b3.info = { b.info with numkeys := b.info.numkeys + 1 } ∧
  (∀ j, b3.keys j =
    if j < p then b.keys j else if j = p then k
    else if j ≤ b.info.numkeys then b.keys (j - 1) else b.keys j) ∧
  (∀ j, b3.vals j =
    if j < p then b.vals j else if j = p then v
    else if j ≤ b.info.numkeys then b.vals (j - 1) else b.vals j)

/-- The block ids of the tree below block `node`, the node first and then the
subtrees of `ptr[0..numkeys]` left to right; `none` as for `leafKeyTotal`. -/
def treeBlocks (c : BufferCache) : Nat → Nat → Option (List Nat)
  | 0, _ => none
  | fuel + 1, node =>
    match Unserialize c node with
    | .error _ => none
    | .ok b =>
      if b.info.nodetype.isInterior then
        if b.info.numkeys = 0 then some [node]
        else
          ((List.range (b.info.numkeys + 1)).mapM
            (fun i => treeBlocks c fuel (b.ptrs i))).map (fun ls => node :: ls.flatten)
      else if b.info.nodetype = BTREE_LEAF_NODE then some [node]
      else none

/-- Whether, at key slot `i` of the node `b`, every key stored below `ptr[i]`
stands in `left` to `key[i]` and `key[i]` stands in `right` to every key stored
below `ptr[i+1]`; `false` when a subtree cannot be read. -/
def orderAt (c : BufferCache) (fuel : Nat) (left right : Nat → Nat → Bool) (b : BTreeNode)
    (i : Nat) : Bool :=
  match subtreeKeys c fuel (b.ptrs i), subtreeKeys c fuel (b.ptrs (i + 1)) with
  | some l, some r => l.all (fun x => left x (b.keys i)) && r.all (fun x => right (b.keys i) x)
  | _, _ => false

/-- Whether `orderAt` holds at every key slot of every root or interior node of
the tree below block `root`; `false` when the tree cannot be read. -/
def searchOrder (c : BufferCache) (fuel : Nat) (left right : Nat → Nat → Bool) (root : Nat) :
    Bool :=
  match treeBlocks c fuel root with
  | none => false
  | some nodes =>
    nodes.all (fun node =>
      !(c.blocks node).info.nodetype.isInterior ||
        (List.range (c.blocks node).info.numkeys).all
          (fun i => orderAt c fuel left right (c.blocks node) i))

/-- The operations on an attached index: the data operations, `SanityCheck`
(with what its local `totalKeys` holds), `Detach`, and `Detach` followed by
`Attach(0, create=false)`. -/
inductive Op where
  | insert : Nat → Nat → Op
  | update : Nat → Nat → Op
  | lookup : Nat → Op
  | delete : Nat → Op
  | sanityCheck : Nat → Op
  | detach : Op
  | reattach : Op

/-- The index after the operation `op` when it returned `NoError`; `none` when it
returned another code or did not return. -/
def applyOp (fuel : Nat) (st : BTreeIndex) : Op → Option BTreeIndex
  | .insert k v =>
    match Insert fuel st k v with
    | .ret (rc, st1) => if rc = ERROR_NOERROR then some st1 else none
    | _ => none
  | .update k v =>
    match Update fuel st k v with
    | .ret (rc, st1) => if rc = ERROR_NOERROR then some st1 else none
    | _ => none
  | .lookup k =>
    match Lookup fuel st k 0 with
    | .ret (rc, _) => if rc = ERROR_NOERROR then some st else none
    | _ => none
  | .delete k =>
    match Delete st k with
    | (rc, st1) => if rc = ERROR_NOERROR then some st1 else none
  | .sanityCheck totalKeys =>
    if SanityCheck st totalKeys = ERROR_NOERROR then some st else none
  | .detach =>
    match Detach st with
    | (rc, st1) => if rc = ERROR_NOERROR then some st1 else none
  | .reattach =>
    match Detach st with
    | (rc, st1) =>
      if rc = ERROR_NOERROR then
        match Attach st1 0 false with
        | .ret (rc2, st2) => if rc2 = ERROR_NOERROR then some st2 else none
        | _ => none
      else none

/-- The index after the operations `ops`, run in order, when every one of them
returned `NoError`. -/
def runOps (fuel : Nat) : BTreeIndex → List Op → Option BTreeIndex
  | st, [] => some st
  | st, op :: ops =>
    match applyOp fuel st op with
    | some st1 => runOps fuel st1 ops
    | none => none

/-- The number of `Insert` calls in a sequence of operations. -/
def numInserts : List Op → Nat
  | [] => 0
  | .insert _ _ :: ops => numInserts ops + 1
  | _ :: ops => numInserts ops

/-- An index as `Attach(0, create=true)` leaves it over `n` blocks: an empty root
in block 1 and the blocks from 2 on chained as free. -/
structure FreshShape (n : Nat) (st : BTreeIndex) : Prop where
  sbi : st.superblock_index = 0
  nb : st.buffercache.numblocks = n
  two : 2 ≤ n
  root : st.superblock.info.rootnode = 1
  nkeys : st.superblock.info.numkeys = 0
  free : st.superblock.info.freelist = 2
  rootType : (st.buffercache.blocks 1).info.nodetype = BTREE_ROOT_NODE
  rootKeys : (st.buffercache.blocks 1).info.numkeys = 0
  chain : ∀ j, 2 ≤ j → j < n →
    (st.buffercache.blocks j).info.nodetype = BTREE_UNALLOCATED_BLOCK ∧
    (st.buffercache.blocks j).info.freelist = if j + 1 = n then 0 else j + 1

/-- An index as the first insert, of key `k`, leaves it over `n` blocks: the root
in block 1 with the one key `k` and the children 2 and 3, the leaf 2 holding `k`,
the leaf 3 empty, and the blocks from 4 on chained as free. -/
structure OneKeyShape (n : Nat) (st : BTreeIndex) (k : Nat) : Prop where
  sbi : st.superblock_index = 0
  nb : st.buffercache.numblocks = n
  four : 4 ≤ n
  root : st.superblock.info.rootnode = 1
  nkeys : st.superblock.info.numkeys = 1
  free : st.superblock.info.freelist = if 4 = n then 0 else 4
  rootType : (st.buffercache.blocks 1).info.nodetype = BTREE_ROOT_NODE
  rootKeys : (st.buffercache.blocks 1).info.numkeys = 1
  rootKey : (st.buffercache.blocks 1).keys 0 = k
  rootLeft : (st.buffercache.blocks 1).ptrs 0 = 2
  rootRight : (st.buffercache.blocks 1).ptrs 1 = 3
  leftType : (st.buffercache.blocks 2).info.nodetype = BTREE_LEAF_NODE
  leftKeys : (st.buffercache.blocks 2).info.numkeys = 1
  leftKey : (st.buffercache.blocks 2).keys 0 = k
  rightType : (st.buffercache.blocks 3).info.nodetype = BTREE_LEAF_NODE
  rightKeys : (st.buffercache.blocks 3).info.numkeys = 0
  chain : ∀ j, 4 ≤ j → j < n →
    (st.buffercache.blocks j).info.nodetype = BTREE_UNALLOCATED_BLOCK ∧
    (st.buffercache.blocks j).info.freelist = if j + 1 = n then 0 else j + 1

/-- The index holds `m` keys in one of the two shapes an index can reach. -/
def ShapeCount (n : Nat) (st : BTreeIndex) (m : Nat) : Prop :=
  (m = 0 ∧ FreshShape n st) ∨ (m = 1 ∧ ∃ k, OneKeyShape n st k)

/-- A sequence of operations that all return `NoError` on `freshIndex 5`. -/
def sampleOps : List Op :=
  [.insert 50 1, .update 50 9, .lookup 50, .detach, .reattach, .sanityCheck 1]

/-- The index after `sampleOps` on `freshIndex 5`. -/
def ranIndex : BTreeIndex :=
  (runOps 2 (freshIndex 5) sampleOps).getD (sampleIndex 5)

/-- The index after `InsertRecursion` on the root of `insertedIndex n` with the
larger key 70 (value 2). -/
def lastSplitIndex (n : Nat) : BTreeIndex :=
  (InsertRecursion 2 (insertedIndex n) 1 70 2 0 0).splitIndexOr (sampleIndex n)

/-- A root node with the three keys 10, 20, 30 and four child pointers, 2 and 3
in turn. -/
def sampleInterior : BTreeNode :=
  { BTreeNode.construct BTREE_ROOT_NODE 8 8 256 with
    info := { (BTreeNode.construct BTREE_ROOT_NODE 8 8 256).info with numkeys := 3 },
    keys := fun i => 10 * (i + 1),
    ptrs := fun i => if i % 2 = 0 then 2 else 3 }

/-- The result `r` is that of a split that tries to allocate a block on the
index `st` and promotes the key `pk`: it is what `AllocateNode st` decides. When
the allocation aborts so does `r`; when it returns another code than `NoError`,
`r` returns that code; when it succeeds, `r` returns with the allocated block as
the promoted child. -/
def SplitsWithAlloc (r : Res InsertResult) (st : BTreeIndex) (pk : Nat) : Prop :=
  match AllocateNode st with
  | .abort => r = .abort
  | .nofuel => r = .nofuel
  | .ret (rc1, n1, st1) =>
    if rc1 ≠ ERROR_NOERROR then r = .ret (rc1, pk, n1, st1)
    else ∃ rc st2, r = .ret (rc, pk, n1, st2)

/-- The index `st` with block `j` of the cache replaced by `x`. -/
def setBlock (st : BTreeIndex) (j : Nat) (x : BTreeNode) : BTreeIndex :=
  { st with
    buffercache :=
      { st.buffercache with blocks := Function.update st.buffercache.blocks j x } }

/-- The index a successful `AllocateNode` leaves (btree.cc:81-84):
`superblock.freelist` is `link`, the `freelist` field read from the head of the
free list, and the superblock has been written to its block. -/
def popFree (st : BTreeIndex) (link : Nat) : BTreeIndex :=
  { st with
    superblock := { st.superblock with info := { st.superblock.info with freelist := link } },
    buffercache :=
      (Serialize { st.superblock with info := { st.superblock.info with freelist := link } }
        st.buffercache st.superblock_index).2 }

/-- The `freelist` field `Attach` gives the free block `j` of a cache of `n`
blocks (btree.cc:166). -/
def nextFree (n j : Nat) : Nat :=
  if j + 1 = n then 0 else j + 1

/-- The index after the operation `op`, whatever code it returned; `none` when
it did not return. -/
def stepOp (fuel : Nat) (st : BTreeIndex) : Op → Option BTreeIndex
  | .insert k v =>
    match Insert fuel st k v with
    | .ret (_, st1) => some st1
    | _ => none
  | .update k v =>
    match Update fuel st k v with
    | .ret (_, st1) => some st1
    | _ => none
  | .lookup k =>
    match Lookup fuel st k 0 with
    | .ret _ => some st
    | _ => none
  | .delete k => some (Delete st k).2
  | .sanityCheck _ => some st
  | .detach => some (Detach st).2
  | .reattach =>
    match Attach (Detach st).2 0 false with
    | .ret (_, st2) => some st2
    | _ => none

/-- A call of a public operation on an attached index: an operation of `Op`, or
`Attach(0, create)` issued again. -/
inductive Call where
  | op : Op → Call
  | attach : Bool → Call

/-- The index after the call, whatever code it returned; `none` when it did not
return. -/
def stepCall (fuel : Nat) (st : BTreeIndex) : Call → Option BTreeIndex
  | .op o => stepOp fuel st o
  | .attach create =>
    match Attach st 0 create with
    | .ret (_, st2) => some st2
    | _ => none

/-- The index after the calls `calls`, run in order, whatever codes they
returned; `none` when one of them did not return. -/
def runAny (fuel : Nat) : BTreeIndex → List Call → Option BTreeIndex
  | st, [] => some st
  | st, call :: calls =>
    match stepCall fuel st call with
    | some st1 => runAny fuel st1 calls
    | none => none

/-- The free list of an index over `n` blocks starts at block `h`, or is empty
when `h = n`. -/
def FreeAt (n h : Nat) (st : BTreeIndex) : Prop :=
  (h < n ∧ st.superblock.info.freelist = h) ∨ (h = n ∧ st.superblock.info.freelist = 0)

/-- What calls on a freshly created index over `n` blocks keep true, whatever
they return. The superblock is block 0 and names block 1 as the root, which is a
`Root` node; block 0 holds the root pointer and the head of the free list of the
in-memory superblock; the blocks from `h` on are the free blocks, chained as
`Attach` chained them. Either the root is empty, or it has one key and two
children, which are leaves among the blocks 2 to `h - 1`. -/
structure Reached (n h : Nat) (st : BTreeIndex) : Prop where
  sbi : st.superblock_index = 0
  nb : st.buffercache.numblocks = n
  lo : 2 ≤ h
  hi : h ≤ n
  root : st.superblock.info.rootnode = 1
  rootType : (st.buffercache.blocks 1).info.nodetype = BTREE_ROOT_NODE
  stored : (st.buffercache.blocks 0).info.rootnode = 1 ∧
    (st.buffercache.blocks 0).info.freelist = st.superblock.info.freelist
  chain : ∀ j, h ≤ j → j < n →
    (st.buffercache.blocks j).info.nodetype = BTREE_UNALLOCATED_BLOCK ∧
    (st.buffercache.blocks j).info.freelist = nextFree n j
  phase :
    ((st.buffercache.blocks 1).info.numkeys = 0 ∧
      (st.superblock.info.freelist = h ∨ (h = n ∧ st.superblock.info.freelist = 0))) ∨
    ((st.buffercache.blocks 1).info.numkeys = 1 ∧
      2 ≤ (st.buffercache.blocks 1).ptrs 0 ∧ (st.buffercache.blocks 1).ptrs 0 < h ∧
      2 ≤ (st.buffercache.blocks 1).ptrs 1 ∧ (st.buffercache.blocks 1).ptrs 1 < h ∧
      (st.buffercache.blocks ((st.buffercache.blocks 1).ptrs 0)).info.nodetype =
        BTREE_LEAF_NODE ∧
      (st.buffercache.blocks ((st.buffercache.blocks 1).ptrs 1)).info.nodetype =
        BTREE_LEAF_NODE ∧
      FreeAt n h st)

/-- A sequence of calls on `freshIndex 5` of which the second `Insert` returns
`SizeError` and the `Update` returns `NotFound`; the `Attach` is issued without a
`Detach` before it. -/
def mixedOps : List Call :=
  [.op (.insert 50 1), .op (.insert 30 2), .attach false, .op (.update 50 9),
    .op (.lookup 30), .op .detach]

/-- The index after `mixedOps` on `freshIndex 5`. -/
def mixedIndex : BTreeIndex :=
  (runAny 2 (freshIndex 5) mixedOps).getD (sampleIndex 5)

/-! ## Attach and the free list -/

theorem attachFreeList_spec (ks vs sbi : Nat) :
    ∀ (m : Nat) (i : Nat) (c : BufferCache), c.numblocks ≤ m + i →
      (attachFreeList ks vs sbi m i c).1 = ERROR_NOERROR ∧
      (attachFreeList ks vs sbi m i c).2.numblocks = c.numblocks ∧
      (attachFreeList ks vs sbi m i c).2.blocksize = c.blocksize ∧
      (∀ j, j < i → (attachFreeList ks vs sbi m i c).2.blocks j = c.blocks j) ∧
      (∀ j, i ≤ j → j < c.numblocks →
        (attachFreeList ks vs sbi m i c).2.blocks j = newfreenode ks vs c sbi j) := by
  intro m
  induction m with
  | zero =>
    intro i c h
    refine ⟨rfl, rfl, rfl, fun _ _ => rfl, ?_⟩
    intro j h1 h2
    omega
  | succ m ih =>
    intro i c h
    by_cases hi : i < c.numblocks
    · have hstep : attachFreeList ks vs sbi (m + 1) i c =
          attachFreeList ks vs sbi m (i + 1)
            { c with blocks := Function.update c.blocks i (newfreenode ks vs c sbi i) } := by
        simp [attachFreeList, Serialize, hi]
      rw [hstep]
      have ih1 := ih (i + 1)
        { c with blocks := Function.update c.blocks i (newfreenode ks vs c sbi i) }
        (by simp only; omega)
      obtain ⟨h1, h2, h3, h4, h5⟩ := ih1
      refine ⟨h1, h2, h3, ?_, ?_⟩
      · intro j hj
        rw [h4 j (by omega)]
        simp only
        rw [Function.update_noteq (by omega)]
      · intro j hj1 hj2
        rcases Nat.eq_or_lt_of_le hj1 with heq | hlt
        · subst heq
          rw [h4 i (by omega)]
          simp
        · rw [h5 j (by omega) hj2]
          rfl
    · have hstep : attachFreeList ks vs sbi (m + 1) i c = (ERROR_NOERROR, c) := by
        simp [attachFreeList, hi]
      rw [hstep]
      refine ⟨rfl, rfl, rfl, fun _ _ => rfl, ?_⟩
      intro j h1 h2
      omega

/-- The index that `Attach(0, create=true)` leaves when the cache has at least
two blocks, written out. -/
theorem Attach_create_eq (st : BTreeIndex) (h : 2 ≤ st.buffercache.numblocks) :
    ∃ st1, Attach st 0 true = .ret (ERROR_NOERROR, st1) ∧
      st1.superblock_index = 0 ∧
      st1.buffercache.numblocks = st.buffercache.numblocks ∧
      st1.buffercache.blocksize = st.buffercache.blocksize ∧
      st1.superblock = st1.buffercache.blocks 0 ∧
      st1.buffercache.blocks 0 =
        { BTreeNode.construct BTREE_SUPERBLOCK st.superblock.info.keysize
            st.superblock.info.valuesize st.buffercache.blocksize with
          info := { nodetype := BTREE_SUPERBLOCK, keysize := st.superblock.info.keysize,
                    valuesize := st.superblock.info.valuesize,
                    blocksize := st.buffercache.blocksize,
                    rootnode := 1, freelist := 2, numkeys := 0 } } ∧
      st1.buffercache.blocks 1 =
        { BTreeNode.construct BTREE_ROOT_NODE st.superblock.info.keysize
            st.superblock.info.valuesize st.buffercache.blocksize with
          info := { nodetype := BTREE_ROOT_NODE, keysize := st.superblock.info.keysize,
                    valuesize := st.superblock.info.valuesize,
                    blocksize := st.buffercache.blocksize,
                    rootnode := 1, freelist := 2, numkeys := 0 } } ∧
      (∀ j, 2 ≤ j → j < st.buffercache.numblocks →
        st1.buffercache.blocks j =
          newfreenode st.superblock.info.keysize st.superblock.info.valuesize
            st.buffercache 0 j) := by
  have h0 : 0 < st.buffercache.numblocks := by omega
  have h1 : 1 < st.buffercache.numblocks := by omega
  set c2 : BufferCache :=
    { st.buffercache with
      blocks := Function.update
        (Function.update st.buffercache.blocks 0
          { BTreeNode.construct BTREE_SUPERBLOCK st.superblock.info.keysize
              st.superblock.info.valuesize st.buffercache.blocksize with
            info := { nodetype := BTREE_SUPERBLOCK, keysize := st.superblock.info.keysize,
                      valuesize := st.superblock.info.valuesize,
                      blocksize := st.buffercache.blocksize,
                      rootnode := 1, freelist := 2, numkeys := 0 } })
        1
        { BTreeNode.construct BTREE_ROOT_NODE st.superblock.info.keysize
            st.superblock.info.valuesize st.buffercache.blocksize with
          info := { nodetype := BTREE_ROOT_NODE, keysize := st.superblock.info.keysize,
                    valuesize := st.superblock.info.valuesize,
                    blocksize := st.buffercache.blocksize,
                    rootnode := 1, freelist := 2, numkeys := 0 } } } with hc2
  obtain ⟨e1, e2, e3, e4, e5⟩ :=
    attachFreeList_spec st.superblock.info.keysize st.superblock.info.valuesize 0
      c2.numblocks 2 c2 (by omega)
  have hn2 : c2.numblocks = st.buffercache.numblocks := rfl
  refine ⟨{ buffercache := (attachFreeList st.superblock.info.keysize
              st.superblock.info.valuesize 0 c2.numblocks 2 c2).2,
            superblock_index := 0,
            superblock := (attachFreeList st.superblock.info.keysize
              st.superblock.info.valuesize 0 c2.numblocks 2 c2).2.blocks 0 }, ?_, rfl, ?_, ?_,
          rfl, ?_, ?_, ?_⟩
  · have hlt : 0 < (attachFreeList st.superblock.info.keysize
        st.superblock.info.valuesize 0 c2.numblocks 2 c2).2.numblocks := by
      rw [e2]; exact h0
    simp only [Attach, Serialize, Unserialize, BTreeNode.construct, h0, h1, if_true,
      ne_eq, not_true_eq_false, if_false, zero_add, Function.update]
    simp only [Function.update, BTreeNode.construct, zero_add] at hc2 e1 hlt
    rw [← hc2]
    simp [e1, hlt]
  · rw [e2]
  · rw [e3]
  · simp only
    rw [e4 0 (by omega), hc2]
    simp
  · simp only
    rw [e4 1 (by omega), hc2]
    simp
  · intro j hj1 hj2
    simp only
    rw [e5 j hj1 (by rw [hn2]; exact hj2)]
    rfl

/-- C7. Fresh attach: on a cache with at least two blocks `Attach(0, create=true)`
returns `NoError`; afterwards block 0 is a `Superblock` with `rootnode = 1`,
`freelist = 2`, `numkeys = 0`, the key and value sizes the index was configured
with and the block size of the cache; block 1 is a `Root` node with
`numkeys = 0`; and the in-memory superblock equals the contents of block 0. -/
theorem C7_fresh_attach (st : BTreeIndex) (h : 2 ≤ st.buffercache.numblocks) :
    ∃ st1, Attach st 0 true = .ret (ERROR_NOERROR, st1) ∧
      (st1.buffercache.blocks 0).info =
        { nodetype := BTREE_SUPERBLOCK, keysize := st.superblock.info.keysize,
          valuesize := st.superblock.info.valuesize,
          blocksize := st.buffercache.blocksize,
          rootnode := 1, freelist := 2, numkeys := 0 } ∧
      (st1.buffercache.blocks 1).info.nodetype = BTREE_ROOT_NODE ∧
      (st1.buffercache.blocks 1).info.numkeys = 0 ∧
      st1.superblock = st1.buffercache.blocks 0 := by
  obtain ⟨st1, h1, _, _, _, h5, h6, h7, _⟩ := Attach_create_eq st h
  exact ⟨st1, h1, by rw [h6], by rw [h7], by rw [h7], h5⟩

/-- C7 on the sample index over three blocks. -/
theorem C7_fresh_attach_witness :
    2 ≤ (sampleIndex 3).buffercache.numblocks ∧
    ∃ st1, Attach (sampleIndex 3) 0 true = .ret (ERROR_NOERROR, st1) ∧
      (st1.buffercache.blocks 0).info =
        { nodetype := BTREE_SUPERBLOCK, keysize := (sampleIndex 3).superblock.info.keysize,
          valuesize := (sampleIndex 3).superblock.info.valuesize,
          blocksize := (sampleIndex 3).buffercache.blocksize,
          rootnode := 1, freelist := 2, numkeys := 0 } ∧
      (st1.buffercache.blocks 1).info.nodetype = BTREE_ROOT_NODE ∧
      (st1.buffercache.blocks 1).info.numkeys = 0 ∧
      st1.superblock = st1.buffercache.blocks 0 :=
  ⟨by decide, C7_fresh_attach (sampleIndex 3) (by decide)⟩

theorem freeChain_fresh (c : BufferCache) (n : Nat) (hn : c.numblocks = n)
    (hb : ∀ j, 2 ≤ j → j < n → (c.blocks j).info.freelist = if j + 1 = n then 0 else j + 1) :
    ∀ (d i : Nat), 2 ≤ i → i + d = n → ∀ fuel, d + 1 ≤ fuel →
      freeChain c fuel (if d = 0 then 0 else i) = some (List.range' i d) := by
  intro d
  induction d with
  | zero =>
    intro i _ _ fuel hf
    obtain ⟨f, rfl⟩ : ∃ f, fuel = f + 1 := ⟨fuel - 1, by omega⟩
    simp [freeChain]
  | succ d ih =>
    intro i hi hid fuel hf
    obtain ⟨f, rfl⟩ : ∃ f, fuel = f + 1 := ⟨fuel - 1, by omega⟩
    have hlt : i < c.numblocks := by omega
    have hi0 : i ≠ 0 := by omega
    have hfl := hb i hi (by omega)
    have ih1 := ih (i + 1) (by omega) (by omega) f (by omega)
    simp only [freeChain, Nat.succ_ne_zero, if_false, hi0, Unserialize, hlt, if_true, hfl]
    by_cases hd : d = 0
    · subst hd
      have : i + 1 = n := by omega
      simp only [this, if_true] at ih1 ⊢
      rw [ih1]
      simp [List.range']
    · have : ¬ i + 1 = n := by omega
      simp only [this, if_false, hd] at ih1 ⊢
      rw [ih1]
      simp [List.range']

/-- C8. Initial free list: after `Attach(0, create=true)` on a cache with
`n >= 3` blocks, every block `i` with `2 <= i <= n-1` is `Unallocated`, its
`freelist` field is `i+1` for `i < n-1` and 0 for `i = n-1`, and following
`freelist` fields from `superblock.freelist` visits exactly the blocks
2, 3, ..., n-1, once each in ascending order, and then reaches 0. -/
theorem C8_initial_free_list (st : BTreeIndex) (h : 3 ≤ st.buffercache.numblocks) :
    ∃ st1, Attach st 0 true = .ret (ERROR_NOERROR, st1) ∧
      (∀ i, 2 ≤ i → i < st.buffercache.numblocks →
        (st1.buffercache.blocks i).info.nodetype = BTREE_UNALLOCATED_BLOCK ∧
        (st1.buffercache.blocks i).info.freelist =
          if i + 1 = st.buffercache.numblocks then 0 else i + 1) ∧
      (∀ fuel, st.buffercache.numblocks ≤ fuel + 1 →
        freeChain st1.buffercache fuel st1.superblock.info.freelist =
          some (List.range' 2 (st.buffercache.numblocks - 2))) := by
  obtain ⟨st1, h1, _, h3, _, h5, h6, _, h8⟩ := Attach_create_eq st (by omega)
  have hblocks : ∀ i, 2 ≤ i → i < st.buffercache.numblocks →
      (st1.buffercache.blocks i).info.nodetype = BTREE_UNALLOCATED_BLOCK ∧
      (st1.buffercache.blocks i).info.freelist =
        if i + 1 = st.buffercache.numblocks then 0 else i + 1 := by
    intro i hi1 hi2
    rw [h8 i hi1 hi2]
    exact ⟨rfl, rfl⟩
  refine ⟨st1, h1, hblocks, ?_⟩
  intro fuel hf
  have hfl : st1.superblock.info.freelist = 2 := by rw [h5, h6]
  have key := freeChain_fresh st1.buffercache st.buffercache.numblocks h3
    (fun j a b => (hblocks j a b).2) (st.buffercache.numblocks - 2) 2 (by omega) (by omega)
    fuel (by omega)
  have hd : ¬ st.buffercache.numblocks - 2 = 0 := by omega
  simp only [hd, if_false] at key
  rw [hfl]
  exact key

/-- C8 on the sample index over five blocks. -/
theorem C8_initial_free_list_witness :
    3 ≤ (sampleIndex 5).buffercache.numblocks ∧
    ∃ st1, Attach (sampleIndex 5) 0 true = .ret (ERROR_NOERROR, st1) ∧
      (∀ i, 2 ≤ i → i < (sampleIndex 5).buffercache.numblocks →
        (st1.buffercache.blocks i).info.nodetype = BTREE_UNALLOCATED_BLOCK ∧
        (st1.buffercache.blocks i).info.freelist =
          if i + 1 = (sampleIndex 5).buffercache.numblocks then 0 else i + 1) ∧
      (∀ fuel, (sampleIndex 5).buffercache.numblocks ≤ fuel + 1 →
        freeChain st1.buffercache fuel st1.superblock.info.freelist =
          some (List.range' 2 ((sampleIndex 5).buffercache.numblocks - 2))) :=
  ⟨by decide, C8_initial_free_list (sampleIndex 5) (by decide)⟩

/-! ## The allocator -/

/-- C9, as stated, fails: mounted on an image whose free-list head is the root
block, `AllocateNode` finds `superblock.freelist = 1`, not 0, and does not
return `NoError`: its `assert` on the node type aborts the call. -/
theorem C9_counterexample :
    Attach (BTreeIndex.create 8 8 crossedImage) 0 false = .ret (ERROR_NOERROR, crossedIndex) ∧
    crossedIndex.superblock.info.freelist = 1 ∧
    (crossedIndex.buffercache.blocks 1).info.nodetype = BTREE_ROOT_NODE ∧
    AllocateNode crossedIndex = .abort := by
  refine ⟨rfl, rfl, rfl, rfl⟩

/-- C9, amended. On an attached index (`superblock_index = 0`): if
`superblock.freelist` is 0, `AllocateNode` returns `NoSpace` and changes
nothing; otherwise, when the block `n = superblock.freelist` lies in the cache
and is `Unallocated` (what `AllocateNode` asserts), it returns `NoError` with
block id `n`, sets `superblock.freelist` to the `freelist` field stored in block
`n`, writes the updated superblock to block 0, and leaves every other block,
block `n` included, unchanged. -/
theorem C9_allocate (st : BTreeIndex) (hsb : st.superblock_index = 0)
    (hfree : st.superblock.info.freelist ≠ 0 →
      st.superblock.info.freelist < st.buffercache.numblocks ∧
      (st.buffercache.blocks st.superblock.info.freelist).info.nodetype =
        BTREE_UNALLOCATED_BLOCK) :
    (st.superblock.info.freelist = 0 → AllocateNode st = .ret (ERROR_NOSPACE, 0, st)) ∧
    (st.superblock.info.freelist ≠ 0 →
      ∃ st1, AllocateNode st = .ret (ERROR_NOERROR, st.superblock.info.freelist, st1) ∧
        st1.superblock =
          { st.superblock with
            info := { st.superblock.info with
                      freelist :=
                        (st.buffercache.blocks st.superblock.info.freelist).info.freelist } } ∧
        st1.buffercache.blocks 0 = st1.superblock ∧
        (∀ j, j ≠ 0 → st1.buffercache.blocks j = st.buffercache.blocks j) ∧
        st1.buffercache.numblocks = st.buffercache.numblocks ∧
        st1.buffercache.blocksize = st.buffercache.blocksize ∧
        st1.superblock_index = st.superblock_index) := by
  constructor
  · intro h0
    simp only [AllocateNode, h0, if_true]
  · intro hne
    obtain ⟨hlt, hty⟩ := hfree hne
    have h0 : 0 < st.buffercache.numblocks := by omega
    have ha : AllocateNode st = .ret (ERROR_NOERROR, st.superblock.info.freelist,
        { st with
          superblock :=
            { st.superblock with
              info := { st.superblock.info with
                        freelist :=
                          (st.buffercache.blocks st.superblock.info.freelist).info.freelist } },
          buffercache :=
            { st.buffercache with
              blocks := Function.update st.buffercache.blocks 0
                { st.superblock with
                  info := { st.superblock.info with
                            freelist :=
                              (st.buffercache.blocks
                                st.superblock.info.freelist).info.freelist } } } }) := by
      simp [AllocateNode, hne, Unserialize, hlt, hty, Serialize, hsb, h0]
    refine ⟨_, ha, rfl, ?_, ?_, rfl, rfl, rfl⟩
    · simp
    · intro j hj
      simp [Function.update_noteq hj]

/-- C9, amended, on the fresh index over four blocks: block 2 is handed out and
the free list then starts at block 3. -/
theorem C9_allocate_witness :
    (freshIndex 4).superblock.info.freelist = 2 ∧
    ∃ st1, AllocateNode (freshIndex 4) = .ret (ERROR_NOERROR, 2, st1) ∧
      st1.superblock.info.freelist = 3 :=
  ⟨rfl, by
    obtain ⟨st1, h1, h2, _⟩ :=
      (C9_allocate (freshIndex 4) rfl (fun _ => ⟨by decide, rfl⟩)).2 (by decide)
    exact ⟨st1, h1, by rw [h2]; rfl⟩⟩

/-- C10, as stated, fails for block 0: the superblock is not `Unallocated`, yet
after `DeallocateNode(0)` block 0 holds the superblock again, not an
`Unallocated` node, and the `AllocateNode` that follows returns `NoSpace`
instead of block 0. -/
theorem C10_counterexample :
    (freshIndex 4).superblock.info.freelist = 2 ∧
    ((freshIndex 4).buffercache.blocks 0).info.nodetype = BTREE_SUPERBLOCK ∧
    ∃ st1, DeallocateNode (freshIndex 4) 0 = .ret (ERROR_NOERROR, st1) ∧
      (st1.buffercache.blocks 0).info.nodetype = BTREE_SUPERBLOCK ∧
      AllocateNode st1 = .ret (ERROR_NOSPACE, 0, st1) :=
  ⟨rfl, rfl, ((DeallocateNode (freshIndex 4) 0).indexOr (sampleIndex 0)), rfl, rfl, rfl⟩

/-- C10, amended. The free list is a stack: on an attached index
(`superblock_index = 0`), for every block id `b` of the cache other than block 0
whose node is not `Unallocated`, `DeallocateNode(b)` returns `NoError` and
leaves block `b` `Unallocated` with its `freelist` field holding the previous
head and `superblock.freelist = b`; the `AllocateNode` that follows returns the
same block id `b` and restores `superblock.freelist` to the value it had before
the `DeallocateNode`. -/
theorem C10_free_list_stack (st : BTreeIndex) (b : Nat) (hsb : st.superblock_index = 0)
    (hb0 : b ≠ 0) (hb : b < st.buffercache.numblocks)
    (hty : (st.buffercache.blocks b).info.nodetype ≠ BTREE_UNALLOCATED_BLOCK) :
    ∃ st1 st2, DeallocateNode st b = .ret (ERROR_NOERROR, st1) ∧
      (st1.buffercache.blocks b).info.nodetype = BTREE_UNALLOCATED_BLOCK ∧
      (st1.buffercache.blocks b).info.freelist = st.superblock.info.freelist ∧
      st1.superblock.info.freelist = b ∧
      AllocateNode st1 = .ret (ERROR_NOERROR, b, st2) ∧
      st2.superblock.info.freelist = st.superblock.info.freelist := by
  have h0 : 0 < st.buffercache.numblocks := by omega
  have hd : DeallocateNode st b = .ret (ERROR_NOERROR,
      { st with
        superblock := { st.superblock with info := { st.superblock.info with freelist := b } },
        buffercache :=
          { st.buffercache with
            blocks := Function.update
              (Function.update st.buffercache.blocks b
                { st.buffercache.blocks b with
                  info := { (st.buffercache.blocks b).info with
                            nodetype := BTREE_UNALLOCATED_BLOCK,
                            freelist := st.superblock.info.freelist } })
              0 { st.superblock with info := { st.superblock.info with freelist := b } } } }) := by
    simp [DeallocateNode, Unserialize, Serialize, hb, hty, hsb, h0]
  have ha : AllocateNode
      { st with
        superblock := { st.superblock with info := { st.superblock.info with freelist := b } },
        buffercache :=
          { st.buffercache with
            blocks := Function.update
              (Function.update st.buffercache.blocks b
                { st.buffercache.blocks b with
                  info := { (st.buffercache.blocks b).info with
                            nodetype := BTREE_UNALLOCATED_BLOCK,
                            freelist := st.superblock.info.freelist } })
              0 { st.superblock with info := { st.superblock.info with freelist := b } } } } =
      .ret (ERROR_NOERROR, b,
        { st with
          superblock := st.superblock,
          buffercache :=
            { st.buffercache with
              blocks := Function.update
                (Function.update
                  (Function.update st.buffercache.blocks b
                    { st.buffercache.blocks b with
                      info := { (st.buffercache.blocks b).info with
                                nodetype := BTREE_UNALLOCATED_BLOCK,
                                freelist := st.superblock.info.freelist } })
                  0 { st.superblock with info := { st.superblock.info with freelist := b } })
                0 st.superblock } }) := by
    simp [AllocateNode, Unserialize, Serialize, hb, hb0, hsb, h0, Function.update_noteq hb0]
  refine ⟨_, _, hd, ?_, ?_, rfl, ha, rfl⟩
  · simp [Function.update_noteq hb0]
  · simp [Function.update_noteq hb0]

/-- C10, amended, for the root block of the fresh index over four blocks. -/
theorem C10_free_list_stack_witness :
    ∃ st1 st2, DeallocateNode (freshIndex 4) 1 = .ret (ERROR_NOERROR, st1) ∧
      (st1.buffercache.blocks 1).info.nodetype = BTREE_UNALLOCATED_BLOCK ∧
      (st1.buffercache.blocks 1).info.freelist = (freshIndex 4).superblock.info.freelist ∧
      st1.superblock.info.freelist = 1 ∧
      AllocateNode st1 = .ret (ERROR_NOERROR, 1, st2) ∧
      st2.superblock.info.freelist = (freshIndex 4).superblock.info.freelist :=
  C10_free_list_stack (freshIndex 4) 1 rfl (by decide) (by decide) (by decide)

/-! ## Lookup and Update -/

theorem Unserialize_ok {c : BufferCache} {node : Nat} {b : BTreeNode}
    (h : Unserialize c node = .ok b) : node < c.numblocks ∧ b = c.blocks node := by
  unfold Unserialize at h
  split at h
  · rename_i hlt
    simp only [Except.ok.injEq] at h
    exact ⟨hlt, h.symm⟩
  · simp at h

theorem Unserialize_error {c : BufferCache} {node : Nat} {rc : ERROR_T}
    (h : Unserialize c node = .error rc) : ¬ node < c.numblocks ∧ rc = ERROR_CACHE := by
  unfold Unserialize at h
  split at h
  · simp at h
  · rename_i hlt
    simp only [Except.error.injEq] at h
    exact ⟨hlt, h.symm⟩

theorem isInterior_not_leaf {t : NodeType} (h : t.isInterior = true) :
    t ≠ BTREE_LEAF_NODE := by
  cases t <;> simp [NodeType.isInterior] at h ⊢

theorem GetKey_interior {b : BTreeNode} {i : Nat} (ht : b.info.nodetype.isInterior = true)
    (hi : i < b.info.numkeys) : GetKey b i = .ok (b.keys i) := by
  simp [GetKey, ht, hi]

theorem GetKey_leaf {b : BTreeNode} {i : Nat} (ht : b.info.nodetype = BTREE_LEAF_NODE)
    (hi : i < b.info.numkeys) : GetKey b i = .ok (b.keys i) := by
  simp [GetKey, ht, hi]

theorem GetPtr_interior {b : BTreeNode} {i : Nat} (ht : b.info.nodetype.isInterior = true)
    (hi : i ≤ b.info.numkeys) : GetPtr b i = .ok (b.ptrs i) := by
  simp [GetPtr, ht, hi]

theorem GetVal_leaf {b : BTreeNode} {i : Nat} (ht : b.info.nodetype = BTREE_LEAF_NODE)
    (hi : i < b.info.numkeys) : GetVal b i = .ok (b.vals i) := by
  simp [GetVal, ht, hi]

theorem SetVal_leaf {b : BTreeNode} {i v : Nat} (ht : b.info.nodetype = BTREE_LEAF_NODE)
    (hi : i < b.info.numkeys) :
    SetVal b i v = .ok { b with vals := Function.update b.vals i v } := by
  simp [SetVal, ht, hi]

/-- On a root or interior node the key scan ends past the last key or at a live
slot, never with an accessor error. -/
theorem findSlot_interior (b : BTreeNode) (key : Nat)
    (ht : b.info.nodetype.isInterior = true) :
    ∀ (m i : Nat), findSlot b key m i = .last ∨
      ∃ off, i ≤ off ∧ off < b.info.numkeys ∧ findSlot b key m i = .slot off (b.keys off) := by
  intro m
  induction m with
  | zero => intro i; exact Or.inl rfl
  | succ m ih =>
    intro i
    by_cases hi : i < b.info.numkeys
    · by_cases hk : key < b.keys i ∨ key = b.keys i
      · right
        refine ⟨i, le_refl _, hi, ?_⟩
        simp [findSlot, hi, GetKey_interior ht hi, hk]
      · have hstep : findSlot b key (m + 1) i = findSlot b key m (i + 1) := by
          simp [findSlot, hi, GetKey_interior ht hi, hk]
        rw [hstep]
        rcases ih (i + 1) with h | ⟨off, h1, h2, h3⟩
        · exact Or.inl h
        · exact Or.inr ⟨off, by omega, h2, h3⟩
    · left
      simp [findSlot, hi]

/-- On a leaf the equality scan finds nothing or the first live slot holding the
key, never an accessor error. -/
theorem leafFind_leaf (b : BTreeNode) (key : Nat)
    (ht : b.info.nodetype = BTREE_LEAF_NODE) :
    ∀ (m i : Nat), leafFind b key m i = .ok none ∨
      ∃ off, i ≤ off ∧ off < b.info.numkeys ∧ b.keys off = key ∧
        (∀ j, i ≤ j → j < off → b.keys j ≠ key) ∧ leafFind b key m i = .ok (some off) := by
  intro m
  induction m with
  | zero => intro i; exact Or.inl rfl
  | succ m ih =>
    intro i
    by_cases hi : i < b.info.numkeys
    · by_cases hk : b.keys i = key
      · right
        refine ⟨i, le_refl _, hi, hk, ?_, ?_⟩
        · intro j h1 h2; omega
        · simp [leafFind, hi, GetKey_leaf ht hi, hk]
      · have hstep : leafFind b key (m + 1) i = leafFind b key m (i + 1) := by
          simp [leafFind, hi, GetKey_leaf ht hi, hk]
        rw [hstep]
        rcases ih (i + 1) with h | ⟨off, h1, h2, h3, h4, h5⟩
        · exact Or.inl h
        · refine Or.inr ⟨off, by omega, h2, h3, ?_, h5⟩
          intro j hj1 hj2
          rcases Nat.eq_or_lt_of_le hj1 with heq | hlt
          · subst heq; exact hk
          · exact h4 j (by omega) hj2
    · left
      simp [leafFind, hi]

theorem LOU_unreadable (fuel : Nat) (c : BufferCache) (node : Nat) (op : BTreeOp)
    (key value : Nat) (h : ¬ node < c.numblocks) :
    LookupOrUpdateInternal (fuel + 1) c node op key value = .ret (ERROR_CACHE, value, c) := by
  simp [LookupOrUpdateInternal, Unserialize, h]

theorem LOU_interior_empty (fuel : Nat) (c : BufferCache) (node : Nat) (op : BTreeOp)
    (key value : Nat) (h : node < c.numblocks)
    (ht : (c.blocks node).info.nodetype.isInterior = true)
    (hn : (c.blocks node).info.numkeys = 0) :
    LookupOrUpdateInternal (fuel + 1) c node op key value =
      .ret (ERROR_NONEXISTENT, value, c) := by
  simp [LookupOrUpdateInternal, Unserialize, h, ht, hn, findSlot]

theorem LOU_interior (fuel : Nat) (c : BufferCache) (node : Nat) (op : BTreeOp)
    (key value : Nat) (h : node < c.numblocks)
    (ht : (c.blocks node).info.nodetype.isInterior = true)
    (hn : 0 < (c.blocks node).info.numkeys) :
    LookupOrUpdateInternal (fuel + 1) c node op key value =
      LookupOrUpdateInternal fuel c (childFor (c.blocks node) key) op key value := by
  rcases findSlot_interior (c.blocks node) key ht (c.blocks node).info.numkeys 0 with
    hl | ⟨off, _, hoff, hs⟩
  · simp [LookupOrUpdateInternal, Unserialize, h, ht, hn, hl, childFor,
      GetPtr_interior ht (le_refl _)]
  · simp [LookupOrUpdateInternal, Unserialize, h, ht, hs, childFor,
      GetPtr_interior ht (le_of_lt hoff)]

theorem LOU_leaf_none (fuel : Nat) (c : BufferCache) (node : Nat) (op : BTreeOp)
    (key value : Nat) (h : node < c.numblocks)
    (ht : (c.blocks node).info.nodetype = BTREE_LEAF_NODE)
    (hf : leafFind (c.blocks node) key (c.blocks node).info.numkeys 0 = .ok none) :
    LookupOrUpdateInternal (fuel + 1) c node op key value =
      .ret (ERROR_NONEXISTENT, value, c) := by
  simp [LookupOrUpdateInternal, Unserialize, h, ht, hf, NodeType.isInterior]

theorem LOU_leaf_lookup (fuel : Nat) (c : BufferCache) (node : Nat)
    (key value off : Nat) (h : node < c.numblocks)
    (ht : (c.blocks node).info.nodetype = BTREE_LEAF_NODE)
    (hoff : off < (c.blocks node).info.numkeys)
    (hf : leafFind (c.blocks node) key (c.blocks node).info.numkeys 0 = .ok (some off)) :
    LookupOrUpdateInternal (fuel + 1) c node BTREE_OP_LOOKUP key value =
      .ret (ERROR_NOERROR, (c.blocks node).vals off, c) := by
  simp [LookupOrUpdateInternal, Unserialize, h, ht, hf, NodeType.isInterior,
    GetVal_leaf ht hoff]

theorem LOU_leaf_update (fuel : Nat) (c : BufferCache) (node : Nat)
    (key value off : Nat) (h : node < c.numblocks)
    (ht : (c.blocks node).info.nodetype = BTREE_LEAF_NODE)
    (hoff : off < (c.blocks node).info.numkeys)
    (hf : leafFind (c.blocks node) key (c.blocks node).info.numkeys 0 = .ok (some off)) :
    LookupOrUpdateInternal (fuel + 1) c node BTREE_OP_UPDATE key value =
      .ret (ERROR_NOERROR, value,
        { c with
          blocks := Function.update c.blocks node
            { c.blocks node with
              vals := Function.update (c.blocks node).vals off value } }) := by
  simp [LookupOrUpdateInternal, Unserialize, h, ht, hf, NodeType.isInterior,
    SetVal_leaf ht hoff, Serialize]

theorem LOU_other (fuel : Nat) (c : BufferCache) (node : Nat) (op : BTreeOp)
    (key value : Nat) (h : node < c.numblocks)
    (ht : (c.blocks node).info.nodetype.isInterior = false)
    (hl : (c.blocks node).info.nodetype ≠ BTREE_LEAF_NODE) :
    LookupOrUpdateInternal (fuel + 1) c node op key value = .ret (ERROR_INSANE, value, c) := by
  simp [LookupOrUpdateInternal, Unserialize, h, ht, hl]

/-- What an `Update` descent that returns does: it hands `value` back; on
`NoError` it has rewritten the value slot of the first entry holding `key` in one
leaf and nothing else, and on any other code it has written nothing. -/
theorem update_effect :
    ∀ (fuel : Nat) (c : BufferCache) (node key value : Nat) (rc : ERROR_T) (v : Nat)
      (c2 : BufferCache),
      LookupOrUpdateInternal fuel c node BTREE_OP_UPDATE key value = .ret (rc, v, c2) →
      v = value ∧ (rc = ERROR_NOERROR → ∃ w off, UpdatedAt c c2 w off key value) ∧
      (rc ≠ ERROR_NOERROR → c2 = c) := by
  intro fuel
  induction fuel with
  | zero =>
    intro c node key value rc v c2 h
    simp [LookupOrUpdateInternal] at h
  | succ f ih =>
    intro c node key value rc v c2 h
    by_cases hn : node < c.numblocks
    · by_cases ht : (c.blocks node).info.nodetype.isInterior = true
      · by_cases hk : 0 < (c.blocks node).info.numkeys
        · rw [LOU_interior f c node _ key value hn ht hk] at h
          exact ih c _ key value rc v c2 h
        · rw [LOU_interior_empty f c node _ key value hn ht (by omega)] at h
          simp only [Res.ret.injEq, Prod.mk.injEq] at h
          obtain ⟨rfl, rfl, rfl⟩ := h
          simp
      · by_cases hl : (c.blocks node).info.nodetype = BTREE_LEAF_NODE
        · rcases leafFind_leaf (c.blocks node) key hl (c.blocks node).info.numkeys 0 with
            hnone | ⟨off, _, hoff, hkey, hfirst, hsome⟩
          · rw [LOU_leaf_none f c node _ key value hn hl hnone] at h
            simp only [Res.ret.injEq, Prod.mk.injEq] at h
            obtain ⟨rfl, rfl, rfl⟩ := h
            simp
          · rw [LOU_leaf_update f c node key value off hn hl hoff hsome] at h
            simp only [Res.ret.injEq, Prod.mk.injEq] at h
            obtain ⟨rfl, rfl, rfl⟩ := h
            refine ⟨rfl, fun _ => ⟨node, off, hn, hl, hoff, hkey, ?_, rfl⟩, fun hne => ?_⟩
            · intro j hj
              exact hfirst j (Nat.zero_le _) hj
            · exact absurd rfl hne
        · rw [LOU_other f c node _ key value hn (by simpa using ht) hl] at h
          simp only [Res.ret.injEq, Prod.mk.injEq] at h
          obtain ⟨rfl, rfl, rfl⟩ := h
          simp
    · rw [LOU_unreadable f c node _ key value hn] at h
      simp only [Res.ret.injEq, Prod.mk.injEq] at h
      obtain ⟨rfl, rfl, rfl⟩ := h
      simp

/-- A `Lookup` descent never writes, and it returns the same code as the
`Update` descent from the same node for the same key. -/
theorem lookup_code_eq_update_code :
    ∀ (fuel : Nat) (c : BufferCache) (node key value v0 : Nat),
      (LookupOrUpdateInternal fuel c node BTREE_OP_LOOKUP key v0).code =
        (LookupOrUpdateInternal fuel c node BTREE_OP_UPDATE key value).code := by
  intro fuel
  induction fuel with
  | zero => intro c node key value v0; rfl
  | succ f ih =>
    intro c node key value v0
    by_cases hn : node < c.numblocks
    · by_cases ht : (c.blocks node).info.nodetype.isInterior = true
      · by_cases hk : 0 < (c.blocks node).info.numkeys
        · rw [LOU_interior f c node _ key value hn ht hk,
            LOU_interior f c node _ key v0 hn ht hk]
          exact ih c _ key value v0
        · rw [LOU_interior_empty f c node _ key value hn ht (by omega),
            LOU_interior_empty f c node _ key v0 hn ht (by omega)]
          rfl
      · by_cases hl : (c.blocks node).info.nodetype = BTREE_LEAF_NODE
        · rcases leafFind_leaf (c.blocks node) key hl (c.blocks node).info.numkeys 0 with
            hnone | ⟨off, _, hoff, _, _, hsome⟩
          · rw [LOU_leaf_none f c node _ key value hn hl hnone,
              LOU_leaf_none f c node _ key v0 hn hl hnone]
            rfl
          · rw [LOU_leaf_update f c node key value off hn hl hoff hsome,
              LOU_leaf_lookup f c node key v0 off hn hl hoff hsome]
            rfl
        · rw [LOU_other f c node _ key value hn (by simpa using ht) hl,
            LOU_other f c node _ key v0 hn (by simpa using ht) hl]
          rfl
    · rw [LOU_unreadable f c node _ key value hn, LOU_unreadable f c node _ key v0 hn]
      rfl

theorem lookup_no_write :
    ∀ (fuel : Nat) (c : BufferCache) (node key v0 : Nat) (rc : ERROR_T) (v : Nat)
      (c2 : BufferCache),
      LookupOrUpdateInternal fuel c node BTREE_OP_LOOKUP key v0 = .ret (rc, v, c2) → c2 = c := by
  intro fuel
  induction fuel with
  | zero =>
    intro c node key v0 rc v c2 h
    simp [LookupOrUpdateInternal] at h
  | succ f ih =>
    intro c node key v0 rc v c2 h
    by_cases hn : node < c.numblocks
    · by_cases ht : (c.blocks node).info.nodetype.isInterior = true
      · by_cases hk : 0 < (c.blocks node).info.numkeys
        · rw [LOU_interior f c node _ key v0 hn ht hk] at h
          exact ih c _ key v0 rc v c2 h
        · rw [LOU_interior_empty f c node _ key v0 hn ht (by omega)] at h
          simp only [Res.ret.injEq, Prod.mk.injEq] at h
          exact h.2.2.symm
      · by_cases hl : (c.blocks node).info.nodetype = BTREE_LEAF_NODE
        · rcases leafFind_leaf (c.blocks node) key hl (c.blocks node).info.numkeys 0 with
            hnone | ⟨off, _, hoff, _, _, hsome⟩
          · rw [LOU_leaf_none f c node _ key v0 hn hl hnone] at h
            simp only [Res.ret.injEq, Prod.mk.injEq] at h
            exact h.2.2.symm
          · rw [LOU_leaf_lookup f c node key v0 off hn hl hoff hsome] at h
            simp only [Res.ret.injEq, Prod.mk.injEq] at h
            exact h.2.2.symm
        · rw [LOU_other f c node _ key v0 hn (by simpa using ht) hl] at h
          simp only [Res.ret.injEq, Prod.mk.injEq] at h
          exact h.2.2.symm
    · rw [LOU_unreadable f c node _ key v0 hn] at h
      simp only [Res.ret.injEq, Prod.mk.injEq] at h
      exact h.2.2.symm

theorem Lookup_eq (fuel : Nat) (st : BTreeIndex) (key value : Nat) :
    Lookup fuel st key value =
      lookupResult (LookupOrUpdateInternal fuel st.buffercache st.superblock.info.rootnode
        BTREE_OP_LOOKUP key value) := by
  unfold Lookup lookupResult
  rfl

theorem GetKey_congr {b1 b2 : BTreeNode} (hi : b1.info = b2.info) (hk : b1.keys = b2.keys)
    (i : Nat) : GetKey b1 i = GetKey b2 i := by
  simp [GetKey, hi, hk]

theorem leafFind_congr {b1 b2 : BTreeNode} (hi : b1.info = b2.info) (hk : b1.keys = b2.keys)
    (key : Nat) : ∀ (m i : Nat), leafFind b1 key m i = leafFind b2 key m i := by
  intro m
  induction m with
  | zero => intro i; rfl
  | succ m ih =>
    intro i
    simp only [leafFind, GetKey_congr hi hk, hi, ih]

theorem findSlot_congr {b1 b2 : BTreeNode} (hi : b1.info = b2.info) (hk : b1.keys = b2.keys)
    (key : Nat) : ∀ (m i : Nat), findSlot b1 key m i = findSlot b2 key m i := by
  intro m
  induction m with
  | zero => intro i; rfl
  | succ m ih =>
    intro i
    simp only [findSlot, GetKey_congr hi hk, hi, ih]

theorem childFor_congr {b1 b2 : BTreeNode} (hi : b1.info = b2.info) (hk : b1.keys = b2.keys)
    (hp : b1.ptrs = b2.ptrs) (key : Nat) : childFor b1 key = childFor b2 key := by
  simp only [childFor, findSlot_congr hi hk, hi, hp]

/-- An `Update` descent that returned `NoError` is followed by a `Lookup` descent
from the same node that returns `NoError` with the value just written. -/
theorem lookup_after_update :
    ∀ (fuel : Nat) (c : BufferCache) (node key value v : Nat) (c2 : BufferCache),
      LookupOrUpdateInternal fuel c node BTREE_OP_UPDATE key value =
        .ret (ERROR_NOERROR, v, c2) →
      ∀ v0, LookupOrUpdateInternal fuel c2 node BTREE_OP_LOOKUP key v0 =
        .ret (ERROR_NOERROR, value, c2) := by
  intro fuel
  induction fuel with
  | zero =>
    intro c node key value v c2 h
    simp [LookupOrUpdateInternal] at h
  | succ f ih =>
    intro c node key value v c2 h v0
    by_cases hn : node < c.numblocks
    · by_cases ht : (c.blocks node).info.nodetype.isInterior = true
      · by_cases hk : 0 < (c.blocks node).info.numkeys
        · rw [LOU_interior f c node _ key value hn ht hk] at h
          obtain ⟨_, hupd, _⟩ := update_effect f c _ key value _ v c2 h
          obtain ⟨w, off, hw, hwl, _, _, _, hc2⟩ := hupd rfl
          have hne : node ≠ w := by
            intro heq
            subst heq
            exact isInterior_not_leaf ht hwl
          have hb : c2.blocks node = c.blocks node := by
            rw [hc2]
            simp [Function.update_noteq hne]
          have hn2 : node < c2.numblocks := by rw [hc2]; exact hn
          rw [LOU_interior f c2 node _ key v0 hn2 (by rw [hb]; exact ht) (by rw [hb]; exact hk),
            hb]
          exact ih c _ key value v c2 h v0
        · rw [LOU_interior_empty f c node _ key value hn ht (by omega)] at h
          simp at h
      · by_cases hl : (c.blocks node).info.nodetype = BTREE_LEAF_NODE
        · rcases leafFind_leaf (c.blocks node) key hl (c.blocks node).info.numkeys 0 with
            hnone | ⟨off, _, hoff, _, _, hsome⟩
          · rw [LOU_leaf_none f c node _ key value hn hl hnone] at h
            simp at h
          · rw [LOU_leaf_update f c node key value off hn hl hoff hsome] at h
            simp only [Res.ret.injEq, Prod.mk.injEq, true_and] at h
            obtain ⟨_, hc2⟩ := h
            have hfind := @leafFind_congr
              { c.blocks node with
                vals := Function.update (c.blocks node).vals off value }
              (c.blocks node) rfl rfl key (c.blocks node).info.numkeys 0
            have hb : c2.blocks node =
                { c.blocks node with
                  vals := Function.update (c.blocks node).vals off value } := by
              rw [← hc2]
              simp
            have hn2 : node < c2.numblocks := by rw [← hc2]; exact hn
            rw [LOU_leaf_lookup f c2 node key v0 off hn2 (by rw [hb]; exact hl)
              (by rw [hb]; exact hoff) (by rw [hb]; exact hfind.trans hsome), hb]
            simp
        · rw [LOU_other f c node _ key value hn (by simpa using ht) hl] at h
          simp at h
    · rw [LOU_unreadable f c node _ key value hn] at h
      simp at h

/-- C4. Update/Lookup round trip: for every index state, key `k` and value `v2`,
if `Update(k, v2)` returns `NoError` then the `Lookup(k)` that follows at once
returns `NoError` with value `v2`. -/
theorem C4_update_lookup (fuel : Nat) (st st2 : BTreeIndex) (k v2 v0 : Nat)
    (h : Update fuel st k v2 = .ret (ERROR_NOERROR, st2)) :
    Lookup fuel st2 k v0 = .ret (ERROR_NOERROR, v2) := by
  unfold Update at h
  split at h
  · rename_i rc v c heq
    simp only [Res.ret.injEq, Prod.mk.injEq] at h
    obtain ⟨rfl, rfl⟩ := h
    have := lookup_after_update fuel _ _ k v2 v c heq v0
    rw [Lookup_eq]
    simp only
    rw [this]
    rfl
  · simp at h
  · simp at h

/-- C4 after `Update(50, 9)` on the index holding key 50. -/
theorem C4_update_lookup_witness :
    Update 2 (insertedIndex 4) 50 9 = .ret (ERROR_NOERROR, updatedIndex 4) ∧
    Lookup 2 (updatedIndex 4) 50 0 = .ret (ERROR_NOERROR, 9) :=
  ⟨rfl, C4_update_lookup 2 (insertedIndex 4) (updatedIndex 4) 50 9 0 rfl⟩

theorem code_lookupResult (r : Res (ERROR_T × Nat × BufferCache)) :
    (lookupResult r).code = r.code := by
  cases r with
  | ret x => rfl
  | abort => rfl
  | nofuel => rfl

theorem Update_code (fuel : Nat) (st : BTreeIndex) (k v2 : Nat) :
    (Update fuel st k v2).code =
      (LookupOrUpdateInternal fuel st.buffercache st.superblock.info.rootnode
        BTREE_OP_UPDATE k v2).code := by
  unfold Update
  split <;> rename_i heq <;> rw [heq] <;> rfl

theorem code_eq_ret {α : Type} {r : Res (ERROR_T × α)} {rc : ERROR_T}
    (h : r.code = .ret rc) : ∃ x, r = .ret (rc, x) := by
  cases r with
  | ret x =>
    obtain ⟨rc1, x1⟩ := x
    simp only [Res.code, Res.ret.injEq] at h
    exact ⟨x1, by rw [h]⟩
  | abort => simp [Res.code] at h
  | nofuel => simp [Res.code] at h

/-- C5. Update fails exactly when Lookup fails: for every index state and key
`k`, `Update(k, v2)` and `Lookup(k)` return the same code, so one returns
`NoError` if and only if the other does and when `Lookup` returns `NotFound` so
does `Update`; and an `Update` that returns another code than `NoError` leaves
every block and the in-memory superblock as they were. -/
theorem C5_update_fails_as_lookup (fuel : Nat) (st : BTreeIndex) (k v2 v0 : Nat) :
    (Update fuel st k v2).code = (Lookup fuel st k v0).code ∧
    ((∃ st2, Update fuel st k v2 = .ret (ERROR_NOERROR, st2)) ↔
      (∃ v, Lookup fuel st k v0 = .ret (ERROR_NOERROR, v))) ∧
    ((∃ v, Lookup fuel st k v0 = .ret (ERROR_NONEXISTENT, v)) →
      Update fuel st k v2 = .ret (ERROR_NONEXISTENT, st)) ∧
    (∀ rc st2, Update fuel st k v2 = .ret (rc, st2) → rc ≠ ERROR_NOERROR → st2 = st) := by
  have hcode : (Update fuel st k v2).code = (Lookup fuel st k v0).code := by
    rw [Update_code, Lookup_eq, code_lookupResult]
    exact (lookup_code_eq_update_code fuel _ _ k v2 v0).symm
  have hframe : ∀ rc st2, Update fuel st k v2 = .ret (rc, st2) → rc ≠ ERROR_NOERROR →
      st2 = st := by
    intro rc st2 h hne
    unfold Update at h
    split at h
    · rename_i rc1 v c heq
      simp only [Res.ret.injEq, Prod.mk.injEq] at h
      obtain ⟨rfl, rfl⟩ := h
      obtain ⟨_, _, hsame⟩ := update_effect fuel _ _ k v2 rc1 v c heq
      rw [hsame hne]
    · simp at h
    · simp at h
  refine ⟨hcode, ⟨?_, ?_⟩, ?_, hframe⟩
  · rintro ⟨st2, h⟩
    have : (Lookup fuel st k v0).code = .ret ERROR_NOERROR := by rw [← hcode, h]; rfl
    exact code_eq_ret this
  · rintro ⟨v, h⟩
    have : (Update fuel st k v2).code = .ret ERROR_NOERROR := by rw [hcode, h]; rfl
    exact code_eq_ret this
  · rintro ⟨v, h⟩
    have : (Update fuel st k v2).code = .ret ERROR_NONEXISTENT := by rw [hcode, h]; rfl
    obtain ⟨st2, hst2⟩ := code_eq_ret this
    rw [hst2, hframe _ _ hst2 (by decide)]

/-- Two caches that differ at most in the value slot `off` of block `w`, a slot
whose key is `key`, give the same `Lookup` result for every other key. -/
theorem lookup_frame (c c2 : BufferCache) (w off key k2 : Nat) (hk : k2 ≠ key)
    (hn : c2.numblocks = c.numblocks)
    (hinfo : ∀ n, (c2.blocks n).info = (c.blocks n).info)
    (hkeys : ∀ n, (c2.blocks n).keys = (c.blocks n).keys)
    (hptrs : ∀ n, (c2.blocks n).ptrs = (c.blocks n).ptrs)
    (hvals : ∀ n i, n ≠ w ∨ i ≠ off → (c2.blocks n).vals i = (c.blocks n).vals i)
    (hkey : (c.blocks w).keys off = key) :
    ∀ (fuel node v0 : Nat),
      lookupResult (LookupOrUpdateInternal fuel c2 node BTREE_OP_LOOKUP k2 v0) =
        lookupResult (LookupOrUpdateInternal fuel c node BTREE_OP_LOOKUP k2 v0) := by
  intro fuel
  induction fuel with
  | zero => intro node v0; rfl
  | succ f ih =>
    intro node v0
    by_cases hlt : node < c.numblocks
    · have hlt2 : node < c2.numblocks := by rw [hn]; exact hlt
      by_cases ht : (c.blocks node).info.nodetype.isInterior = true
      · have ht2 : (c2.blocks node).info.nodetype.isInterior = true := by rw [hinfo]; exact ht
        by_cases hnk : 0 < (c.blocks node).info.numkeys
        · rw [LOU_interior f c node _ k2 v0 hlt ht hnk,
            LOU_interior f c2 node _ k2 v0 hlt2 ht2 (by rw [hinfo]; exact hnk),
            childFor_congr (hinfo node) (hkeys node) (hptrs node)]
          exact ih _ v0
        · rw [LOU_interior_empty f c node _ k2 v0 hlt ht (by omega),
            LOU_interior_empty f c2 node _ k2 v0 hlt2 ht2 (by rw [hinfo]; omega)]
          rfl
      · by_cases hl : (c.blocks node).info.nodetype = BTREE_LEAF_NODE
        · have hl2 : (c2.blocks node).info.nodetype = BTREE_LEAF_NODE := by rw [hinfo]; exact hl
          have hfind := leafFind_congr (hinfo node) (hkeys node) k2
            (c.blocks node).info.numkeys 0
          rcases leafFind_leaf (c.blocks node) k2 hl (c.blocks node).info.numkeys 0 with
            hnone | ⟨o, _, ho, hko, _, hsome⟩
          · rw [LOU_leaf_none f c node _ k2 v0 hlt hl hnone,
              LOU_leaf_none f c2 node _ k2 v0 hlt2 hl2 (by rw [hinfo]; exact hfind.trans hnone)]
            rfl
          · rw [LOU_leaf_lookup f c node k2 v0 o hlt hl ho hsome,
              LOU_leaf_lookup f c2 node k2 v0 o hlt2 hl2 (by rw [hinfo]; exact ho)
                (by rw [hinfo]; exact hfind.trans hsome)]
            have hv : (c2.blocks node).vals o = (c.blocks node).vals o := by
              apply hvals
              by_cases hnw : node = w
              · right
                intro ho2
                subst hnw ho2
                exact hk (hko.symm.trans hkey)
              · exact Or.inl hnw
            simp [lookupResult, hv]
        · rw [LOU_other f c node _ k2 v0 hlt (by simpa using ht) hl,
            LOU_other f c2 node _ k2 v0 hlt2 (by rw [hinfo]; simpa using ht)
              (by rw [hinfo]; exact hl)]
          rfl
    · rw [LOU_unreadable f c node _ k2 v0 hlt,
        LOU_unreadable f c2 node _ k2 v0 (by rw [hn]; exact hlt)]
      rfl

/-- C6. Update touches only the value of its key: if `Update(k, v2)` returns
`NoError` then exactly one block `w` was rewritten, a leaf holding `k` in some
slot `off`; in that leaf only the value slot `off` differs from before and it
holds `v2`; every node's type, `numkeys` (the whole header), keys and child
pointers and the in-memory superblock are unchanged; and for every key other
than `k`, `Lookup` returns what it returned before the `Update`. -/
theorem C6_update_frame (fuel : Nat) (st st2 : BTreeIndex) (k v2 : Nat)
    (h : Update fuel st k v2 = .ret (ERROR_NOERROR, st2)) :
    st2.superblock = st.superblock ∧ st2.superblock_index = st.superblock_index ∧
    st2.buffercache.numblocks = st.buffercache.numblocks ∧
    st2.buffercache.blocksize = st.buffercache.blocksize ∧
    (∃ w off, w < st.buffercache.numblocks ∧
      (st.buffercache.blocks w).info.nodetype = BTREE_LEAF_NODE ∧
      off < (st.buffercache.blocks w).info.numkeys ∧
      (st.buffercache.blocks w).keys off = k ∧
      (∀ j, j ≠ w → st2.buffercache.blocks j = st.buffercache.blocks j) ∧
      (st2.buffercache.blocks w).vals off = v2 ∧
      (∀ i, i ≠ off → (st2.buffercache.blocks w).vals i = (st.buffercache.blocks w).vals i)) ∧
    (∀ j, (st2.buffercache.blocks j).info = (st.buffercache.blocks j).info ∧
      (st2.buffercache.blocks j).keys = (st.buffercache.blocks j).keys ∧
      (st2.buffercache.blocks j).ptrs = (st.buffercache.blocks j).ptrs) ∧
    (∀ k2, k2 ≠ k → ∀ fuel2 v0, Lookup fuel2 st2 k2 v0 = Lookup fuel2 st k2 v0) := by
  unfold Update at h
  split at h
  · rename_i rc v c heq
    simp only [Res.ret.injEq, Prod.mk.injEq] at h
    obtain ⟨rfl, rfl⟩ := h
    obtain ⟨_, hupd, _⟩ := update_effect fuel _ _ k v2 _ v c heq
    obtain ⟨w, off, hw, hwl, hoff, hkey, _, hc⟩ := hupd rfl
    have hblk : ∀ j, j ≠ w → c.blocks j = st.buffercache.blocks j := by
      intro j hj
      rw [hc]
      simp [Function.update_noteq hj]
    have hbw : c.blocks w =
        { st.buffercache.blocks w with
          vals := Function.update (st.buffercache.blocks w).vals off v2 } := by
      rw [hc]
      simp
    have hall : ∀ j, (c.blocks j).info = (st.buffercache.blocks j).info ∧
        (c.blocks j).keys = (st.buffercache.blocks j).keys ∧
        (c.blocks j).ptrs = (st.buffercache.blocks j).ptrs := by
      intro j
      by_cases hj : j = w
      · subst hj
        rw [hbw]
        exact ⟨rfl, rfl, rfl⟩
      · rw [hblk j hj]
        exact ⟨rfl, rfl, rfl⟩
    have hvals : ∀ n i, n ≠ w ∨ i ≠ off →
        (c.blocks n).vals i = (st.buffercache.blocks n).vals i := by
      intro n i hni
      by_cases hj : n = w
      · subst hj
        rcases hni with h1 | h1
        · exact absurd rfl h1
        · rw [hbw]
          simp [Function.update_noteq h1]
      · rw [hblk n hj]
    refine ⟨rfl, rfl, by rw [hc], by rw [hc], ⟨w, off, hw, hwl, hoff, hkey, hblk, ?_, ?_⟩,
      hall, ?_⟩
    · rw [hbw]
      simp
    · intro i hi
      exact hvals w i (Or.inr hi)
    · intro k2 hk2 fuel2 v0
      rw [Lookup_eq, Lookup_eq]
      exact lookup_frame st.buffercache c w off k k2 hk2 (by rw [hc])
        (fun n => (hall n).1) (fun n => (hall n).2.1) (fun n => (hall n).2.2) hvals hkey
        fuel2 _ v0
  · simp at h
  · simp at h

/-- C6 after `Update(50, 9)` on the index holding key 50. -/
theorem C6_update_frame_witness :
    Update 2 (insertedIndex 4) 50 9 = .ret (ERROR_NOERROR, updatedIndex 4) ∧
    ∀ k2, k2 ≠ 50 → ∀ fuel2 v0,
      Lookup fuel2 (updatedIndex 4) k2 v0 = Lookup fuel2 (insertedIndex 4) k2 v0 :=
  ⟨rfl, (C6_update_frame 2 (insertedIndex 4) (updatedIndex 4) 50 9 rfl).2.2.2.2.2.2⟩

/-! ## Insert -/

/-- What `AllocateNode` returns when the head of the free list is a block of the
cache that is `Unallocated`, written out. -/
theorem AllocateNode_ok (st : BTreeIndex) (n : Nat) (hn : st.superblock.info.freelist = n)
    (hn0 : n ≠ 0) (hlt : n < st.buffercache.numblocks)
    (hty : (st.buffercache.blocks n).info.nodetype = BTREE_UNALLOCATED_BLOCK)
    (hsb : st.superblock_index < st.buffercache.numblocks) :
    AllocateNode st = .ret (ERROR_NOERROR, n,
      { st with
        superblock :=
          { st.superblock with
            info := { st.superblock.info with
                      freelist := (st.buffercache.blocks n).info.freelist } },
        buffercache :=
          { st.buffercache with
            blocks := Function.update st.buffercache.blocks st.superblock_index
              { st.superblock with
                info := { st.superblock.info with
                          freelist := (st.buffercache.blocks n).info.freelist } } } }) := by
  subst hn
  simp [AllocateNode, hn0, Unserialize, hlt, hty, Serialize, hsb]

/-- The first insert, written out: on an attached index whose root `r` is an
empty `Root` node and whose free list starts with two `Unallocated` blocks `l1`
and `l2` of the cache, `Insert` returns `NoError` and leaves the index shown. -/
theorem Insert_empty_root (fuel : Nat) (st : BTreeIndex) (k v r l1 l2 : Nat)
    (hsb : st.superblock_index = 0)
    (hr : st.superblock.info.rootnode = r) (hrlt : r < st.buffercache.numblocks)
    (hr0 : r ≠ 0)
    (hrt : (st.buffercache.blocks r).info.nodetype = BTREE_ROOT_NODE)
    (hrn : (st.buffercache.blocks r).info.numkeys = 0)
    (hl1 : st.superblock.info.freelist = l1) (hl1lt : l1 < st.buffercache.numblocks)
    (hl10 : l1 ≠ 0)
    (hl1t : (st.buffercache.blocks l1).info.nodetype = BTREE_UNALLOCATED_BLOCK)
    (hl2 : (st.buffercache.blocks l1).info.freelist = l2)
    (hl2lt : l2 < st.buffercache.numblocks) (hl20 : l2 ≠ 0)
    (hl2t : (st.buffercache.blocks l2).info.nodetype = BTREE_UNALLOCATED_BLOCK) :
    Insert (fuel + 1) st k v = .ret (ERROR_NOERROR, afterFirstInsert st k v r l1 l2) := by
  unfold afterFirstInsert
  obtain ⟨c, sbi, sb⟩ := st
  simp only at hsb hr hrlt hrt hrn hl1 hl1lt hl1t hl2 hl2lt hl2t ⊢
  subst hsb hr hl1 hl2
  have h0 : 0 < c.numblocks := by omega
  have hA1 := AllocateNode_ok ⟨c, 0, sb⟩ sb.info.freelist rfl hl10 hl1lt hl1t h0
  have hA2 := AllocateNode_ok
    { buffercache :=
        { c with
          blocks := Function.update c.blocks 0
            { sb with
              info := { sb.info with freelist := (c.blocks sb.info.freelist).info.freelist } } },
      superblock_index := 0,
      superblock :=
        { sb with
          info := { sb.info with freelist := (c.blocks sb.info.freelist).info.freelist } } }
    (c.blocks sb.info.freelist).info.freelist rfl hl20 hl2lt
    (by simp [Function.update_noteq hl20, hl2t]) h0
  simp only [Insert, InsertRecursion, Unserialize, hrlt, if_true, hrt, hrn, and_self,
    insertEmptyRoot, hA1]
  simp [SetKey, SetVal, SetPtr, NodeType.isInterior, hA2, Serialize, hrlt, hl1lt, hl2lt,
    incrNumkeys, Function.update_noteq hl20, hrn]

/-- After the first insert the descent for the inserted key goes through slot 0
of the root into the first leaf and finds the value there. -/
theorem Lookup_afterFirstInsert (st : BTreeIndex) (k v r l1 l2 : Nat)
    (hr : st.superblock.info.rootnode = r) (hrlt : r < st.buffercache.numblocks)
    (hrt : (st.buffercache.blocks r).info.nodetype = BTREE_ROOT_NODE)
    (hl1lt : l1 < st.buffercache.numblocks)
    (hrl1 : r ≠ l1) (hrl2 : r ≠ l2) (hl12 : l1 ≠ l2) (fuel v0 : Nat) :
    Lookup (fuel + 2) (afterFirstInsert st k v r l1 l2) k v0 = .ret (ERROR_NOERROR, v) := by
  have hroot : (afterFirstInsert st k v r l1 l2).buffercache.blocks r =
      { st.buffercache.blocks r with
        info := { (st.buffercache.blocks r).info with numkeys := 1 },
        keys := Function.update (st.buffercache.blocks r).keys 0 k,
        ptrs := Function.update (Function.update (st.buffercache.blocks r).ptrs 0 l1) 1 l2 } := by
    simp [afterFirstInsert, Function.update_noteq hrl1, Function.update_noteq hrl2]
  have hleaf : (afterFirstInsert st k v r l1 l2).buffercache.blocks l1 =
      { st.buffercache.blocks r with
        info := { (st.buffercache.blocks r).info with
                  numkeys := 1, nodetype := BTREE_LEAF_NODE },
        keys := Function.update (st.buffercache.blocks r).keys 0 k,
        vals := Function.update (st.buffercache.blocks r).vals 0 v } := by
    simp [afterFirstInsert, Function.update_noteq hl12]
  have hnb : (afterFirstInsert st k v r l1 l2).buffercache.numblocks =
      st.buffercache.numblocks := rfl
  have hrn : (afterFirstInsert st k v r l1 l2).superblock.info.rootnode = r := hr
  have hchild : childFor ((afterFirstInsert st k v r l1 l2).buffercache.blocks r) k = l1 := by
    rw [hroot]
    simp [childFor, findSlot, GetKey, hrt, NodeType.isInterior]
  rw [Lookup_eq, hrn,
    LOU_interior (fuel + 1) _ r _ k v0 (by rw [hnb]; exact hrlt)
      (by rw [hroot]; simp [hrt, NodeType.isInterior]) (by rw [hroot]; simp),
    hchild,
    LOU_leaf_lookup fuel _ l1 k v0 0 (by rw [hnb]; exact hl1lt) (by rw [hleaf])
      (by rw [hleaf]; simp) (by rw [hleaf]; simp [leafFind, GetKey]),
    hleaf]
  simp [lookupResult]

/-- C2. First insert into a fresh index: on the index that `Attach(0, create=true)`
leaves over a cache with at least four blocks, `Insert(k, v)` returns `NoError`
for every `k` and `v`. The free list started with blocks 2 and 3; afterwards the
root (block 1) has `numkeys = 1`, `key[0] = k`, `ptr[0] = 2` and `ptr[1] = 3`,
block 2 is a `Leaf` whose only entry is `(k, v)`, block 3 is a `Leaf` with
`numkeys = 0`, the in-memory `superblock.numkeys` is 1, and `Lookup(k)` returns
`v`. -/
theorem C2_first_insert (st0 : BTreeIndex) (k v : Nat) (h : 4 ≤ st0.buffercache.numblocks) :
    ∃ st1 st2, Attach st0 0 true = .ret (ERROR_NOERROR, st1) ∧
      st1.superblock.info.freelist = 2 ∧
      (st1.buffercache.blocks 2).info.freelist = 3 ∧
      (∀ fuel, 1 ≤ fuel → Insert fuel st1 k v = .ret (ERROR_NOERROR, st2)) ∧
      st2.superblock.info.rootnode = 1 ∧
      (st2.buffercache.blocks 1).info.nodetype = BTREE_ROOT_NODE ∧
      (st2.buffercache.blocks 1).info.numkeys = 1 ∧
      (st2.buffercache.blocks 1).keys 0 = k ∧
      (st2.buffercache.blocks 1).ptrs 0 = 2 ∧
      (st2.buffercache.blocks 1).ptrs 1 = 3 ∧
      (st2.buffercache.blocks 2).info.nodetype = BTREE_LEAF_NODE ∧
      (st2.buffercache.blocks 2).info.numkeys = 1 ∧
      (st2.buffercache.blocks 2).keys 0 = k ∧
      (st2.buffercache.blocks 2).vals 0 = v ∧
      (st2.buffercache.blocks 3).info.nodetype = BTREE_LEAF_NODE ∧
      (st2.buffercache.blocks 3).info.numkeys = 0 ∧
      st2.superblock.info.numkeys = 1 ∧
      st2.superblock.info.freelist = (st1.buffercache.blocks 3).info.freelist ∧
      (∀ fuel v0, 2 ≤ fuel → Lookup fuel st2 k v0 = .ret (ERROR_NOERROR, v)) := by
  obtain ⟨st1, h1, hsbi, hnb, _, hsb, hb0, hb1, hfree⟩ := Attach_create_eq st0 (by omega)
  have hroot : st1.superblock.info.rootnode = 1 := by rw [hsb, hb0]
  have hfl : st1.superblock.info.freelist = 2 := by rw [hsb, hb0]
  have hnk : st1.superblock.info.numkeys = 0 := by rw [hsb, hb0]
  have h2 := hfree 2 (by omega) (by omega)
  have h3 := hfree 3 (by omega) (by omega)
  have h2f : (st1.buffercache.blocks 2).info.freelist = 3 := by
    rw [h2]
    simp only [newfreenode]
    have : ¬ 2 + 1 = st0.buffercache.numblocks := by omega
    simp [this]
  have hI := fun fuel => Insert_empty_root fuel st1 k v 1 2 3 hsbi hroot (by omega) (by decide)
    (by rw [hb1]) (by rw [hb1]) hfl (by omega) (by decide) (by rw [h2]; rfl) h2f (by omega)
    (by decide) (by rw [h3]; rfl)
  refine ⟨st1, afterFirstInsert st1 k v 1 2 3, h1, hfl, h2f, ?_, hroot, ?_, ?_, ?_, ?_, ?_, ?_,
    ?_, ?_, ?_, ?_, ?_, ?_, rfl, ?_⟩
  · intro fuel hf
    obtain ⟨f, rfl⟩ : ∃ f, fuel = f + 1 := ⟨fuel - 1, by omega⟩
    exact hI f
  · simp [afterFirstInsert, hb1]
  · simp [afterFirstInsert]
  · simp [afterFirstInsert]
  · simp [afterFirstInsert]
  · simp [afterFirstInsert]
  · simp [afterFirstInsert]
  · simp [afterFirstInsert]
  · simp [afterFirstInsert]
  · simp [afterFirstInsert]
  · simp [afterFirstInsert]
  · simp [afterFirstInsert]
  · simp [afterFirstInsert, hnk]
  · intro fuel v0 hf
    obtain ⟨f, rfl⟩ : ∃ f, fuel = f + 2 := ⟨fuel - 2, by omega⟩
    exact Lookup_afterFirstInsert st1 k v 1 2 3 hroot (by omega) (by rw [hb1]) (by omega)
      (by decide) (by decide) (by decide) f v0

/-- C2 for `Insert(50, 1)` on the sample index over four blocks. -/
theorem C2_first_insert_witness :
    ∃ st1 st2, Attach (sampleIndex 4) 0 true = .ret (ERROR_NOERROR, st1) ∧
      (∀ fuel, 1 ≤ fuel → Insert fuel st1 50 1 = .ret (ERROR_NOERROR, st2)) ∧
      (st2.buffercache.blocks 1).info.numkeys = 1 ∧
      st2.superblock.info.numkeys = 1 ∧
      (∀ fuel v0, 2 ≤ fuel → Lookup fuel st2 50 v0 = .ret (ERROR_NOERROR, 1)) := by
  obtain ⟨st1, st2, h1, _, _, h4, _, _, h7, _, _, _, _, _, _, _, _, _, h17, _, h19⟩ :=
    C2_first_insert (sampleIndex 4) 50 1 (by decide)
  exact ⟨st1, st2, h1, h4, h7, h17, h19⟩

theorem IR_interior_last (fuel : Nat) (st : BTreeIndex) (node key value newkey newnode : Nat)
    (h : node < st.buffercache.numblocks)
    (ht : (st.buffercache.blocks node).info.nodetype.isInterior = true)
    (hn : 0 < (st.buffercache.blocks node).info.numkeys)
    (hs : findSlot (st.buffercache.blocks node) key
      (st.buffercache.blocks node).info.numkeys 0 = .last) :
    InsertRecursion (fuel + 1) st node key value newkey newnode =
      InsertRecursion fuel st
        ((st.buffercache.blocks node).ptrs (st.buffercache.blocks node).info.numkeys)
        key value newkey newnode := by
  have hne : ¬ (st.buffercache.blocks node).info.numkeys = 0 := by omega
  simp [InsertRecursion, Unserialize, h, ht, hne, hs, GetPtr_interior ht (le_refl _)]

theorem IR_interior_slot (fuel : Nat) (st : BTreeIndex) (node key value newkey newnode : Nat)
    (off t : Nat) (h : node < st.buffercache.numblocks)
    (ht : (st.buffercache.blocks node).info.nodetype.isInterior = true)
    (hoff : off < (st.buffercache.blocks node).info.numkeys)
    (hs : findSlot (st.buffercache.blocks node) key
      (st.buffercache.blocks node).info.numkeys 0 = .slot off t) :
    InsertRecursion (fuel + 1) st node key value newkey newnode =
      match InsertRecursion fuel st ((st.buffercache.blocks node).ptrs off)
          key value newkey newnode with
      | .abort => .abort
      | .nofuel => .nofuel
      | .ret (rc, newkey1, newnode1, st1) =>
        if rc ≠ ERROR_NOERROR then .ret (rc, newkey1, newnode1, st1)
        else if newnode1 ≠ 0 then
          interiorFixup st1 node (st.buffercache.blocks node) off t newkey1 newnode1
        else .ret (ERROR_NOERROR, newkey1, newnode1, st1) := by
  have hne : ¬ (st.buffercache.blocks node).info.numkeys = 0 := by omega
  simp [InsertRecursion, Unserialize, h, ht, hne, hs, GetPtr_interior ht (le_of_lt hoff)]

theorem IR_leaf (fuel : Nat) (st : BTreeIndex) (node key value newkey newnode : Nat)
    (h : node < st.buffercache.numblocks)
    (ht : (st.buffercache.blocks node).info.nodetype = BTREE_LEAF_NODE) :
    InsertRecursion (fuel + 1) st node key value newkey newnode =
      match leafScan (st.buffercache.blocks node) key
          (st.buffercache.blocks node).info.numkeys 0 with
      | .err rc => .ret (rc, newkey, newnode, st)
      | .conflict => .ret (ERROR_CONFLICT, newkey, newnode, st)
      | .insertAt offset testkey =>
        leafInsertAt st node (st.buffercache.blocks node) offset testkey key value newkey
          newnode
      | .append => leafAppend st node (st.buffercache.blocks node) key value newkey newnode := by
  simp [InsertRecursion, Unserialize, h, ht, NodeType.isInterior]

/-- In a leaf with ascending keys that holds `key` in slot `off`, the scan of
`InsertRecursion` started at or before `off` ends with a conflict. -/
theorem leafScan_conflict (b : BTreeNode) (key off : Nat)
    (ht : b.info.nodetype = BTREE_LEAF_NODE) (hoff : off < b.info.numkeys)
    (hkey : b.keys off = key)
    (hasc : ∀ a c, a < c → c < b.info.numkeys → b.keys a < b.keys c) :
    ∀ (m i : Nat), i ≤ off → off < i + m → leafScan b key m i = .conflict := by
  intro m
  induction m with
  | zero => intro i h1 h2; omega
  | succ m ih =>
    intro i h1 h2
    have hi : i < b.info.numkeys := by omega
    by_cases hk : b.keys i = key
    · simp [leafScan, hi, GetKey_leaf ht hi, hk]
    · have hlt : i < off := by
        rcases Nat.eq_or_lt_of_le h1 with heq | hlt
        · subst heq; exact absurd hkey hk
        · exact hlt
      have hless : b.keys i < key := by
        rw [← hkey]
        exact hasc i off hlt hoff
      have hnot : ¬ key < b.keys i := by omega
      have hstep : leafScan b key (m + 1) i = leafScan b key m (i + 1) := by
        simp [leafScan, hi, GetKey_leaf ht hi, hk, hnot]
      rw [hstep]
      exact ih (i + 1) (by omega) (by omega)

/-- Where the `Lookup` descent from `node` finds the key and the leaves are
ascending, `InsertRecursion` from `node` returns `Conflict` and leaves the index
and its in/out parameters as they were. -/
theorem insert_conflict (st : BTreeIndex) (k v : Nat) (hasc : LeavesAscending st.buffercache) :
    ∀ (fuel node v0 val newkey newnode : Nat) (c2 : BufferCache),
      LookupOrUpdateInternal fuel st.buffercache node BTREE_OP_LOOKUP k v0 =
        .ret (ERROR_NOERROR, val, c2) →
      InsertRecursion fuel st node k v newkey newnode =
        .ret (ERROR_CONFLICT, newkey, newnode, st) := by
  intro fuel
  induction fuel with
  | zero =>
    intro node v0 val newkey newnode c2 h
    simp [LookupOrUpdateInternal] at h
  | succ f ih =>
    intro node v0 val newkey newnode c2 h
    by_cases hn : node < st.buffercache.numblocks
    · by_cases ht : (st.buffercache.blocks node).info.nodetype.isInterior = true
      · by_cases hk : 0 < (st.buffercache.blocks node).info.numkeys
        · rw [LOU_interior f _ node _ k v0 hn ht hk] at h
          rcases findSlot_interior (st.buffercache.blocks node) k ht
              (st.buffercache.blocks node).info.numkeys 0 with hl | ⟨off, _, hoff, hs⟩
          · rw [IR_interior_last f st node k v newkey newnode hn ht hk hl]
            have hc : childFor (st.buffercache.blocks node) k =
                (st.buffercache.blocks node).ptrs (st.buffercache.blocks node).info.numkeys := by
              simp [childFor, hl]
            rw [hc] at h
            exact ih _ v0 val newkey newnode c2 h
          · rw [IR_interior_slot f st node k v newkey newnode off _ hn ht hoff hs]
            have hc : childFor (st.buffercache.blocks node) k =
                (st.buffercache.blocks node).ptrs off := by
              simp [childFor, hs]
            rw [hc] at h
            rw [ih _ v0 val newkey newnode c2 h]
            simp
        · rw [LOU_interior_empty f _ node _ k v0 hn ht (by omega)] at h
          simp at h
      · by_cases hl : (st.buffercache.blocks node).info.nodetype = BTREE_LEAF_NODE
        · rcases leafFind_leaf (st.buffercache.blocks node) k hl
              (st.buffercache.blocks node).info.numkeys 0 with
            hnone | ⟨off, _, hoff, hkey, _, _⟩
          · rw [LOU_leaf_none f _ node _ k v0 hn hl hnone] at h
            simp at h
          · rw [IR_leaf f st node k v newkey newnode hn hl,
              leafScan_conflict (st.buffercache.blocks node) k off hl hoff hkey
                (hasc node hn hl) _ 0 (Nat.zero_le _) (by omega)]
        · rw [LOU_other f _ node _ k v0 hn (by simpa using ht) hl] at h
          simp at h
    · rw [LOU_unreadable f _ node _ k v0 hn] at h
      simp at h

/-- The general part of C3 in terms of `Insert` and `Lookup`. -/
theorem Insert_conflict_of_Lookup (fuel : Nat) (st : BTreeIndex) (k v v2 v0 : Nat)
    (hasc : LeavesAscending st.buffercache)
    (hl : Lookup fuel st k v0 = .ret (ERROR_NOERROR, v)) :
    Insert fuel st k v2 = .ret (ERROR_CONFLICT, st) := by
  rw [Lookup_eq] at hl
  cases hr : LookupOrUpdateInternal fuel st.buffercache st.superblock.info.rootnode
      BTREE_OP_LOOKUP k v0 with
  | ret x =>
    obtain ⟨rc, val, c2⟩ := x
    rw [hr] at hl
    simp only [lookupResult, Res.ret.injEq, Prod.mk.injEq] at hl
    obtain ⟨rfl, rfl⟩ := hl
    simp [Insert, insert_conflict st k v2 hasc fuel _ v0 _ 0 0 c2 hr]
  | abort => rw [hr] at hl; simp [lookupResult] at hl
  | nofuel => rw [hr] at hl; simp [lookupResult] at hl

/-- After the first insert into a fresh index every leaf has ascending keys: the
only leaves are blocks 2 and 3, with one key and none. -/
theorem LeavesAscending_afterFirstInsert (st1 : BTreeIndex) (k v : Nat)
    (hsb : st1.superblock.info.nodetype = BTREE_SUPERBLOCK)
    (hrt : (st1.buffercache.blocks 1).info.nodetype = BTREE_ROOT_NODE)
    (hfree : ∀ j, 4 ≤ j → j < st1.buffercache.numblocks →
      (st1.buffercache.blocks j).info.nodetype = BTREE_UNALLOCATED_BLOCK) :
    LeavesAscending (afterFirstInsert st1 k v 1 2 3).buffercache := by
  intro j hj hleaf a b hab hb
  by_cases h3 : j = 3
  · subst h3
    simp [afterFirstInsert] at hb
  · by_cases h2 : j = 2
    · subst h2
      simp [afterFirstInsert] at hb
      omega
    · by_cases h1 : j = 1
      · subst h1
        simp [afterFirstInsert, hrt] at hleaf
      · by_cases h0 : j = 0
        · subst h0
          simp [afterFirstInsert, hsb] at hleaf
        · have hj4 : 4 ≤ j := by omega
          have := hfree j hj4 hj
          simp [afterFirstInsert, Function.update_noteq h3, Function.update_noteq h2,
            Function.update_noteq h1, Function.update_noteq h0, this] at hleaf

/-- C3. Duplicate keys are rejected without side effects: in every index state
in which the keys of every leaf are strictly ascending and `Lookup(k)` succeeds,
`Insert(k, v2)` returns `Conflict` and leaves every block of the cache and the
in-memory superblock, `numkeys` included, unchanged. In particular, on a fresh
index (at least four blocks) a second `Insert(k1, v3)` issued right after the
successful `Insert(k1, v1)` returns `Conflict`, changes nothing, and `Lookup(k1)`
still returns `v1`. -/
theorem C3_duplicate_rejected (fuel : Nat) (st : BTreeIndex) (k v v2 v0 : Nat)
    (hasc : LeavesAscending st.buffercache)
    (hl : Lookup fuel st k v0 = .ret (ERROR_NOERROR, v)) :
    Insert fuel st k v2 = .ret (ERROR_CONFLICT, st) ∧
    (∀ (st0 : BTreeIndex) (k1 v1 v3 : Nat), 4 ≤ st0.buffercache.numblocks →
      ∃ st1 st2, Attach st0 0 true = .ret (ERROR_NOERROR, st1) ∧
        ∀ f, 2 ≤ f →
          Insert f st1 k1 v1 = .ret (ERROR_NOERROR, st2) ∧
          Insert f st2 k1 v3 = .ret (ERROR_CONFLICT, st2) ∧
          ∀ v4, Lookup f st2 k1 v4 = .ret (ERROR_NOERROR, v1)) := by
  refine ⟨Insert_conflict_of_Lookup fuel st k v v2 v0 hasc hl, ?_⟩
  intro st0 k1 v1 v3 h4
  obtain ⟨st1, h1, hsbi, hnb, _, hsb, hb0, hb1, hfree⟩ := Attach_create_eq st0 (by omega)
  have hroot : st1.superblock.info.rootnode = 1 := by rw [hsb, hb0]
  have hfl : st1.superblock.info.freelist = 2 := by rw [hsb, hb0]
  have h2 := hfree 2 (by omega) (by omega)
  have h3 := hfree 3 (by omega) (by omega)
  have h2f : (st1.buffercache.blocks 2).info.freelist = 3 := by
    rw [h2]
    simp only [newfreenode]
    have : ¬ 2 + 1 = st0.buffercache.numblocks := by omega
    simp [this]
  have hI := fun fuel => Insert_empty_root fuel st1 k1 v1 1 2 3 hsbi hroot (by omega)
    (by decide) (by rw [hb1]) (by rw [hb1]) hfl (by omega) (by decide) (by rw [h2]; rfl) h2f
    (by omega) (by decide) (by rw [h3]; rfl)
  have hL := fun f v4 => Lookup_afterFirstInsert st1 k1 v1 1 2 3 hroot (by omega)
    (by rw [hb1]) (by omega) (by decide) (by decide) (by decide) f v4
  have hA : LeavesAscending (afterFirstInsert st1 k1 v1 1 2 3).buffercache := by
    apply LeavesAscending_afterFirstInsert st1 k1 v1 (by rw [hsb, hb0]) (by rw [hb1])
    intro j hj1 hj2
    rw [hfree j (by omega) (by rw [← hnb]; exact hj2)]
    rfl
  refine ⟨st1, afterFirstInsert st1 k1 v1 1 2 3, h1, ?_⟩
  intro f hf
  obtain ⟨g, rfl⟩ : ∃ g, f = g + 2 := ⟨f - 2, by omega⟩
  exact ⟨hI (g + 1), Insert_conflict_of_Lookup (g + 2) _ k1 v1 v3 0 hA (hL g 0), hL g⟩

theorem insertedIndex_ascending : LeavesAscending (insertedIndex 4).buffercache := by
  intro j hj hleaf a b hab hb
  have hj4 : j < 4 := hj
  interval_cases j
  · exact absurd hleaf (by decide)
  · exact absurd hleaf (by decide)
  · have hb1 : b < 1 := hb
    omega
  · have hb0 : b < 0 := hb
    omega

/-- C3 for a second `Insert(50, 7)` on the index holding key 50. -/
theorem C3_duplicate_rejected_witness :
    LeavesAscending (insertedIndex 4).buffercache ∧
    Lookup 2 (insertedIndex 4) 50 0 = .ret (ERROR_NOERROR, 1) ∧
    Insert 2 (insertedIndex 4) 50 7 = .ret (ERROR_CONFLICT, insertedIndex 4) :=
  ⟨insertedIndex_ascending, rfl,
    (C3_duplicate_rejected 2 (insertedIndex 4) 50 1 7 0 insertedIndex_ascending rfl).1⟩

/-- C1 at a failing input. On a fresh index over five blocks `Insert(50, 1)`
returns `NoError`. `Insert(30, 2)` then splits the leaf in block 2 (key 50 moves
to the new block 4, block 2 keeps key 30 alone) and fails with `SizeError` in the
interior fix-up, whose loop reads key slot `numkeys` (btree.cc:488), before the
root is written back. The root still sends key 50 to block 2, and `Lookup(50)`
returns `NotFound` although `Insert(50, 1)` succeeded and no `Update` was
made. -/
theorem C1_failing_input :
    Attach (sampleIndex 5) 0 true = .ret (ERROR_NOERROR, freshIndex 5) ∧
    Insert 2 (freshIndex 5) 50 1 = .ret (ERROR_NOERROR, insertedIndex 5) ∧
    Lookup 2 (insertedIndex 5) 50 0 = .ret (ERROR_NOERROR, 1) ∧
    Insert 2 (insertedIndex 5) 30 2 = .ret (ERROR_SIZE, secondInsertIndex 5) ∧
    ((secondInsertIndex 5).buffercache.blocks 1).ptrs 0 = 2 ∧
    ((secondInsertIndex 5).buffercache.blocks 2).info.numkeys = 1 ∧
    ((secondInsertIndex 5).buffercache.blocks 2).keys 0 = 30 ∧
    ((secondInsertIndex 5).buffercache.blocks 4).keys 0 = 50 ∧
    Lookup 2 (secondInsertIndex 5) 50 0 = .ret (ERROR_NONEXISTENT, 0) :=
  ⟨rfl, rfl, rfl, rfl, rfl, rfl, rfl, rfl, rfl⟩

/-! ## Integrity checker, flushing, thresholds -/

/-- `SanityCheck` never reads a block: its result is fixed by what the local
`totalKeys` holds and by `superblock.numkeys`. -/
theorem SanityCheck_eq (st : BTreeIndex) (totalKeys : Nat) :
    SanityCheck st totalKeys =
      if totalKeys ≠ st.superblock.info.numkeys then ERROR_INSANE else ERROR_NOERROR := by
  simp [SanityCheck, NodesInOrder]

/-- C13 at a failing input. On a fresh index over four blocks `Insert(50, 1)`
succeeds and `Insert(70, 2)` returns `NoSpace` after it has written key 70 into
the leaf in block 3. The leaves reachable from the root now hold two keys while
`superblock.numkeys` is 1, yet `SanityCheck` returns `NoError` when its
unassigned local `totalKeys` holds 1: `NodesInOrder` returns at once and no
block is read. -/
theorem C13_failing_input :
    Insert 2 (insertedIndex 4) 70 2 = .ret (ERROR_NOSPACE, rightInsertIndex 4) ∧
    (rightInsertIndex 4).superblock.info.numkeys = 1 ∧
    leafKeyTotal (rightInsertIndex 4).buffercache 2
      (rightInsertIndex 4).superblock.info.rootnode = some 2 ∧
    SanityCheck (rightInsertIndex 4) 1 = ERROR_NOERROR ∧
    (∀ (st : BTreeIndex) (totalKeys : Nat),
      SanityCheck st totalKeys =
        if totalKeys ≠ st.superblock.info.numkeys then ERROR_INSANE else ERROR_NOERROR) :=
  ⟨rfl, rfl, rfl, rfl, SanityCheck_eq⟩

/-- C16 at a failing input. After the first `Insert`, which returns `NoError`,
the in-memory superblock has `numkeys = 1` while the superblock stored in block 0
still has `numkeys = 0`: the increment of btree.cc:393 is not followed by a
`Serialize`. `Attach(0, create=false)` issued directly afterwards loads
`numkeys = 0`. -/
theorem C16_failing_input :
    Insert 1 (freshIndex 4) 50 1 = .ret (ERROR_NOERROR, insertedIndex 4) ∧
    (insertedIndex 4).superblock.info.numkeys = 1 ∧
    ((insertedIndex 4).buffercache.blocks 0).info.numkeys = 0 ∧
    Attach (insertedIndex 4) 0 false = .ret (ERROR_NOERROR, reattachedIndex 4) ∧
    (reattachedIndex 4).superblock.info.numkeys = 0 :=
  ⟨rfl, rfl, rfl, rfl, rfl⟩

/-- The threshold the source computes is 0 for every capacity. -/
theorem fillThreshold_eq_zero (slots : Nat) : fillThreshold slots = 0 := by
  simp [fillThreshold]

/-- C18 at a failing input. With 8-byte keys and values and 256-byte blocks a
leaf has 12 slots and two thirds of that is 8, but the source computes the
threshold 0. Inserting the smaller key 30 into the index that holds key 50 leaves
the leaf with two keys, below 8; the source splits it all the same (block 4 is
taken from the free list and becomes a leaf holding key 50), `Insert` does not
return `NoError`, and afterwards `Lookup(50)` returns `NotFound`. -/
theorem C18_failing_input :
    GetNumSlotsAsLeaf ((insertedIndex 5).buffercache.blocks 2).info = 12 ∧
    GetNumSlotsAsLeaf ((insertedIndex 5).buffercache.blocks 2).info * 2 / 3 = 8 ∧
    fillThreshold (GetNumSlotsAsLeaf ((insertedIndex 5).buffercache.blocks 2).info) = 0 ∧
    ((insertedIndex 5).buffercache.blocks 2).info.numkeys = 1 ∧
    (insertedIndex 5).superblock.info.freelist = 4 ∧
    ((insertedIndex 5).buffercache.blocks 4).info.nodetype = BTREE_UNALLOCATED_BLOCK ∧
    (Insert 2 (insertedIndex 5) 30 2).code = .ret ERROR_SIZE ∧
    (secondInsertIndex 5).superblock.info.freelist = 0 ∧
    ((secondInsertIndex 5).buffercache.blocks 4).info.nodetype = BTREE_LEAF_NODE ∧
    ((secondInsertIndex 5).buffercache.blocks 4).info.numkeys = 1 ∧
    ((secondInsertIndex 5).buffercache.blocks 2).info.numkeys = 1 ∧
    Lookup 2 (secondInsertIndex 5) 30 0 = .ret (ERROR_NOERROR, 2) ∧
    Lookup 2 (secondInsertIndex 5) 50 0 = .ret (ERROR_NONEXISTENT, 0) :=
  ⟨rfl, rfl, rfl, rfl, rfl, rfl, rfl, rfl, rfl, rfl, rfl, rfl, rfl⟩

/-! ## The interior fix-up -/

theorem SetKey_interior {b : BTreeNode} {i k : Nat} (ht : b.info.nodetype.isInterior = true)
    (hi : i < b.info.numkeys) :
    SetKey b i k = .ok { b with keys := Function.update b.keys i k } := by
  simp [SetKey, ht, hi]

theorem SetPtr_interior {b : BTreeNode} {i p : Nat} (ht : b.info.nodetype.isInterior = true)
    (hi : i ≤ b.info.numkeys) :
    SetPtr b i p = .ok { b with ptrs := Function.update b.ptrs i p } := by
  simp [SetPtr, ht, hi]

theorem GetKey_interior_out {b : BTreeNode} {i : Nat}
    (ht : b.info.nodetype.isInterior = true) (hi : ¬ i < b.info.numkeys) :
    GetKey b i = .error ERROR_SIZE := by
  simp [GetKey, ht, hi]

/-- The shift loop of the interior fix-up, entered at a live slot of a root or
interior node, ends with `SizeError`: its last iteration reads key slot
`numkeys` (btree.cc:488). -/
theorem fixupShift_size_error :
    ∀ (m i : Nat) (s : ShiftState), s.b.info.nodetype.isInterior = true →
      i < s.b.info.numkeys → s.b.info.numkeys ≤ i + m →
      fixupShift m i s = .error ERROR_SIZE := by
  intro m
  induction m with
  | zero => intro i s _ h1 h2; omega
  | succ m ih =>
    intro i s ht h1 h2
    have hk := @SetKey_interior s.b i s.keyPrev ht h1
    have hp := @SetPtr_interior { s.b with keys := Function.update s.b.keys i s.keyPrev } i
      s.sndPrev ht (le_of_lt h1)
    by_cases hlast : i + 1 < s.b.info.numkeys
    · have hg := @GetKey_interior
        { s.b with keys := Function.update s.b.keys i s.keyPrev,
                   ptrs := Function.update s.b.ptrs i s.sndPrev } (i + 1) ht hlast
      have hq := @GetPtr_interior
        { s.b with keys := Function.update s.b.keys i s.keyPrev,
                   ptrs := Function.update s.b.ptrs i s.sndPrev } (i + 1) ht (le_of_lt hlast)
      simp only [fixupShift, h1, if_true, hk, hp, hg, hq]
      exact ih (i + 1) _ ht hlast (by simp only; omega)
    · have hg := @GetKey_interior_out
        { s.b with keys := Function.update s.b.keys i s.keyPrev,
                   ptrs := Function.update s.b.ptrs i s.sndPrev } (i + 1) ht hlast
      simp only [fixupShift, h1, if_true, hk, hp, hg]

/-- The interior fix-up on a root or interior node never completes: it returns
`SizeError` and hands the index and the promotion back as they came; nothing is
written. -/
theorem interiorFixup_size_error (st : BTreeIndex) (node : Nat) (b : BTreeNode)
    (offset testkey newkey newnode : Nat) (ht : b.info.nodetype.isInterior = true)
    (hoff : offset < b.info.numkeys) :
    interiorFixup st node b offset testkey newkey newnode =
      .ret (ERROR_SIZE, newkey, newnode, st) := by
  simp only [interiorFixup, GetPtr_interior ht (le_of_lt hoff)]
  rw [fixupShift_size_error b.info.numkeys offset _ ht hoff (by simp only; omega)]

/-- C20 at a failing input. In the index holding key 50 (root with one key,
`ptr[0] = 2`, `ptr[1] = 3`) the insert of key 30 descends through slot 0; the
recursion into block 2 returns `NoError` with the promotion (50, block 4). The
fix-up then returns `SizeError` and the root is not rewritten: it keeps
`numkeys = 1`, `key[0] = 50`, `ptr[0] = 2`, `ptr[1] = 3`, where the claim has
`numkeys = 2` and the new child 4 at pointer position 1. -/
theorem C20_failing_input :
    ((insertedIndex 5).buffercache.blocks 1).info.numkeys = 1 ∧
    findSlot ((insertedIndex 5).buffercache.blocks 1) 30 1 0 = .slot 0 50 ∧
    ((insertedIndex 5).buffercache.blocks 1).ptrs 0 = 2 ∧
    InsertRecursion 1 (insertedIndex 5) 2 30 2 0 0 =
      .ret (ERROR_NOERROR, 50, 4, childSplitIndex 5) ∧
    interiorFixup (childSplitIndex 5) 1 ((insertedIndex 5).buffercache.blocks 1) 0 50 50 4 =
      .ret (ERROR_SIZE, 50, 4, childSplitIndex 5) ∧
    InsertRecursion 2 (insertedIndex 5) 1 30 2 0 0 =
      .ret (ERROR_SIZE, 50, 4, childSplitIndex 5) ∧
    ((childSplitIndex 5).buffercache.blocks 1).info.numkeys = 1 ∧
    ((childSplitIndex 5).buffercache.blocks 1).keys 0 = 50 ∧
    ((childSplitIndex 5).buffercache.blocks 1).ptrs 0 = 2 ∧
    ((childSplitIndex 5).buffercache.blocks 1).ptrs 1 = 3 :=
  ⟨rfl, rfl, rfl, rfl, rfl, rfl, rfl, rfl, rfl, rfl⟩

/-! ## Detach and re-Attach -/

/-- Two caches of the same size that agree on every block, except on blocks that
are neither root, interior nor leaf nodes in both, give the same `Lookup`
results. -/
theorem lookup_agree (c c2 : BufferCache) (key : Nat) (hn : c2.numblocks = c.numblocks)
    (hsame : ∀ n, c2.blocks n = c.blocks n ∨
      ((c.blocks n).info.nodetype.isInterior = false ∧
        (c.blocks n).info.nodetype ≠ BTREE_LEAF_NODE ∧
        (c2.blocks n).info.nodetype.isInterior = false ∧
        (c2.blocks n).info.nodetype ≠ BTREE_LEAF_NODE)) :
    ∀ (fuel node v0 : Nat),
      lookupResult (LookupOrUpdateInternal fuel c2 node BTREE_OP_LOOKUP key v0) =
        lookupResult (LookupOrUpdateInternal fuel c node BTREE_OP_LOOKUP key v0) := by
  intro fuel
  induction fuel with
  | zero => intro node v0; rfl
  | succ f ih =>
    intro node v0
    by_cases hlt : node < c.numblocks
    · have hlt2 : node < c2.numblocks := by rw [hn]; exact hlt
      rcases hsame node with heq | ⟨h1, h2, h3, h4⟩
      · by_cases ht : (c.blocks node).info.nodetype.isInterior = true
        · by_cases hnk : 0 < (c.blocks node).info.numkeys
          · rw [LOU_interior f c node _ key v0 hlt ht hnk,
              LOU_interior f c2 node _ key v0 hlt2 (by rw [heq]; exact ht)
                (by rw [heq]; exact hnk), heq]
            exact ih _ v0
          · rw [LOU_interior_empty f c node _ key v0 hlt ht (by omega),
              LOU_interior_empty f c2 node _ key v0 hlt2 (by rw [heq]; exact ht)
                (by rw [heq]; omega)]
            rfl
        · by_cases hl : (c.blocks node).info.nodetype = BTREE_LEAF_NODE
          · rcases leafFind_leaf (c.blocks node) key hl (c.blocks node).info.numkeys 0 with
              hnone | ⟨o, _, ho, _, _, hsome⟩
            · rw [LOU_leaf_none f c node _ key v0 hlt hl hnone,
                LOU_leaf_none f c2 node _ key v0 hlt2 (by rw [heq]; exact hl)
                  (by rw [heq]; exact hnone)]
              rfl
            · rw [LOU_leaf_lookup f c node key v0 o hlt hl ho hsome,
                LOU_leaf_lookup f c2 node key v0 o hlt2 (by rw [heq]; exact hl)
                  (by rw [heq]; exact ho) (by rw [heq]; exact hsome), heq]
              rfl
          · rw [LOU_other f c node _ key v0 hlt (by simpa using ht) hl,
              LOU_other f c2 node _ key v0 hlt2 (by rw [heq]; simpa using ht)
                (by rw [heq]; exact hl)]
            rfl
      · rw [LOU_other f c node _ key v0 hlt h1 h2, LOU_other f c2 node _ key v0 hlt2 h3 h4]
        rfl
    · rw [LOU_unreadable f c node _ key v0 hlt,
        LOU_unreadable f c2 node _ key v0 (by rw [hn]; exact hlt)]
      rfl

/-- After `Detach` and re-`Attach` on `rootAtZeroIndex` the descent for key 50
returns to block 0 at every level and never ends. -/
theorem rootAtZero_descent_loops :
    ∀ fuel v0, LookupOrUpdateInternal fuel (detachAttach rootAtZeroIndex).buffercache 0
      BTREE_OP_LOOKUP 50 v0 = .nofuel := by
  intro fuel
  induction fuel with
  | zero => intro v0; rfl
  | succ f ih =>
    intro v0
    have hstep := LOU_interior f (detachAttach rootAtZeroIndex).buffercache 0
      BTREE_OP_LOOKUP 50 v0 (by decide) (by decide) (by decide)
    rw [hstep]
    exact ih v0

/-- C11, as stated, fails on an index whose root is block 0. Mounted from
`rootAtZeroImage`, `Insert(50, 1)` succeeds and `Lookup(50)` returns 1. `Detach`
then overwrites block 0, the root, with the in-memory superblock; after
`Attach(0, create=false)`, which returns `NoError`, `Lookup(50)` no longer
returns at all, whatever the fuel. -/
theorem C11_counterexample :
    Lookup 2 rootAtZeroIndex 50 0 = .ret (ERROR_NOERROR, 1) ∧
    (Detach rootAtZeroIndex).1 = ERROR_NOERROR ∧
    Attach (Detach rootAtZeroIndex).2 0 false =
      .ret (ERROR_NOERROR, detachAttach rootAtZeroIndex) ∧
    ∀ fuel, Lookup fuel (detachAttach rootAtZeroIndex) 50 0 = .nofuel := by
  refine ⟨rfl, rfl, rfl, ?_⟩
  intro fuel
  rw [Lookup_eq]
  have hroot : (detachAttach rootAtZeroIndex).superblock.info.rootnode = 0 := rfl
  rw [hroot, rootAtZero_descent_loops fuel 0]
  rfl

/-- C11, amended. On an attached index (`superblock_index = 0`, block 0 in the
cache) whose block 0 and in-memory superblock are `Superblock` nodes, `Detach`
followed by `Attach(0, create=false)` returns `NoError` twice, leaves every
block other than block 0 unchanged and block 0 holding the superblock, yields an
in-memory superblock equal to the one before `Detach`, and `Lookup(k)` returns
the same result for every key `k` as before `Detach`. -/
theorem C11_detach_attach (st : BTreeIndex) (hsb : st.superblock_index = 0)
    (hn : 0 < st.buffercache.numblocks)
    (hmem : st.superblock.info.nodetype = BTREE_SUPERBLOCK)
    (hblk : (st.buffercache.blocks 0).info.nodetype = BTREE_SUPERBLOCK) :
    ∃ st1 st2, Detach st = (ERROR_NOERROR, st1) ∧
      Attach st1 0 false = .ret (ERROR_NOERROR, st2) ∧
      (∀ j, j ≠ 0 → st2.buffercache.blocks j = st.buffercache.blocks j) ∧
      st2.buffercache.blocks 0 = st.superblock ∧
      st2.buffercache.numblocks = st.buffercache.numblocks ∧
      st2.superblock = st.superblock ∧
      st2.superblock_index = st.superblock_index ∧
      (∀ fuel k v0, Lookup fuel st2 k v0 = Lookup fuel st k v0) := by
  obtain ⟨c, sbi, sb⟩ := st
  simp only at hsb hn hmem hblk
  subst hsb
  have hD : Detach ⟨c, 0, sb⟩ =
      (ERROR_NOERROR, ⟨{ c with blocks := Function.update c.blocks 0 sb }, 0, sb⟩) := by
    simp [Detach, Serialize, hn]
  have hA : Attach ⟨{ c with blocks := Function.update c.blocks 0 sb }, 0, sb⟩ 0 false =
      .ret (ERROR_NOERROR, ⟨{ c with blocks := Function.update c.blocks 0 sb }, 0, sb⟩) := by
    simp [Attach, Unserialize, hn]
  refine ⟨_, _, hD, hA, ?_, ?_, rfl, rfl, rfl, ?_⟩
  · intro j hj
    simp [Function.update_noteq hj]
  · simp
  · intro fuel k v0
    rw [Lookup_eq, Lookup_eq]
    simp only
    apply lookup_agree c { c with blocks := Function.update c.blocks 0 sb } k rfl
    intro n
    by_cases h0 : n = 0
    · subst h0
      right
      simp [hmem, hblk, NodeType.isInterior]
    · left
      simp [Function.update_noteq h0]

/-- C11, amended, on the index holding key 50 over four blocks. -/
theorem C11_detach_attach_witness :
    ∃ st1 st2, Detach (insertedIndex 4) = (ERROR_NOERROR, st1) ∧
      Attach st1 0 false = .ret (ERROR_NOERROR, st2) ∧
      st2.superblock = (insertedIndex 4).superblock ∧
      (∀ fuel k v0, Lookup fuel st2 k v0 = Lookup fuel (insertedIndex 4) k v0) := by
  obtain ⟨st1, st2, h1, h2, _, _, _, h6, _, h8⟩ :=
    C11_detach_attach (insertedIndex 4) rfl (by decide) rfl rfl
  exact ⟨st1, st2, h1, h2, h6, h8⟩

/-! ## What Insert leaves of the superblock -/

theorem SameButFreelist.refl (a : BTreeIndex) : SameButFreelist a a :=
  ⟨rfl, rfl, rfl, rfl⟩

theorem SameButFreelist.trans {a b c : BTreeIndex} (h1 : SameButFreelist a b)
    (h2 : SameButFreelist b c) : SameButFreelist a c :=
  ⟨h2.1.trans h1.1, h2.2.1.trans h1.2.1, h2.2.2.1.trans h1.2.2.1, h2.2.2.2.trans h1.2.2.2⟩

theorem SameButFreelist.numkeys {a b : BTreeIndex} (h : SameButFreelist a b) :
    b.superblock.info.numkeys = a.superblock.info.numkeys := by
  have := congrArg (fun n => n.info.numkeys) h.2.2.2
  simpa [eraseFreelist] using this

theorem SameButFreelist.rootnode {a b : BTreeIndex} (h : SameButFreelist a b) :
    b.superblock.info.rootnode = a.superblock.info.rootnode := by
  have := congrArg (fun n => n.info.rootnode) h.2.2.2
  simpa [eraseFreelist] using this

theorem Serialize_numblocks (b : BTreeNode) (c : BufferCache) (n : Nat) :
    (Serialize b c n).2.numblocks = c.numblocks ∧ (Serialize b c n).2.blocksize = c.blocksize := by
  unfold Serialize
  split <;> exact ⟨rfl, rfl⟩

/-- Writing a block leaves the index the same but for blocks. -/
theorem SameButFreelist.serialize {a b : BTreeIndex} (h : SameButFreelist a b)
    (x : BTreeNode) (n : Nat) :
    SameButFreelist a { b with buffercache := (Serialize x b.buffercache n).2 } :=
  ⟨h.1, (Serialize_numblocks x b.buffercache n).1.trans h.2.1,
    (Serialize_numblocks x b.buffercache n).2.trans h.2.2.1, h.2.2.2⟩

/-- `AllocateNode` changes `superblock.freelist` and block contents only. -/
theorem AllocateNode_frame {st st1 : BTreeIndex} {rc : ERROR_T} {n : Nat}
    (h : AllocateNode st = .ret (rc, n, st1)) : SameButFreelist st st1 := by
  unfold AllocateNode at h
  simp only at h
  split at h
  · simp only [Res.ret.injEq, Prod.mk.injEq] at h
    obtain ⟨_, _, rfl⟩ := h
    exact SameButFreelist.refl _
  · split at h
    · simp at h
    · simp only [Res.ret.injEq, Prod.mk.injEq] at h
      obtain ⟨_, _, rfl⟩ := h
      exact ⟨rfl, (Serialize_numblocks _ _ _).1, (Serialize_numblocks _ _ _).2, rfl⟩

theorem leafSplit_frame {st st2 : BTreeIndex} {node newkey newnode : Nat} {b : BTreeNode}
    {rc : ERROR_T} {nk nn : Nat}
    (h : leafSplit st node b newkey newnode = .ret (rc, nk, nn, st2)) :
    SameButFreelist st st2 := by
  unfold leafSplit at h
  simp only at h
  repeat' split at h
  all_goals first
    | (simp at h; done)
    | (simp only [Res.ret.injEq, Prod.mk.injEq] at h
       obtain ⟨_, _, _, rfl⟩ := h
       first
         | exact SameButFreelist.refl _
         | exact AllocateNode_frame (by assumption)
         | exact (AllocateNode_frame (by assumption)).serialize _ _
         | exact ((AllocateNode_frame (by assumption)).serialize _ _).serialize _ _)

theorem interiorSplit_frame {st st2 : BTreeIndex} {node newkey newnode : Nat} {b : BTreeNode}
    {rc : ERROR_T} {nk nn : Nat}
    (h : interiorSplit st node b newkey newnode = .ret (rc, nk, nn, st2)) :
    SameButFreelist st st2 := by
  unfold interiorSplit at h
  simp only at h
  repeat' split at h
  all_goals first
    | (simp at h; done)
    | (simp only [Res.ret.injEq, Prod.mk.injEq] at h
       obtain ⟨_, _, _, rfl⟩ := h
       first
         | exact SameButFreelist.refl _
         | exact AllocateNode_frame (by assumption)
         | exact (AllocateNode_frame (by assumption)).serialize _ _
         | exact ((AllocateNode_frame (by assumption)).serialize _ _).serialize _ _)

theorem leafAppend_frame {st st2 : BTreeIndex} {node key value newkey newnode : Nat}
    {b : BTreeNode} {rc : ERROR_T} {nk nn : Nat}
    (h : leafAppend st node b key value newkey newnode = .ret (rc, nk, nn, st2)) :
    SameButFreelist st st2 := by
  unfold leafAppend at h
  simp only at h
  repeat' split at h
  all_goals first
    | (simp at h; done)
    | (simp only [Res.ret.injEq, Prod.mk.injEq] at h
       obtain ⟨_, _, _, rfl⟩ := h
       first
         | exact SameButFreelist.refl _
         | exact (SameButFreelist.refl _).serialize _ _)
    | exact ((SameButFreelist.refl st).serialize _ _).trans (leafSplit_frame h)

theorem leafInsertAt_frame {st st2 : BTreeIndex} {node offset testkey key value : Nat}
    {newkey newnode : Nat} {b : BTreeNode} {rc : ERROR_T} {nk nn : Nat}
    (h : leafInsertAt st node b offset testkey key value newkey newnode =
      .ret (rc, nk, nn, st2)) :
    SameButFreelist st st2 := by
  unfold leafInsertAt at h
  simp only at h
  repeat' split at h
  all_goals first
    | (simp at h; done)
    | (simp only [Res.ret.injEq, Prod.mk.injEq] at h
       obtain ⟨_, _, _, rfl⟩ := h
       first
         | exact SameButFreelist.refl _
         | exact (SameButFreelist.refl _).serialize _ _)
    | exact ((SameButFreelist.refl st).serialize _ _).trans (leafSplit_frame h)

theorem interiorFixup_frame {st st2 : BTreeIndex} {node offset testkey : Nat}
    {newkey newnode : Nat} {b : BTreeNode} {rc : ERROR_T} {nk nn : Nat}
    (h : interiorFixup st node b offset testkey newkey newnode = .ret (rc, nk, nn, st2)) :
    SameButFreelist st st2 := by
  unfold interiorFixup at h
  simp only at h
  repeat' split at h
  all_goals first
    | (simp at h; done)
    | (simp only [Res.ret.injEq, Prod.mk.injEq] at h
       obtain ⟨_, _, _, rfl⟩ := h
       first
         | exact SameButFreelist.refl _
         | exact (SameButFreelist.refl _).serialize _ _)
    | exact ((SameButFreelist.refl st).serialize _ _).trans (interiorSplit_frame h)

theorem two_alloc_frame {st st1 st2 : BTreeIndex} {rc1 rc2 : ERROR_T} {n1 n2 : Nat}
    (h1 : AllocateNode st = .ret (rc1, n1, st1)) (h2 : AllocateNode st1 = .ret (rc2, n2, st2)) :
    SameButFreelist st st2 :=
  (AllocateNode_frame h1).trans (AllocateNode_frame h2)

theorem insertEmptyRoot_frame {st st2 : BTreeIndex} {node key value newkey newnode : Nat}
    {b : BTreeNode} {rc : ERROR_T} {nk nn : Nat}
    (h : insertEmptyRoot st node b key value newkey newnode = .ret (rc, nk, nn, st2)) :
    SameButFreelist st st2 := by
  unfold insertEmptyRoot at h
  simp only at h
  repeat' split at h
  all_goals first
    | (simp at h; done)
    | (simp only [Res.ret.injEq, Prod.mk.injEq] at h
       obtain ⟨_, _, _, rfl⟩ := h
       first
         | exact SameButFreelist.refl _
         | exact AllocateNode_frame (by assumption)
         | exact two_alloc_frame (by assumption) (by assumption)
         | exact (two_alloc_frame (by assumption) (by assumption)).serialize _ _
         | exact ((two_alloc_frame (by assumption) (by assumption)).serialize _ _).serialize _ _
         | exact (((two_alloc_frame (by assumption) (by assumption)).serialize _ _).serialize
             _ _).serialize _ _)

/-- `InsertRecursion` changes `superblock.freelist` and block contents only:
`superblock.rootnode`, `superblock.numkeys`, the superblock index and the size of
the cache are the same when it returns, whatever it returns. -/
theorem InsertRecursion_frame :
    ∀ (fuel : Nat) (st : BTreeIndex) (node key value newkey newnode : Nat) (rc : ERROR_T)
      (nk nn : Nat) (st2 : BTreeIndex),
      InsertRecursion fuel st node key value newkey newnode = .ret (rc, nk, nn, st2) →
      SameButFreelist st st2 := by
  intro fuel
  induction fuel with
  | zero =>
    intro st node key value newkey newnode rc nk nn st2 h
    simp [InsertRecursion] at h
  | succ f ih =>
    intro st node key value newkey newnode rc nk nn st2 h
    simp only [InsertRecursion] at h
    repeat' split at h
    all_goals first
      | (simp at h; done)
      | exact insertEmptyRoot_frame h
      | exact leafInsertAt_frame h
      | exact leafAppend_frame h
      | exact ih _ _ _ _ _ _ _ _ _ _ h
      | exact (ih _ _ _ _ _ _ _ _ _ _ (by assumption)).trans (interiorFixup_frame h)
      | (simp only [Res.ret.injEq, Prod.mk.injEq] at h
         obtain ⟨_, _, _, rfl⟩ := h
         first
           | exact SameButFreelist.refl _
           | exact ih _ _ _ _ _ _ _ _ _ _ (by assumption))

theorem insertNewRoot_frame {st st2 : BTreeIndex} {newkey newnode : Nat} {rc : ERROR_T}
    (h : insertNewRoot st newkey newnode = .ret (rc, st2)) : SameButFreelist st st2 := by
  unfold insertNewRoot at h
  simp only at h
  repeat' split at h
  all_goals first
    | (simp at h; done)
    | (simp only [Res.ret.injEq, Prod.mk.injEq] at h
       obtain ⟨_, rfl⟩ := h
       first
         | exact SameButFreelist.refl _
         | exact AllocateNode_frame (by assumption)
         | exact (AllocateNode_frame (by assumption)).serialize _ _)

/-- The new-root part of `Insert` never returns `NoError`: it returns the error
of reading the root, or the code 1 that `rc=newRoot.info.numkeys=1` stores. -/
theorem insertNewRoot_ne_NOERROR {st st2 : BTreeIndex} {newkey newnode : Nat} {rc : ERROR_T}
    (h : insertNewRoot st newkey newnode = .ret (rc, st2)) : rc ≠ ERROR_NOERROR := by
  unfold insertNewRoot at h
  split at h
  · rename_i rc0 heq
    simp only [Res.ret.injEq, Prod.mk.injEq] at h
    rw [← h.1, (Unserialize_error heq).2]
    decide
  · simp only [ne_eq, reduceCtorEq, not_false_eq_true, ↓reduceIte, Res.ret.injEq,
      Prod.mk.injEq] at h
    rw [← h.1]
    decide

/-- `Insert` leaves `superblock.numkeys` one higher when it returns `NoError`
and as it was when it returns any other code; nothing else of the in-memory
superblock but `freelist` changes. -/
theorem Insert_frame {fuel : Nat} {st st2 : BTreeIndex} {key value : Nat} {rc : ERROR_T}
    (h : Insert fuel st key value = .ret (rc, st2)) :
    (rc ≠ ERROR_NOERROR → SameButFreelist st st2) ∧
    (rc = ERROR_NOERROR → ∃ st1, SameButFreelist st st1 ∧ st2 = incrNumkeys st1) := by
  unfold Insert at h
  split at h
  · simp at h
  · simp at h
  · rename_i rc1 nk nn st1 heq
    have hf := InsertRecursion_frame _ _ _ _ _ _ _ _ _ _ _ heq
    split at h
    · simp only [Res.ret.injEq, Prod.mk.injEq] at h
      obtain ⟨rfl, rfl⟩ := h
      rename_i hne
      exact ⟨fun _ => hf, fun he => absurd he hne⟩
    · split at h
      · split at h
        · simp at h
        · simp at h
        · rename_i rc2 st3 heq2
          have hne2 := insertNewRoot_ne_NOERROR heq2
          simp only [hne2, ne_eq, not_false_eq_true, ↓reduceIte, Res.ret.injEq,
            Prod.mk.injEq] at h
          obtain ⟨rfl, rfl⟩ := h
          exact ⟨fun _ => hf.trans (insertNewRoot_frame heq2), fun he => absurd he hne2⟩
      · simp only [Res.ret.injEq, Prod.mk.injEq] at h
        obtain ⟨rfl, rfl⟩ := h
        exact ⟨fun hne => absurd rfl hne, fun _ => ⟨st1, hf, rfl⟩⟩

/-! ## Running out of free blocks -/

theorem AllocateNode_nospace (st : BTreeIndex) (h : st.superblock.info.freelist = 0) :
    AllocateNode st = .ret (ERROR_NOSPACE, 0, st) := by
  simp [AllocateNode, h]

theorem SetKey_leaf {b : BTreeNode} {i k : Nat} (ht : b.info.nodetype = BTREE_LEAF_NODE)
    (hi : i < b.info.numkeys) :
    SetKey b i k = .ok { b with keys := Function.update b.keys i k } := by
  simp [SetKey, ht, hi]

/-- The copy loop of the leaf split, on a leaf `b` and a copy `sp` with the same
header: it never fails, it ends with `insertIndex` advanced by the number of
slots from `i` to the end, and it has copied those slots of `b` to `sp` from
`ins` on. -/
theorem leafMove_spec (b : BTreeNode) (ht : b.info.nodetype = BTREE_LEAF_NODE) :
    ∀ (m i ins : Nat) (sp : BTreeNode), sp.info = b.info → ins ≤ i → i ≤ b.info.numkeys →
      b.info.numkeys ≤ i + m →
      ∃ sp2, leafMove b m i ins sp = .ok (sp2, ins + (b.info.numkeys - i)) ∧
        sp2.info = b.info ∧ sp2.ptrs = sp.ptrs ∧
        (∀ j, sp2.keys j =
          if ins ≤ j ∧ j < ins + (b.info.numkeys - i) then b.keys (i + (j - ins))
          else sp.keys j) ∧
        (∀ j, sp2.vals j =
          if ins ≤ j ∧ j < ins + (b.info.numkeys - i) then b.vals (i + (j - ins))
          else sp.vals j) := by
  intro m
  induction m with
  | zero =>
    intro i ins sp hinfo h1 h2 h3
    have : b.info.numkeys - i = 0 := by omega
    have hno : ∀ j, ¬ (ins ≤ j ∧ j < ins + (b.info.numkeys - i)) := by intro j; omega
    refine ⟨sp, ?_, hinfo, rfl, ?_, ?_⟩
    · simp [leafMove, this]
    · intro j; simp [hno j]
    · intro j; simp [hno j]
  | succ m ih =>
    intro i ins sp hinfo h1 h2 h3
    by_cases hi : i < b.info.numkeys
    · have hsp : sp.info.nodetype = BTREE_LEAF_NODE := by rw [hinfo]; exact ht
      have hins : ins < sp.info.numkeys := by rw [hinfo]; omega
      have hk := @SetKey_leaf sp ins (b.keys i) hsp hins
      have hv := @SetVal_leaf { sp with keys := Function.update sp.keys ins (b.keys i) } ins
        (b.vals i) hsp hins
      obtain ⟨sp2, e1, e2, e3, e4, e5⟩ := ih (i + 1) (ins + 1)
        { sp with keys := Function.update sp.keys ins (b.keys i),
                  vals := Function.update sp.vals ins (b.vals i) }
        hinfo (by omega) (by omega) (by omega)
      have harith : ins + 1 + (b.info.numkeys - (i + 1)) = ins + (b.info.numkeys - i) := by
        omega
      rw [harith] at e1
      refine ⟨sp2, ?_, e2, e3, ?_, ?_⟩
      · have hlt : i < sp.info.numkeys := by rw [hinfo]; exact hi
        simp only [leafMove, hlt, if_true, GetKey_leaf ht hi, GetVal_leaf ht hi, hk, hv]
        exact e1
      · intro j
        rw [e4 j]
        by_cases hj : j = ins
        · subst hj
          have h1 : ¬ (j + 1 ≤ j ∧ j < j + 1 + (b.info.numkeys - (i + 1))) := by omega
          have h2 : j ≤ j ∧ j < j + (b.info.numkeys - i) := by omega
          simp [h1, h2]
        · by_cases hr : ins + 1 ≤ j ∧ j < ins + 1 + (b.info.numkeys - (i + 1))
          · have h2 : ins ≤ j ∧ j < ins + (b.info.numkeys - i) := by omega
            simp only [hr, h2, and_self, if_true]
            congr 1
            omega
          · have h2 : ¬ (ins ≤ j ∧ j < ins + (b.info.numkeys - i)) := by omega
            simp [hr, h2, Function.update_noteq hj]
      · intro j
        rw [e5 j]
        by_cases hj : j = ins
        · subst hj
          have h1 : ¬ (j + 1 ≤ j ∧ j < j + 1 + (b.info.numkeys - (i + 1))) := by omega
          have h2 : j ≤ j ∧ j < j + (b.info.numkeys - i) := by omega
          simp [h1, h2]
        · by_cases hr : ins + 1 ≤ j ∧ j < ins + 1 + (b.info.numkeys - (i + 1))
          · have h2 : ins ≤ j ∧ j < ins + (b.info.numkeys - i) := by omega
            simp only [hr, h2, and_self, if_true]
            congr 1
            omega
          · have h2 : ¬ (ins ≤ j ∧ j < ins + (b.info.numkeys - i)) := by omega
            simp [hr, h2, Function.update_noteq hj]
    · have hz : b.info.numkeys - i = 0 := by omega
      have hlt : ¬ i < sp.info.numkeys := by rw [hinfo]; exact hi
      have hno : ∀ j, ¬ (ins ≤ j ∧ j < ins + (b.info.numkeys - i)) := by intro j; omega
      refine ⟨sp, ?_, hinfo, rfl, ?_, ?_⟩
      · simp [leafMove, hlt, hz]
      · intro j; simp [hno j]
      · intro j; simp [hno j]

/-- The copy loop of the interior split, on a root or interior node `b` and a
copy `sp` with the same header: it never fails, it ends with `insertIndex`
advanced by the number of key slots from `i` to the end, and it has copied those
keys and the pointers before them from `b` to `sp` from `ins` on. -/
theorem interiorMove_spec (b : BTreeNode) (ht : b.info.nodetype.isInterior = true) :
    ∀ (m i ins : Nat) (sp : BTreeNode) (tp : Nat), sp.info = b.info → ins ≤ i →
      i ≤ b.info.numkeys → b.info.numkeys ≤ i + m →
      ∃ sp2 tp2, interiorMove b m i ins sp tp = .ok (sp2, ins + (b.info.numkeys - i), tp2) ∧
        sp2.info = b.info ∧ sp2.vals = sp.vals ∧
        (∀ j, sp2.keys j =
          if ins ≤ j ∧ j < ins + (b.info.numkeys - i) then b.keys (i + (j - ins))
          else sp.keys j) ∧
        (∀ j, sp2.ptrs j =
          if ins ≤ j ∧ j < ins + (b.info.numkeys - i) then b.ptrs (i + (j - ins))
          else sp.ptrs j) := by
  intro m
  induction m with
  | zero =>
    intro i ins sp tp hinfo h1 h2 h3
    have : b.info.numkeys - i = 0 := by omega
    have hno : ∀ j, ¬ (ins ≤ j ∧ j < ins + (b.info.numkeys - i)) := by intro j; omega
    refine ⟨sp, tp, ?_, hinfo, rfl, ?_, ?_⟩
    · simp [interiorMove, this]
    · intro j; simp [hno j]
    · intro j; simp [hno j]
  | succ m ih =>
    intro i ins sp tp hinfo h1 h2 h3
    by_cases hi : i < b.info.numkeys
    · have hsp : sp.info.nodetype.isInterior = true := by rw [hinfo]; exact ht
      have hins : ins < sp.info.numkeys := by rw [hinfo]; omega
      have hk := @SetKey_interior sp ins (b.keys i) hsp hins
      have hv := @SetPtr_interior { sp with keys := Function.update sp.keys ins (b.keys i) } ins
        (b.ptrs i) hsp (le_of_lt hins)
      obtain ⟨sp2, tp2, e1, e2, e3, e4, e5⟩ := ih (i + 1) (ins + 1)
        { sp with keys := Function.update sp.keys ins (b.keys i),
                  ptrs := Function.update sp.ptrs ins (b.ptrs i) } (b.ptrs i)
        hinfo (by omega) (by omega) (by omega)
      have harith : ins + 1 + (b.info.numkeys - (i + 1)) = ins + (b.info.numkeys - i) := by
        omega
      rw [harith] at e1
      refine ⟨sp2, tp2, ?_, e2, e3, ?_, ?_⟩
      · have hlt : i < sp.info.numkeys := by rw [hinfo]; exact hi
        simp only [interiorMove, hlt, if_true, GetKey_interior ht hi,
          GetPtr_interior ht (le_of_lt hi), hk, hv]
        exact e1
      · intro j
        rw [e4 j]
        by_cases hj : j = ins
        · subst hj
          have h1 : ¬ (j + 1 ≤ j ∧ j < j + 1 + (b.info.numkeys - (i + 1))) := by omega
          have h2 : j ≤ j ∧ j < j + (b.info.numkeys - i) := by omega
          simp [h1, h2]
        · by_cases hr : ins + 1 ≤ j ∧ j < ins + 1 + (b.info.numkeys - (i + 1))
          · have h2 : ins ≤ j ∧ j < ins + (b.info.numkeys - i) := by omega
            simp only [hr, h2, and_self, if_true]
            congr 1
            omega
          · have h2 : ¬ (ins ≤ j ∧ j < ins + (b.info.numkeys - i)) := by omega
            simp [hr, h2, Function.update_noteq hj]
      · intro j
        rw [e5 j]
        by_cases hj : j = ins
        · subst hj
          have h1 : ¬ (j + 1 ≤ j ∧ j < j + 1 + (b.info.numkeys - (i + 1))) := by omega
          have h2 : j ≤ j ∧ j < j + (b.info.numkeys - i) := by omega
          simp [h1, h2]
        · by_cases hr : ins + 1 ≤ j ∧ j < ins + 1 + (b.info.numkeys - (i + 1))
          · have h2 : ins ≤ j ∧ j < ins + (b.info.numkeys - i) := by omega
            simp only [hr, h2, and_self, if_true]
            congr 1
            omega
          · have h2 : ¬ (ins ≤ j ∧ j < ins + (b.info.numkeys - i)) := by omega
            simp [hr, h2, Function.update_noteq hj]
    · have hz : b.info.numkeys - i = 0 := by omega
      have hlt : ¬ i < sp.info.numkeys := by rw [hinfo]; exact hi
      have hno : ∀ j, ¬ (ins ≤ j ∧ j < ins + (b.info.numkeys - i)) := by intro j; omega
      refine ⟨sp, tp, ?_, hinfo, rfl, ?_, ?_⟩
      · simp [interiorMove, hlt, hz]
      · intro j; simp [hno j]
      · intro j; simp [hno j]

/-- The empty-root case with an empty free list: the first allocation fails and
`NoSpace` is returned with nothing changed. -/
theorem insertEmptyRoot_nospace_first (st : BTreeIndex) (node : Nat) (b : BTreeNode)
    (key value newkey newnode : Nat) (ht : b.info.nodetype.isInterior = true)
    (hfree : st.superblock.info.freelist = 0) :
    insertEmptyRoot st node b key value newkey newnode =
      .ret (ERROR_NOSPACE, newkey, newnode, st) := by
  simp [insertEmptyRoot, SetKey, SetVal, ht, AllocateNode_nospace st hfree]

/-- The empty-root case with a single free block: the second allocation fails
and `NoSpace` is returned. -/
theorem insertEmptyRoot_nospace_second (st st1 : BTreeIndex) (node l1 : Nat) (b : BTreeNode)
    (key value newkey newnode : Nat) (ht : b.info.nodetype.isInterior = true)
    (h1 : AllocateNode st = .ret (ERROR_NOERROR, l1, st1))
    (hfree : st1.superblock.info.freelist = 0) :
    insertEmptyRoot st node b key value newkey newnode =
      .ret (ERROR_NOSPACE, newkey, newnode, st1) := by
  simp [insertEmptyRoot, SetKey, SetVal, ht, h1, AllocateNode_nospace st1 hfree]

/-- The leaf split with an empty free list: the allocation fails and `NoSpace`
is returned; the promoted key has been read, `newnode` is 0. -/
theorem leafSplit_nospace (st : BTreeIndex) (node : Nat) (b : BTreeNode)
    (newkey newnode : Nat) (ht : b.info.nodetype = BTREE_LEAF_NODE)
    (hn : 0 < b.info.numkeys) (hfree : st.superblock.info.freelist = 0) :
    leafSplit st node b newkey newnode =
      .ret (ERROR_NOSPACE, b.keys (b.info.numkeys / 2), 0, st) := by
  have hhalf : b.info.numkeys / 2 < b.info.numkeys := Nat.div_lt_self hn (by decide)
  obtain ⟨sp2, e1, _⟩ := leafMove_spec b ht b.info.numkeys (b.info.numkeys / 2) 0 b rfl
    (Nat.zero_le _) (le_of_lt hhalf) (by omega)
  simp [leafSplit, fillThreshold, GetKey_leaf ht hhalf, e1, AllocateNode_nospace st hfree]

/-- `Insert` returns the error of `InsertRecursion` and does not touch
`superblock.numkeys` then. -/
theorem Insert_error (fuel : Nat) (st st1 : BTreeIndex) (key value : Nat) (rc : ERROR_T)
    (nk nn : Nat) (hrc : rc ≠ ERROR_NOERROR)
    (h : InsertRecursion fuel st st.superblock.info.rootnode key value 0 0 =
      .ret (rc, nk, nn, st1)) :
    Insert fuel st key value = .ret (rc, st1) ∧
      st1.superblock.info.numkeys = st.superblock.info.numkeys := by
  refine ⟨?_, (InsertRecursion_frame _ _ _ _ _ _ _ _ _ _ _ h).numkeys⟩
  simp [Insert, h, hrc]

/-- In a leaf that does not hold `key`, the scan of `InsertRecursion` ends at the
first slot `p` with a larger key, or past the last slot; every key before `p` is
not larger than `key`. -/
theorem leafScan_position (b : BTreeNode) (key : Nat)
    (ht : b.info.nodetype = BTREE_LEAF_NODE) :
    ∀ (m i : Nat), i ≤ b.info.numkeys → b.info.numkeys ≤ i + m →
      (∀ j, i ≤ j → j < b.info.numkeys → b.keys j ≠ key) →
      ∃ p, i ≤ p ∧ p ≤ b.info.numkeys ∧ (∀ j, i ≤ j → j < p → ¬ key < b.keys j) ∧
        ((p < b.info.numkeys ∧ key < b.keys p ∧
            leafScan b key m i = .insertAt p (b.keys p)) ∨
          (p = b.info.numkeys ∧ leafScan b key m i = .append)) := by
  intro m
  induction m with
  | zero =>
    intro i h1 h2 _
    refine ⟨i, le_refl _, h1, fun j a c => by omega, Or.inr ⟨by omega, rfl⟩⟩
  | succ m ih =>
    intro i h1 h2 hne
    by_cases hi : i < b.info.numkeys
    · have hki : ¬ b.keys i = key := hne i (le_refl _) hi
      by_cases hlt : key < b.keys i
      · refine ⟨i, le_refl _, h1, fun j a c => by omega, Or.inl ⟨hi, hlt, ?_⟩⟩
        simp [leafScan, hi, GetKey_leaf ht hi, hki, hlt]
      · have hstep : leafScan b key (m + 1) i = leafScan b key m (i + 1) := by
          simp [leafScan, hi, GetKey_leaf ht hi, hki, hlt]
        obtain ⟨p, e1, e2, e3, e4⟩ := ih (i + 1) (by omega) (by omega)
          (fun j a c => hne j (by omega) c)
        refine ⟨p, by omega, e2, ?_, ?_⟩
        · intro j hj1 hj2
          rcases Nat.eq_or_lt_of_le hj1 with heq | hgt
          · subst heq; exact hlt
          · exact e3 j (by omega) hj2
        · rw [hstep]; exact e4
    · refine ⟨i, le_refl _, h1, fun j a c => by omega, Or.inr ⟨by omega, ?_⟩⟩
      simp [leafScan, hi]

/-- The shift loop of the leaf insert on a leaf with `N` slots, entered at slot
`i` with the `Current` temporaries holding slot `i`: it never fails; slot `i`
receives the `Prev` temporaries, every slot after it up to `N-2` receives the
old contents of the slot before it, and the `Prev` temporaries end holding the
old slot `N-2`. -/
theorem leafShift_spec :
    ∀ (m i : Nat) (s : ShiftState), s.b.info.nodetype = BTREE_LEAF_NODE →
      i + 1 ≤ s.b.info.numkeys → s.b.info.numkeys ≤ i + 1 + m →
      s.keyCur = s.b.keys i → s.sndCur = s.b.vals i →
      ∃ s2, leafShift m i s = .ok s2 ∧ s2.b.info = s.b.info ∧ s2.b.ptrs = s.b.ptrs ∧
        (∀ j, s2.b.keys j =
          if i ≤ j ∧ j + 1 < s.b.info.numkeys then
            (if j = i then s.keyPrev else s.b.keys (j - 1))
          else s.b.keys j) ∧
        (∀ j, s2.b.vals j =
          if i ≤ j ∧ j + 1 < s.b.info.numkeys then
            (if j = i then s.sndPrev else s.b.vals (j - 1))
          else s.b.vals j) ∧
        s2.keyPrev =
          (if i + 1 < s.b.info.numkeys then s.b.keys (s.b.info.numkeys - 2) else s.keyPrev) ∧
        s2.sndPrev =
          (if i + 1 < s.b.info.numkeys then s.b.vals (s.b.info.numkeys - 2) else s.sndPrev) := by
  intro m
  induction m with
  | zero =>
    intro i s _ h1 h2 _ _
    have hno : ∀ j, ¬ (i ≤ j ∧ j + 1 < s.b.info.numkeys) := by intro j; omega
    have hno2 : ¬ i + 1 < s.b.info.numkeys := by omega
    refine ⟨s, rfl, rfl, rfl, ?_, ?_, ?_, ?_⟩
    · intro j; simp [hno j]
    · intro j; simp [hno j]
    · simp [hno2]
    · simp [hno2]
  | succ m ih =>
    intro i s ht h1 h2 hkc hvc
    by_cases hi : i < s.b.info.numkeys - 1
    · have hi0 : i < s.b.info.numkeys := by omega
      have hk := @SetKey_leaf s.b i s.keyPrev ht hi0
      have hv := @SetVal_leaf { s.b with keys := Function.update s.b.keys i s.keyPrev } i
        s.sndPrev ht hi0
      have hi1 : i + 1 < s.b.info.numkeys := by omega
      have hg := @GetKey_leaf
        { s.b with keys := Function.update s.b.keys i s.keyPrev,
                   vals := Function.update s.b.vals i s.sndPrev } (i + 1) ht hi1
      have hq := @GetVal_leaf
        { s.b with keys := Function.update s.b.keys i s.keyPrev,
                   vals := Function.update s.b.vals i s.sndPrev } (i + 1) ht hi1
      have hne : i + 1 ≠ i := by omega
      obtain ⟨s2, e1, e2, e3, e4, e5, e6, e7⟩ := ih (i + 1)
        { b := { s.b with keys := Function.update s.b.keys i s.keyPrev,
                          vals := Function.update s.b.vals i s.sndPrev },
          keyPrev := s.keyCur, sndPrev := s.sndCur,
          keyCur := Function.update s.b.keys i s.keyPrev (i + 1),
          sndCur := Function.update s.b.vals i s.sndPrev (i + 1) }
        ht (by simp only; omega) (by simp only; omega) rfl rfl
      simp only at e2 e3 e4 e5 e6 e7
      refine ⟨s2, ?_, e2, e3, ?_, ?_, ?_, ?_⟩
      · simp only [leafShift, hi, if_true, hk, hv, hg, hq]
        exact e1
      · intro j
        rw [e4 j]
        by_cases hj : j = i
        · subst hj
          have c1 : ¬ (j + 1 ≤ j ∧ j + 1 < s.b.info.numkeys) := by omega
          have c2 : j ≤ j ∧ j + 1 < s.b.info.numkeys := by omega
          simp [c1, c2]
        · by_cases hr : i + 1 ≤ j ∧ j + 1 < s.b.info.numkeys
          · have c2 : i ≤ j ∧ j + 1 < s.b.info.numkeys := by omega
            simp only [hr, c2, and_self, if_true, hj, if_false]
            by_cases hj1 : j = i + 1
            · subst hj1
              simp [hkc]
            · have : j - 1 ≠ i := by omega
              simp [hj1, Function.update_noteq this]
          · have c2 : ¬ (i ≤ j ∧ j + 1 < s.b.info.numkeys) := by omega
            simp [hr, c2, Function.update_noteq hj]
      · intro j
        rw [e5 j]
        by_cases hj : j = i
        · subst hj
          have c1 : ¬ (j + 1 ≤ j ∧ j + 1 < s.b.info.numkeys) := by omega
          have c2 : j ≤ j ∧ j + 1 < s.b.info.numkeys := by omega
          simp [c1, c2]
        · by_cases hr : i + 1 ≤ j ∧ j + 1 < s.b.info.numkeys
          · have c2 : i ≤ j ∧ j + 1 < s.b.info.numkeys := by omega
            simp only [hr, c2, and_self, if_true, hj, if_false]
            by_cases hj1 : j = i + 1
            · subst hj1
              simp [hvc]
            · have : j - 1 ≠ i := by omega
              simp [hj1, Function.update_noteq this]
          · have c2 : ¬ (i ≤ j ∧ j + 1 < s.b.info.numkeys) := by omega
            simp [hr, c2, Function.update_noteq hj]
      · rw [e6]
        by_cases hl : i + 1 + 1 < s.b.info.numkeys
        · have : s.b.info.numkeys - 2 ≠ i := by omega
          simp [hl, hi1, Function.update_noteq this]
        · have : s.b.info.numkeys - 2 = i := by omega
          simp [hl, hi1, this, hkc]
      · rw [e7]
        by_cases hl : i + 1 + 1 < s.b.info.numkeys
        · have : s.b.info.numkeys - 2 ≠ i := by omega
          simp [hl, hi1, Function.update_noteq this]
        · have : s.b.info.numkeys - 2 = i := by omega
          simp [hl, hi1, this, hvc]
    · have hno : ∀ j, ¬ (i ≤ j ∧ j + 1 < s.b.info.numkeys) := by intro j; omega
      have hno2 : ¬ i + 1 < s.b.info.numkeys := by omega
      refine ⟨s, ?_, rfl, rfl, ?_, ?_, ?_, ?_⟩
      · simp [leafShift, hi]
      · intro j; simp [hno j]
      · intro j; simp [hno j]
      · simp [hno2]
      · simp [hno2]

/-- Inserting before slot `p` of a leaf: the shift never fails; the leaf with the
entry placed at `p` is written to its block and the overfull test and split
follow. -/
theorem leafInsertAt_eq (st : BTreeIndex) (node : Nat) (b : BTreeNode) (p k v : Nat)
    (newkey newnode : Nat) (ht : b.info.nodetype = BTREE_LEAF_NODE)
    (hp : p < b.info.numkeys) (hlt : node < st.buffercache.numblocks) :
    ∃ b3, InsertedAt b b3 p k v ∧
      leafInsertAt st node b p (b.keys p) k v newkey newnode =
        leafSplit
          { st with
            buffercache :=
              { st.buffercache with
                blocks := Function.update st.buffercache.blocks node b3 } }
          node b3 newkey newnode := by
  obtain ⟨s2, e1, e2, e3, e4, e5, e6, e7⟩ := leafShift_spec (b.info.numkeys + 1) p
    { b := { b with info := { b.info with numkeys := b.info.numkeys + 1 } },
      keyPrev := k, sndPrev := v, keyCur := b.keys p, sndCur := b.vals p }
    ht (by simp only; omega) (by simp only; omega) rfl rfl
  simp only at e2 e3 e4 e5 e6 e7
  have hty : s2.b.info.nodetype = BTREE_LEAF_NODE := by rw [e2]; exact ht
  have hnk : s2.b.info.numkeys = b.info.numkeys + 1 := by rw [e2]
  have hidx : s2.b.info.numkeys - 1 = b.info.numkeys := by omega
  have hlast : b.info.numkeys < s2.b.info.numkeys := by omega
  have hk := @SetKey_leaf s2.b b.info.numkeys s2.keyPrev hty hlast
  have hv := @SetVal_leaf
    { s2.b with keys := Function.update s2.b.keys b.info.numkeys s2.keyPrev }
    b.info.numkeys s2.sndPrev hty hlast
  have hp1 : p + 1 < b.info.numkeys + 1 := by omega
  have h2 : b.info.numkeys + 1 - 2 = b.info.numkeys - 1 := by omega
  simp only [hp1, if_true, h2] at e6 e7
  refine ⟨{ s2.b with
            keys := Function.update s2.b.keys b.info.numkeys s2.keyPrev,
            vals := Function.update s2.b.vals b.info.numkeys s2.sndPrev },
    ⟨e2, ?_, ?_⟩, ?_⟩
  · intro j
    simp only
    by_cases hj : j = b.info.numkeys
    · subst hj
      have c1 : ¬ b.info.numkeys < p := by omega
      have c2 : ¬ b.info.numkeys = p := by omega
      simp [c1, c2, e6]
    · rw [Function.update_noteq hj, e4 j]
      by_cases h1 : j < p
      · have c : ¬ (p ≤ j ∧ j + 1 < b.info.numkeys + 1) := by omega
        simp [h1, c]
      · by_cases h2 : j = p
        · subst h2
          have c : j ≤ j ∧ j + 1 < b.info.numkeys + 1 := by omega
          simp [c]
        · by_cases h3 : j ≤ b.info.numkeys
          · have c : p ≤ j ∧ j + 1 < b.info.numkeys + 1 := by omega
            simp [h1, h2, h3, c]
          · have c : ¬ (p ≤ j ∧ j + 1 < b.info.numkeys + 1) := by omega
            rw [if_neg c, if_neg h1, if_neg h2, if_neg h3]
  · intro j
    simp only
    by_cases hj : j = b.info.numkeys
    · subst hj
      have c1 : ¬ b.info.numkeys < p := by omega
      have c2 : ¬ b.info.numkeys = p := by omega
      simp [c1, c2, e7]
    · rw [Function.update_noteq hj, e5 j]
      by_cases h1 : j < p
      · have c : ¬ (p ≤ j ∧ j + 1 < b.info.numkeys + 1) := by omega
        simp [h1, c]
      · by_cases h2 : j = p
        · subst h2
          have c : j ≤ j ∧ j + 1 < b.info.numkeys + 1 := by omega
          simp [c]
        · by_cases h3 : j ≤ b.info.numkeys
          · have c : p ≤ j ∧ j + 1 < b.info.numkeys + 1 := by omega
            simp [h1, h2, h3, c]
          · have c : ¬ (p ≤ j ∧ j + 1 < b.info.numkeys + 1) := by omega
            rw [if_neg c, if_neg h1, if_neg h2, if_neg h3]
  · simp only [leafInsertAt, GetVal_leaf ht hp, e1, hidx, hk, hv, Serialize, hlt, if_true,
      ne_eq, not_true_eq_false, if_false]

/-- Appending to a leaf: the leaf with the entry placed at slot `numkeys` is
written to its block and the overfull test and split follow. -/
theorem leafAppend_eq (st : BTreeIndex) (node : Nat) (b : BTreeNode) (k v : Nat)
    (newkey newnode : Nat) (ht : b.info.nodetype = BTREE_LEAF_NODE)
    (hlt : node < st.buffercache.numblocks) :
    ∃ b3, InsertedAt b b3 b.info.numkeys k v ∧
      leafAppend st node b k v newkey newnode =
        leafSplit
          { st with
            buffercache :=
              { st.buffercache with
                blocks := Function.update st.buffercache.blocks node b3 } }
          node b3 newkey newnode := by
  refine ⟨{ b with info := { b.info with numkeys := b.info.numkeys + 1 },
                   keys := Function.update b.keys b.info.numkeys k,
                   vals := Function.update b.vals b.info.numkeys v },
    ⟨rfl, ?_, ?_⟩, ?_⟩
  · intro j
    by_cases h1 : j < b.info.numkeys
    · have : j ≠ b.info.numkeys := by omega
      simp [h1, Function.update_noteq this]
    · by_cases h2 : j = b.info.numkeys
      · subst h2; simp
      · have h3 : ¬ j ≤ b.info.numkeys := by omega
        simp [h1, h2, h3, Function.update_noteq h2]
  · intro j
    by_cases h1 : j < b.info.numkeys
    · have : j ≠ b.info.numkeys := by omega
      simp [h1, Function.update_noteq this]
    · by_cases h2 : j = b.info.numkeys
      · subst h2; simp
      · have h3 : ¬ j ≤ b.info.numkeys := by omega
        simp [h1, h2, h3, Function.update_noteq h2]
  · simp [leafAppend, SetKey, SetVal, ht, Serialize, hlt]

/-- What `AllocateNode` returns when the head of the free list is a block of the
cache that is `Unallocated`, whether or not the superblock can be written. -/
theorem AllocateNode_head (st : BTreeIndex) (n : Nat) (hn : st.superblock.info.freelist = n)
    (hn0 : n ≠ 0) (hlt : n < st.buffercache.numblocks)
    (hty : (st.buffercache.blocks n).info.nodetype = BTREE_UNALLOCATED_BLOCK) :
    ∃ st1, AllocateNode st = .ret (ERROR_NOERROR, n, st1) ∧
      st1.buffercache.numblocks = st.buffercache.numblocks ∧
      st1.superblock.info.freelist = (st.buffercache.blocks n).info.freelist := by
  subst hn
  refine ⟨{ st with
            superblock :=
              { st.superblock with
                info := { st.superblock.info with
                          freelist :=
                            (st.buffercache.blocks st.superblock.info.freelist).info.freelist } },
            buffercache :=
              (Serialize
                { st.superblock with
                  info := { st.superblock.info with
                            freelist :=
                              (st.buffercache.blocks
                                st.superblock.info.freelist).info.freelist } }
                st.buffercache st.superblock_index).2 },
    ?_, (Serialize_numblocks _ _ _).1, rfl⟩
  simp only [AllocateNode, hn0, if_false, Unserialize, hlt, if_true, hty, ne_eq,
    not_true_eq_false]

/-- The leaf split with a free block at hand: it returns `NoError` with the key
of slot `h = numkeys/2` and the block taken from the free list; the old block
keeps the slots before `h`, the new block holds the slots from `h` on, moved to
position 0. -/
theorem leafSplit_ok (st : BTreeIndex) (node m : Nat) (b3 : BTreeNode) (newkey newnode : Nat)
    (ht : b3.info.nodetype = BTREE_LEAF_NODE) (hn : 0 < b3.info.numkeys)
    (hlt : node < st.buffercache.numblocks)
    (hfl : st.superblock.info.freelist = m) (hm0 : m ≠ 0)
    (hmlt : m < st.buffercache.numblocks)
    (hmt : (st.buffercache.blocks m).info.nodetype = BTREE_UNALLOCATED_BLOCK)
    (hmn : m ≠ node) :
    ∃ st2, leafSplit st node b3 newkey newnode =
        .ret (ERROR_NOERROR, b3.keys (b3.info.numkeys / 2), m, st2) ∧
      st2.buffercache.blocks node =
        { b3 with info := { b3.info with numkeys := b3.info.numkeys / 2 } } ∧
      (st2.buffercache.blocks m).info =
        { b3.info with numkeys := b3.info.numkeys - b3.info.numkeys / 2 } ∧
      (∀ j, j < b3.info.numkeys - b3.info.numkeys / 2 →
        (st2.buffercache.blocks m).keys j = b3.keys (b3.info.numkeys / 2 + j) ∧
        (st2.buffercache.blocks m).vals j = b3.vals (b3.info.numkeys / 2 + j)) := by
  have hhalf : b3.info.numkeys / 2 < b3.info.numkeys := Nat.div_lt_self hn (by decide)
  obtain ⟨sp2, e1, e2, _, e4, e5⟩ := leafMove_spec b3 ht b3.info.numkeys
    (b3.info.numkeys / 2) 0 b3 rfl (Nat.zero_le _) (le_of_lt hhalf) (by omega)
  obtain ⟨st1, a1, a2, _⟩ := AllocateNode_head st m hfl hm0 hmlt hmt
  have hm1 : m < st1.buffercache.numblocks := by rw [a2]; exact hmlt
  have hn1 : node < st1.buffercache.numblocks := by rw [a2]; exact hlt
  have hL : leafSplit st node b3 newkey newnode =
      .ret (ERROR_NOERROR, b3.keys (b3.info.numkeys / 2), m,
        { st1 with
          buffercache :=
            { st1.buffercache with
              blocks := Function.update
                (Function.update st1.buffercache.blocks m
                  { sp2 with info := { sp2.info with numkeys := 0 + (b3.info.numkeys -
                      b3.info.numkeys / 2) } })
                node { b3 with info := { b3.info with numkeys := b3.info.numkeys / 2 } } } }) := by
    simp only [leafSplit, fillThreshold, Nat.reduceDiv, mul_zero, Nat.zero_le, if_true,
      GetKey_leaf ht hhalf, e1, a1, ne_eq, not_true_eq_false, if_false, Serialize, hm1, hn1]
  refine ⟨_, hL, ?_, ?_, ?_⟩
  · simp
  · simp [Function.update_noteq hmn, e2]
  · intro j hj
    have c : 0 ≤ j ∧ j < 0 + (b3.info.numkeys - b3.info.numkeys / 2) := by omega
    simp [Function.update_noteq hmn, e4 j, e5 j, hj]

theorem map_range'_pred (g : Nat → Nat × Nat) :
    ∀ (d i : Nat), (List.range' (i + 1) d).map (fun j => g (j - 1)) = (List.range' i d).map g := by
  intro d
  induction d with
  | zero => intro i; rfl
  | succ d ih =>
    intro i
    simp only [List.range', List.map_cons, Nat.add_sub_cancel, ih (i + 1)]

/-- Inserting `(k, v)` into the entries from slot `i` on by `insertEntry` gives
the entries of the slots from `i` on with `(k, v)` placed at slot `p`. -/
theorem insertEntry_range' (g : Nat → Nat × Nat) (k v p n : Nat)
    (hbefore : ∀ j, j < p → ¬ k < (g j).1) (hat : p < n → k < (g p).1) (hp : p ≤ n) :
    ∀ (d i : Nat), i + d = n → i ≤ p →
      insertEntry k v ((List.range' i d).map g) =
        (List.range' i (d + 1)).map
          (fun j => if j < p then g j else if j = p then (k, v) else g (j - 1)) := by
  intro d
  induction d with
  | zero =>
    intro i h1 h2
    have hip : i = p := by omega
    subst hip
    simp [List.range', insertEntry]
  | succ d ih =>
    intro i h1 h2
    by_cases hip : i = p
    · subst hip
      have hlt := hat (by omega)
      have hmap : (List.range' (i + 1) (d + 1)).map
          (fun j => if j < i then g j else if j = i then (k, v) else g (j - 1)) =
          (List.range' (i + 1) (d + 1)).map (fun j => g (j - 1)) := by
        apply List.map_congr_left
        intro j hj
        have := (List.mem_range'_1.mp hj).1
        have c1 : ¬ j < i := by omega
        have c2 : ¬ j = i := by omega
        simp [c1, c2]
      have hrw : List.range' i (d + 1 + 1) = i :: List.range' (i + 1) (d + 1) := rfl
      rw [hrw, List.map_cons, hmap, map_range'_pred g (d + 1) i]
      have hrw2 : List.range' i (d + 1) = i :: List.range' (i + 1) d := rfl
      rw [hrw2, List.map_cons]
      simp [insertEntry, hlt]
    · have hlt : i < p := by omega
      have hno := hbefore i hlt
      have hrw : List.range' i (d + 1 + 1) = i :: List.range' (i + 1) (d + 1) := rfl
      have hrw2 : List.range' i (d + 1) = i :: List.range' (i + 1) d := rfl
      rw [hrw, hrw2, List.map_cons, List.map_cons]
      simp only [insertEntry, hno, if_false, hlt, if_true]
      rw [ih (i + 1) (by omega) (by omega)]

/-- The entries of a leaf with `(k, v)` placed at the scan position are the
entries that `insertEntry` gives. -/
theorem leafEntries_InsertedAt (b b3 : BTreeNode) (p k v : Nat) (h : InsertedAt b b3 p k v)
    (hp : p ≤ b.info.numkeys) (hbefore : ∀ j, j < p → ¬ k < b.keys j)
    (hat : p < b.info.numkeys → k < b.keys p) :
    leafEntries b3 = insertEntry k v (leafEntries b) := by
  obtain ⟨hinfo, hkeys, hvals⟩ := h
  have hn3 : b3.info.numkeys = b.info.numkeys + 1 := by rw [hinfo]
  have key := insertEntry_range' (fun j => (b.keys j, b.vals j)) k v p b.info.numkeys
    hbefore hat hp b.info.numkeys 0 (by omega) (Nat.zero_le _)
  simp only [leafEntries, List.range_eq_range', hn3]
  rw [key]
  apply List.map_congr_left
  intro j hj
  have hjn := (List.mem_range'_1.mp hj).2
  rw [hkeys j, hvals j]
  by_cases h1 : j < p
  · simp [h1]
  · by_cases h2 : j = p
    · simp [h2]
    · have h3 : j ≤ b.info.numkeys := by omega
      simp [h1, h2, h3]

theorem insertEntry_length (k v : Nat) :
    ∀ es : List (Nat × Nat), (insertEntry k v es).length = es.length + 1 := by
  intro es
  induction es with
  | nil => rfl
  | cons e es ih =>
    simp only [insertEntry]
    split
    · rfl
    · simp [ih]

theorem insertEntry_mem (k v : Nat) :
    ∀ (es : List (Nat × Nat)) (x : Nat × Nat),
      x ∈ insertEntry k v es → x = (k, v) ∨ x ∈ es := by
  intro es
  induction es with
  | nil =>
    intro x hx
    simp [insertEntry] at hx
    exact Or.inl hx
  | cons e es ih =>
    intro x hx
    simp only [insertEntry] at hx
    split at hx
    · simp only [List.mem_cons] at hx ⊢
      exact hx
    · simp only [List.mem_cons] at hx ⊢
      rcases hx with h | h
      · exact Or.inr (Or.inl h)
      · rcases ih x h with h2 | h2
        · exact Or.inl h2
        · exact Or.inr (Or.inr h2)

/-- `insertEntry` keeps a sequence strictly ascending by key when the key is new. -/
theorem insertEntry_sorted (k v : Nat) :
    ∀ es : List (Nat × Nat), (es.map Prod.fst).Sorted (· < ·) →
      (∀ e ∈ es, e.1 ≠ k) →
      ((insertEntry k v es).map Prod.fst).Sorted (· < ·) := by
  intro es
  induction es with
  | nil => intro _ _; simp [insertEntry]
  | cons e es ih =>
    intro hs hne
    simp only [List.map_cons, List.sorted_cons] at hs
    simp only [insertEntry]
    split
    · rename_i hlt
      simp only [List.map_cons, List.sorted_cons, List.mem_cons, forall_eq_or_imp]
      refine ⟨⟨hlt, ?_⟩, hs.1, hs.2⟩
      intro a ha
      exact lt_trans hlt (hs.1 a ha)
    · rename_i hnlt
      have hek : e.1 < k := by
        have := hne e (List.mem_cons_self _ _)
        omega
      simp only [List.map_cons, List.sorted_cons]
      refine ⟨?_, ih hs.2 (fun x hx => hne x (List.mem_cons_of_mem _ hx))⟩
      intro a ha
      obtain ⟨x, hx, rfl⟩ := List.mem_map.mp ha
      rcases insertEntry_mem k v es x hx with h | h
      · rw [h]; exact hek
      · exact hs.1 x.1 (List.mem_map_of_mem _ h)

theorem leafEntries_sorted (b : BTreeNode)
    (hasc : ∀ a c, a < c → c < b.info.numkeys → b.keys a < b.keys c) :
    ((leafEntries b).map Prod.fst).Sorted (· < ·) := by
  simp only [leafEntries, List.map_map, List.Sorted, List.pairwise_map]
  apply List.Pairwise.imp_of_mem _ (List.pairwise_lt_range b.info.numkeys)
  intro a c _ hc hac
  exact hasc a c hac (List.mem_range.mp hc)

theorem leafEntries_take (b3 : BTreeNode) (h : Nat) (hh : h ≤ b3.info.numkeys) :
    leafEntries { b3 with info := { b3.info with numkeys := h } } = (leafEntries b3).take h := by
  simp only [leafEntries]
  rw [← List.map_take, List.take_range, Nat.min_eq_left hh]

theorem leafEntries_drop (b3 bm : BTreeNode) (h : Nat)
    (hn : bm.info.numkeys = b3.info.numkeys - h)
    (hslots : ∀ j, j < b3.info.numkeys - h →
      bm.keys j = b3.keys (h + j) ∧ bm.vals j = b3.vals (h + j)) :
    leafEntries bm = (leafEntries b3).drop h := by
  apply List.ext_getElem
  · simp [leafEntries, hn]
  · intro i h1 h2
    have hi : i < b3.info.numkeys - h := by
      simpa [leafEntries, hn] using h1
    simp [leafEntries, (hslots i hi).1, (hslots i hi).2]

/-- C19. Leaf insert and split. Let block `node` be a leaf with `n` strictly
ascending keys that does not hold `k`, and let the free list start with an
unallocated block `m`. `InsertRecursion` on that leaf with `(k, v)` returns
`NoError`; with `S` the entries of the leaf with `(k, v)` inserted in order
(`n + 1` entries, strictly ascending by key) and `h = (n + 1) / 2`, the old block
is left a leaf with `numkeys = h` holding `S[0..h-1]`, block `m` is left a leaf
with `numkeys = n + 1 - h` holding `S[h..n]` from position 0, the promoted key is
the key of `S[h]`, which is the first key of block `m`, and the promoted child
is `m`. -/
theorem C19_leaf_insert_split (fuel : Nat) (st : BTreeIndex) (node k v newkey newnode m : Nat)
    (hlt : node < st.buffercache.numblocks)
    (ht : (st.buffercache.blocks node).info.nodetype = BTREE_LEAF_NODE)
    (hasc : ∀ a c, a < c → c < (st.buffercache.blocks node).info.numkeys →
      (st.buffercache.blocks node).keys a < (st.buffercache.blocks node).keys c)
    (hnew : ∀ j, j < (st.buffercache.blocks node).info.numkeys →
      (st.buffercache.blocks node).keys j ≠ k)
    (hfl : st.superblock.info.freelist = m) (hm0 : m ≠ 0)
    (hmlt : m < st.buffercache.numblocks)
    (hmt : (st.buffercache.blocks m).info.nodetype = BTREE_UNALLOCATED_BLOCK) :
    ∃ st2 pk,
      InsertRecursion (fuel + 1) st node k v newkey newnode =
        .ret (ERROR_NOERROR, pk, m, st2) ∧
      (insertEntry k v (leafEntries (st.buffercache.blocks node))).length =
        (st.buffercache.blocks node).info.numkeys + 1 ∧
      ((insertEntry k v (leafEntries (st.buffercache.blocks node))).map Prod.fst).Sorted
        (· < ·) ∧
      (st2.buffercache.blocks node).info.nodetype = BTREE_LEAF_NODE ∧
      (st2.buffercache.blocks node).info.numkeys =
        ((st.buffercache.blocks node).info.numkeys + 1) / 2 ∧
      leafEntries (st2.buffercache.blocks node) =
        (insertEntry k v (leafEntries (st.buffercache.blocks node))).take
          (((st.buffercache.blocks node).info.numkeys + 1) / 2) ∧
      (st2.buffercache.blocks m).info.nodetype = BTREE_LEAF_NODE ∧
      (st2.buffercache.blocks m).info.numkeys =
        (st.buffercache.blocks node).info.numkeys + 1 -
          ((st.buffercache.blocks node).info.numkeys + 1) / 2 ∧
      leafEntries (st2.buffercache.blocks m) =
        (insertEntry k v (leafEntries (st.buffercache.blocks node))).drop
          (((st.buffercache.blocks node).info.numkeys + 1) / 2) ∧
      ((insertEntry k v (leafEntries (st.buffercache.blocks node))).map Prod.fst)[
          ((st.buffercache.blocks node).info.numkeys + 1) / 2]? = some pk ∧
      (st2.buffercache.blocks m).keys 0 = pk := by
  have hmn : m ≠ node := by
    intro h
    rw [h, ht] at hmt
    exact absurd hmt (by decide)
  obtain ⟨p, _, hp, hbefore, hscan⟩ := leafScan_position (st.buffercache.blocks node) k ht
    (st.buffercache.blocks node).info.numkeys 0 (Nat.zero_le _) (by omega)
    (fun j _ hj => hnew j hj)
  have hbefore2 : ∀ j, j < p → ¬ k < (st.buffercache.blocks node).keys j :=
    fun j hj => hbefore j (Nat.zero_le _) hj
  -- both branches end in the split of the leaf with the entry in place
  obtain ⟨b3, hins, hat, hrun⟩ : ∃ b3, InsertedAt (st.buffercache.blocks node) b3 p k v ∧
      (p < (st.buffercache.blocks node).info.numkeys →
        k < (st.buffercache.blocks node).keys p) ∧
      InsertRecursion (fuel + 1) st node k v newkey newnode =
        leafSplit
          { st with
            buffercache :=
              { st.buffercache with
                blocks := Function.update st.buffercache.blocks node b3 } }
          node b3 newkey newnode := by
    rcases hscan with ⟨hpn, hkp, hs⟩ | ⟨hpn, hs⟩
    · obtain ⟨b3, h1, h2⟩ := leafInsertAt_eq st node (st.buffercache.blocks node) p k v
        newkey newnode ht hpn hlt
      refine ⟨b3, h1, fun _ => hkp, ?_⟩
      rw [IR_leaf fuel st node k v newkey newnode hlt ht, hs]
      exact h2
    · obtain ⟨b3, h1, h2⟩ := leafAppend_eq st node (st.buffercache.blocks node) k v
        newkey newnode ht hlt
      rw [← hpn] at h1
      refine ⟨b3, h1, fun h => absurd h (by omega), ?_⟩
      rw [IR_leaf fuel st node k v newkey newnode hlt ht, hs]
      exact h2
  have hinfo := hins.1
  have hn3 : b3.info.numkeys = (st.buffercache.blocks node).info.numkeys + 1 := by rw [hinfo]
  have ht3 : b3.info.nodetype = BTREE_LEAF_NODE := by rw [hinfo]; exact ht
  have hS := leafEntries_InsertedAt (st.buffercache.blocks node) b3 p k v hins hp hbefore2 hat
  obtain ⟨st2, hsplit, hold, hnewinfo, hslots⟩ := leafSplit_ok
    { st with
      buffercache :=
        { st.buffercache with
          blocks := Function.update st.buffercache.blocks node b3 } }
    node m b3 newkey newnode ht3 (by omega) hlt hfl hm0 hmlt
    (by simp only [Function.update_noteq hmn]; exact hmt) hmn
  have hhalf : b3.info.numkeys / 2 ≤ b3.info.numkeys := Nat.div_le_self _ _
  have hhalf2 : b3.info.numkeys / 2 < b3.info.numkeys := Nat.div_lt_self (by omega) (by decide)
  have hlen : (leafEntries b3).length = b3.info.numkeys := by simp [leafEntries]
  refine ⟨st2, b3.keys (b3.info.numkeys / 2), ?_, ?_, ?_, ?_, ?_, ?_, ?_, ?_, ?_, ?_, ?_⟩
  · rw [hrun]; exact hsplit
  · rw [insertEntry_length]; simp [leafEntries]
  · apply insertEntry_sorted k v _ (leafEntries_sorted _ hasc)
    intro e he
    simp only [leafEntries, List.mem_map, List.mem_range] at he
    obtain ⟨j, hj, rfl⟩ := he
    exact hnew j hj
  · rw [hold]; exact ht3
  · rw [hold, ← hn3]
  · rw [hold, ← hS, ← hn3]
    exact leafEntries_take b3 _ hhalf
  · rw [hnewinfo]; exact ht3
  · rw [hnewinfo, ← hn3]
  · rw [← hS, ← hn3]
    exact leafEntries_drop b3 _ _ (by rw [hnewinfo]) hslots
  · rw [← hS, ← hn3]
    simp [leafEntries, hhalf2]
  · have := (hslots 0 (by omega)).1
    rw [this]
    rfl

/-- C19 on the index holding key 50 over five blocks: inserting `(30, 2)` into
the leaf in block 2, with block 4 the head of the free list. -/
theorem C19_leaf_insert_split_witness :
    ∃ st2 pk,
      InsertRecursion 1 (insertedIndex 5) 2 30 2 0 0 = .ret (ERROR_NOERROR, pk, 4, st2) ∧
      leafEntries (st2.buffercache.blocks 2) = [(30, 2)] ∧
      leafEntries (st2.buffercache.blocks 4) = [(50, 1)] ∧
      pk = 50 := by
  have hn : ((insertedIndex 5).buffercache.blocks 2).info.numkeys = 1 := rfl
  obtain ⟨st2, pk, h1, _, _, _, _, h6, _, _, h9, h10, _⟩ :=
    C19_leaf_insert_split 0 (insertedIndex 5) 2 30 2 0 0 4 (by decide) rfl
      (fun a c hac hc => by rw [hn] at hc; omega)
      (fun j hj => by
        rw [hn] at hj
        have h0 : j = 0 := by omega
        subst h0
        decide)
      rfl (by decide) (by decide) rfl
  refine ⟨st2, pk, h1, ?_, ?_, ?_⟩
  · rw [h6]; rfl
  · rw [h9]; rfl
  · have h : (((insertEntry 30 2 (leafEntries ((insertedIndex 5).buffercache.blocks 2))).map
        Prod.fst)[(((insertedIndex 5).buffercache.blocks 2).info.numkeys + 1) / 2]?) =
        some 50 := rfl
    rw [h] at h10
    exact (Option.some.inj h10).symm

/-! ## The indexes that operations returning `NoError` reach -/

theorem Attach_create_two {st st1 : BTreeIndex}
    (h : Attach st 0 true = .ret (ERROR_NOERROR, st1)) : 2 ≤ st.buffercache.numblocks := by
  by_contra hn
  have hcases : st.buffercache.numblocks = 0 ∨ st.buffercache.numblocks = 1 := by omega
  rcases hcases with h0 | h1
  · simp [Attach, Serialize, h0] at h
  · simp [Attach, Serialize, h1] at h

theorem FreshShape_of_Attach {st st1 : BTreeIndex}
    (h : Attach st 0 true = .ret (ERROR_NOERROR, st1)) :
    FreshShape st.buffercache.numblocks st1 := by
  have h2 := Attach_create_two h
  obtain ⟨s, e1, e2, e3, _, e5, e6, e7, e8⟩ := Attach_create_eq st h2
  rw [e1] at h
  have hs : s = st1 := by
    simpa using h
  subst hs
  refine ⟨e2, e3, h2, by rw [e5, e6], by rw [e5, e6], by rw [e5, e6], by rw [e7], by rw [e7], ?_⟩
  intro j hj1 hj2
  rw [e8 j hj1 hj2]
  exact ⟨rfl, rfl⟩

theorem AllocateNode_ne_zero {st st1 : BTreeIndex} {n : Nat}
    (h : AllocateNode st = .ret (ERROR_NOERROR, n, st1)) : n ≠ 0 := by
  unfold AllocateNode at h
  simp only at h
  split at h
  · simp at h
  · split at h
    · simp at h
    · rename_i h0 _
      simp only [Res.ret.injEq, Prod.mk.injEq, true_and] at h
      rw [← h.1]
      exact h0

/-- With the head of the free list outside the cache `AllocateNode` hands that
block id out and leaves the free list empty. -/
theorem AllocateNode_outside (st : BTreeIndex) (m : Nat)
    (hfl : st.superblock.info.freelist = m) (hm0 : m ≠ 0)
    (hm : ¬ m < st.buffercache.numblocks) :
    ∃ st1, AllocateNode st = .ret (ERROR_NOERROR, m, st1) ∧
      st1.superblock.info.freelist = 0 := by
  subst hfl
  refine ⟨{ st with
            superblock :=
              { st.superblock with
                info := { st.superblock.info with freelist := BTreeNode.blank.info.freelist } },
            buffercache :=
              (Serialize
                { st.superblock with
                  info := { st.superblock.info with
                            freelist := BTreeNode.blank.info.freelist } }
                st.buffercache st.superblock_index).2 }, ?_, rfl⟩
  simp [AllocateNode, Unserialize, hm0, hm, BTreeNode.blank, BTreeNode.construct]

theorem IR_empty_root (fuel : Nat) (st : BTreeIndex) (node key value newkey newnode : Nat)
    (h : node < st.buffercache.numblocks)
    (ht : (st.buffercache.blocks node).info.nodetype = BTREE_ROOT_NODE)
    (hn : (st.buffercache.blocks node).info.numkeys = 0) :
    InsertRecursion (fuel + 1) st node key value newkey newnode =
      insertEmptyRoot st node (st.buffercache.blocks node) key value newkey newnode := by
  simp [InsertRecursion, Unserialize, h, ht, hn]

/-- On an index in the fresh shape `Insert` returns `NoError` only over at least
four blocks, and then leaves the index of the first insert. -/
theorem Insert_fresh {n fuel : Nat} {st st2 : BTreeIndex} {k v : Nat} (hs : FreshShape n st)
    (h : Insert fuel st k v = .ret (ERROR_NOERROR, st2)) :
    4 ≤ n ∧ st2 = afterFirstInsert st k v 1 2 3 := by
  obtain ⟨f, rfl⟩ : ∃ f, fuel = f + 1 := by
    cases fuel with
    | zero => simp [Insert, InsertRecursion] at h
    | succ f => exact ⟨f, rfl⟩
  have hn2 := hs.two
  have hnb := hs.nb
  by_cases h4 : 4 ≤ n
  · refine ⟨h4, ?_⟩
    have h2 := hs.chain 2 (by omega) (by omega)
    have h3 := hs.chain 3 (by omega) (by omega)
    have h2f : (st.buffercache.blocks 2).info.freelist = 3 := by
      rw [h2.2]
      have : ¬ 2 + 1 = n := by omega
      simp [this]
    have hI := Insert_empty_root f st k v 1 2 3 hs.sbi hs.root (by omega) (by decide)
      hs.rootType hs.rootKeys hs.free (by omega) (by decide) h2.1 h2f (by omega) (by decide)
      h3.1
    rw [hI] at h
    simpa using h.symm
  · exfalso
    have hA : ∃ stA, AllocateNode st = .ret (ERROR_NOERROR, 2, stA) ∧
        stA.superblock.info.freelist = 0 := by
      by_cases h3 : n = 3
      · have h2 := hs.chain 2 (by omega) (by omega)
        obtain ⟨stA, a1, _, a3⟩ := AllocateNode_head st 2 hs.free (by decide) (by omega) h2.1
        refine ⟨stA, a1, ?_⟩
        rw [a3, h2.2]
        simp [h3]
      · exact AllocateNode_outside st 2 hs.free (by decide) (by omega)
    obtain ⟨stA, hA1, hA2⟩ := hA
    have hE := insertEmptyRoot_nospace_second st stA 1 2 (st.buffercache.blocks 1) k v 0 0
      (by rw [hs.rootType]; rfl) hA1 hA2
    have hIR : InsertRecursion (f + 1) st st.superblock.info.rootnode k v 0 0 =
        .ret (ERROR_NOSPACE, 0, 0, stA) := by
      rw [hs.root, IR_empty_root f st 1 k v 0 0 (by omega) hs.rootType hs.rootKeys]
      exact hE
    have hI := (Insert_error (f + 1) st stA k v ERROR_NOSPACE 0 0 (by decide) hIR).1
    rw [hI] at h
    simp at h

theorem OneKeyShape_afterFirstInsert {n : Nat} {st : BTreeIndex} (k v : Nat)
    (hs : FreshShape n st) (h4 : 4 ≤ n) : OneKeyShape n (afterFirstInsert st k v 1 2 3) k := by
  have h3 := hs.chain 3 (by omega) (by omega)
  refine ⟨hs.sbi, hs.nb, h4, hs.root, ?_, ?_, ?_, ?_, ?_, ?_, ?_, ?_, ?_, ?_, ?_, ?_, ?_⟩
  · simp [afterFirstInsert, hs.nkeys]
  · simp only [afterFirstInsert, h3.2]
  · simp [afterFirstInsert, hs.rootType]
  · simp [afterFirstInsert]
  · simp [afterFirstInsert]
  · simp [afterFirstInsert]
  · simp [afterFirstInsert]
  · simp [afterFirstInsert]
  · simp [afterFirstInsert]
  · simp [afterFirstInsert]
  · simp [afterFirstInsert]
  · simp [afterFirstInsert]
  · intro j hj1 hj2
    have hj := hs.chain j (by omega) hj2
    have e : (afterFirstInsert st k v 1 2 3).buffercache.blocks j = st.buffercache.blocks j := by
      have c0 : j ≠ 0 := by omega
      have c1 : j ≠ 1 := by omega
      have c2 : j ≠ 2 := by omega
      have c3 : j ≠ 3 := by omega
      simp [afterFirstInsert, Function.update_noteq, c0, c1, c2, c3]
    rw [e]
    exact hj

theorem GetKey_error_ne {b : BTreeNode} {i : Nat} {rc : ERROR_T}
    (h : GetKey b i = .error rc) : rc ≠ ERROR_NOERROR := by
  unfold GetKey at h
  repeat' split at h
  all_goals first
    | (simp at h; done)
    | (simp only [Except.error.injEq] at h; subst h; decide)

theorem SetKey_error_ne {b : BTreeNode} {i k : Nat} {rc : ERROR_T}
    (h : SetKey b i k = .error rc) : rc ≠ ERROR_NOERROR := by
  unfold SetKey at h
  repeat' split at h
  all_goals first
    | (simp at h; done)
    | (simp only [Except.error.injEq] at h; subst h; decide)

theorem GetVal_error_ne {b : BTreeNode} {i : Nat} {rc : ERROR_T}
    (h : GetVal b i = .error rc) : rc ≠ ERROR_NOERROR := by
  unfold GetVal at h
  repeat' split at h
  all_goals first
    | (simp at h; done)
    | (simp only [Except.error.injEq] at h; subst h; decide)

theorem SetVal_error_ne {b : BTreeNode} {i v : Nat} {rc : ERROR_T}
    (h : SetVal b i v = .error rc) : rc ≠ ERROR_NOERROR := by
  unfold SetVal at h
  repeat' split at h
  all_goals first
    | (simp at h; done)
    | (simp only [Except.error.injEq] at h; subst h; decide)

theorem leafScan_error_ne (b : BTreeNode) (key : Nat) :
    ∀ (m i : Nat) (rc : ERROR_T), leafScan b key m i = .err rc → rc ≠ ERROR_NOERROR := by
  intro m
  induction m with
  | zero => intro i rc h; simp [leafScan] at h
  | succ m ih =>
    intro i rc h
    unfold leafScan at h
    repeat' split at h
    all_goals first
      | (simp at h; done)
      | exact ih _ _ h
      | (simp only [LeafScan.err.injEq] at h; subst h; exact GetKey_error_ne (by assumption))

theorem leafShift_error_ne :
    ∀ (m i : Nat) (s : ShiftState) (rc : ERROR_T),
      leafShift m i s = .error rc → rc ≠ ERROR_NOERROR := by
  intro m
  induction m with
  | zero => intro i s rc h; simp [leafShift] at h
  | succ m ih =>
    intro i s rc h
    unfold leafShift at h
    repeat' split at h
    all_goals first
      | (simp at h; done)
      | exact ih _ _ _ h
      | (simp only [Except.error.injEq] at h; subst h
         first
           | exact GetKey_error_ne (by assumption)
           | exact SetKey_error_ne (by assumption)
           | exact GetVal_error_ne (by assumption)
           | exact SetVal_error_ne (by assumption))

theorem leafMove_error_ne (b : BTreeNode) :
    ∀ (m i ins : Nat) (sp : BTreeNode) (rc : ERROR_T),
      leafMove b m i ins sp = .error rc → rc ≠ ERROR_NOERROR := by
  intro m
  induction m with
  | zero => intro i ins sp rc h; simp [leafMove] at h
  | succ m ih =>
    intro i ins sp rc h
    unfold leafMove at h
    repeat' split at h
    all_goals first
      | (simp at h; done)
      | exact ih _ _ _ _ h
      | (simp only [Except.error.injEq] at h; subst h
         first
           | exact GetKey_error_ne (by assumption)
           | exact SetKey_error_ne (by assumption)
           | exact GetVal_error_ne (by assumption)
           | exact SetVal_error_ne (by assumption))

theorem AllocateNode_newnode {st st1 : BTreeIndex} {n : Nat} {rc : ERROR_T}
    (h : AllocateNode st = .ret (rc, n, st1)) (hrc : ¬ rc ≠ ERROR_NOERROR) : n ≠ 0 := by
  have hrc2 : rc = ERROR_NOERROR := Classical.not_not.mp hrc
  subst hrc2
  exact AllocateNode_ne_zero h

/-- A leaf split that returns `NoError` hands up a new block. -/
theorem leafSplit_newnode {st st2 : BTreeIndex} {node newkey newnode : Nat} {b : BTreeNode}
    {nk nn : Nat}
    (h : leafSplit st node b newkey newnode = .ret (ERROR_NOERROR, nk, nn, st2)) : nn ≠ 0 := by
  unfold leafSplit at h
  simp only [fillThreshold_eq_zero, Nat.zero_le, if_true] at h
  repeat' split at h
  all_goals first
    | (simp at h; done)
    | (simp only [Res.ret.injEq, Prod.mk.injEq] at h
       obtain ⟨hrc, _, hnn, _⟩ := h
       first
         | exact absurd hrc (GetKey_error_ne (by assumption))
         | exact absurd hrc (leafMove_error_ne _ _ _ _ _ _ (by assumption))
         | exact absurd hrc (by assumption)
         | (subst hnn; exact AllocateNode_newnode (by assumption) (by assumption)))

theorem leafInsertAt_newnode {st st2 : BTreeIndex} {node offset testkey key value : Nat}
    {newkey newnode : Nat} {b : BTreeNode} {nk nn : Nat}
    (h : leafInsertAt st node b offset testkey key value newkey newnode =
      .ret (ERROR_NOERROR, nk, nn, st2)) : nn ≠ 0 := by
  unfold leafInsertAt at h
  simp only at h
  repeat' split at h
  all_goals first
    | (simp at h; done)
    | exact leafSplit_newnode h
    | (simp only [Res.ret.injEq, Prod.mk.injEq] at h
       obtain ⟨hrc, _, hnn, _⟩ := h
       first
         | exact absurd hrc (GetVal_error_ne (by assumption))
         | exact absurd hrc (SetVal_error_ne (by assumption))
         | exact absurd hrc (SetKey_error_ne (by assumption))
         | exact absurd hrc (leafShift_error_ne _ _ _ _ (by assumption))
         | exact absurd hrc (by assumption))

theorem leafAppend_newnode {st st2 : BTreeIndex} {node key value : Nat}
    {newkey newnode : Nat} {b : BTreeNode} {nk nn : Nat}
    (h : leafAppend st node b key value newkey newnode =
      .ret (ERROR_NOERROR, nk, nn, st2)) : nn ≠ 0 := by
  unfold leafAppend at h
  simp only at h
  repeat' split at h
  all_goals first
    | (simp at h; done)
    | exact leafSplit_newnode h
    | (simp only [Res.ret.injEq, Prod.mk.injEq] at h
       obtain ⟨hrc, _, hnn, _⟩ := h
       first
         | exact absurd hrc (SetVal_error_ne (by assumption))
         | exact absurd hrc (SetKey_error_ne (by assumption))
         | exact absurd hrc (by assumption))

/-- An insert into a leaf that returns `NoError` has split the leaf: the fill
threshold of the source is 0. -/
theorem IR_leaf_newnode {fuel : Nat} {st st2 : BTreeIndex} {node key value newkey newnode : Nat}
    {nk nn : Nat} (hlt : node < st.buffercache.numblocks)
    (ht : (st.buffercache.blocks node).info.nodetype = BTREE_LEAF_NODE)
    (h : InsertRecursion fuel st node key value newkey newnode =
      .ret (ERROR_NOERROR, nk, nn, st2)) : nn ≠ 0 := by
  cases fuel with
  | zero => simp [InsertRecursion] at h
  | succ f =>
    rw [IR_leaf f st node key value newkey newnode hlt ht] at h
    split at h
    · rename_i rc hsc
      simp only [Res.ret.injEq, Prod.mk.injEq] at h
      exact absurd h.1 (leafScan_error_ne _ _ _ _ _ hsc)
    · simp at h
    · exact leafInsertAt_newnode h
    · exact leafAppend_newnode h

/-- On an index in the one-key shape `InsertRecursion` from the root never
returns `NoError` without handing up a new block: the leaf below splits, and the
fix-up of the root after a split of the left leaf fails. -/
theorem IR_oneKey_newnode {n fuel : Nat} {st st2 : BTreeIndex} {k key value nk nn : Nat}
    (hs : OneKeyShape n st k)
    (h : InsertRecursion fuel st 1 key value 0 0 = .ret (ERROR_NOERROR, nk, nn, st2)) :
    nn ≠ 0 := by
  have h4 := hs.four
  have hnb := hs.nb
  have hint : (st.buffercache.blocks 1).info.nodetype.isInterior = true := by
    rw [hs.rootType]; rfl
  cases fuel with
  | zero => simp [InsertRecursion] at h
  | succ f =>
    rcases findSlot_interior (st.buffercache.blocks 1) key hint
        (st.buffercache.blocks 1).info.numkeys 0 with hl | ⟨off, _, hoff, hsl⟩
    · rw [IR_interior_last f st 1 key value 0 0 (by omega) hint (by rw [hs.rootKeys]; decide) hl,
        hs.rootKeys, hs.rootRight] at h
      exact IR_leaf_newnode (by omega) hs.rightType h
    · have hoff0 : off = 0 := by rw [hs.rootKeys] at hoff; omega
      subst hoff0
      rw [IR_interior_slot f st 1 key value 0 0 0 _ (by omega) hint hoff hsl, hs.rootLeft] at h
      split at h
      · simp at h
      · simp at h
      · rename_i rc nk1 nn1 st1 hchild
        split at h
        · rename_i hne
          simp only [Res.ret.injEq, Prod.mk.injEq] at h
          exact absurd h.1 hne
        · rename_i hne
          have hrc : rc = ERROR_NOERROR := Classical.not_not.mp hne
          subst hrc
          have hnn1 := IR_leaf_newnode (by omega) hs.leftType hchild
          rw [if_pos hnn1, interiorFixup_size_error st1 1 _ 0 _ nk1 nn1 hint hoff] at h
          simp at h

theorem Insert_oneKey {n fuel : Nat} {st st2 : BTreeIndex} {k key value : Nat}
    (hs : OneKeyShape n st k) : Insert fuel st key value ≠ .ret (ERROR_NOERROR, st2) := by
  intro h
  unfold Insert at h
  rw [hs.root] at h
  split at h
  · simp at h
  · simp at h
  · rename_i rc nk nn st1 heq
    split at h
    · rename_i hne
      simp only [Res.ret.injEq, Prod.mk.injEq] at h
      exact hne h.1
    · rename_i hne
      have hrc : rc = ERROR_NOERROR := Classical.not_not.mp hne
      subst hrc
      have hnn := IR_oneKey_newnode hs heq
      rw [if_pos hnn] at h
      split at h
      · simp at h
      · simp at h
      · rename_i rc2 st3 heq2
        have hne2 := insertNewRoot_ne_NOERROR heq2
        rw [if_pos hne2] at h
        simp only [Res.ret.injEq, Prod.mk.injEq] at h
        exact hne2 h.1

theorem FreshShape.block0 {n : Nat} {st : BTreeIndex} (hs : FreshShape n st) (x : BTreeNode) :
    FreshShape n
      { st with
        buffercache :=
          { st.buffercache with blocks := Function.update st.buffercache.blocks 0 x } } := by
  have e : ∀ j, j ≠ 0 → Function.update st.buffercache.blocks 0 x j = st.buffercache.blocks j :=
    fun j hj => Function.update_noteq hj _ _
  refine ⟨hs.sbi, hs.nb, hs.two, hs.root, hs.nkeys, hs.free, ?_, ?_, ?_⟩
  · simp only [e 1 (by decide)]; exact hs.rootType
  · simp only [e 1 (by decide)]; exact hs.rootKeys
  · intro j hj1 hj2
    simp only [e j (by omega)]
    exact hs.chain j hj1 hj2

theorem OneKeyShape.superblock_write {n k : Nat} {st : BTreeIndex} (hs : OneKeyShape n st k)
    (x : BTreeNode) :
    OneKeyShape n
      { st with
        buffercache :=
          { st.buffercache with blocks := Function.update st.buffercache.blocks 0 x } } k := by
  have e : ∀ j, j ≠ 0 → Function.update st.buffercache.blocks 0 x j = st.buffercache.blocks j :=
    fun j hj => Function.update_noteq hj _ _
  refine ⟨hs.sbi, hs.nb, hs.four, hs.root, hs.nkeys, hs.free, ?_, ?_, ?_, ?_, ?_, ?_, ?_, ?_,
    ?_, ?_, ?_⟩
  · simp only [e 1 (by decide)]; exact hs.rootType
  · simp only [e 1 (by decide)]; exact hs.rootKeys
  · simp only [e 1 (by decide)]; exact hs.rootKey
  · simp only [e 1 (by decide)]; exact hs.rootLeft
  · simp only [e 1 (by decide)]; exact hs.rootRight
  · simp only [e 2 (by decide)]; exact hs.leftType
  · simp only [e 2 (by decide)]; exact hs.leftKeys
  · simp only [e 2 (by decide)]; exact hs.leftKey
  · simp only [e 3 (by decide)]; exact hs.rightType
  · simp only [e 3 (by decide)]; exact hs.rightKeys
  · intro j hj1 hj2
    simp only [e j (by omega)]
    exact hs.chain j hj1 hj2

/-- An `Update` that returns `NoError` on an index in the one-key shape leaves
the shape: it writes one value slot of a leaf. -/
theorem Update_oneKey {n fuel : Nat} {st st2 : BTreeIndex} {k key value : Nat}
    (hs : OneKeyShape n st k) (h : Update fuel st key value = .ret (ERROR_NOERROR, st2)) :
    OneKeyShape n st2 k := by
  unfold Update at h
  split at h
  · rename_i rc v c heq
    simp only [Res.ret.injEq, Prod.mk.injEq] at h
    obtain ⟨hrc, rfl⟩ := h
    subst hrc
    obtain ⟨_, hu, _⟩ := update_effect fuel st.buffercache _ key value _ v c heq
    obtain ⟨w, off, hw, hwt, _, _, _, hc⟩ := hu rfl
    subst hc
    have hsame : ∀ j, (Function.update st.buffercache.blocks w
        { st.buffercache.blocks w with
          vals := Function.update (st.buffercache.blocks w).vals off value } j).info =
          (st.buffercache.blocks j).info ∧
        (Function.update st.buffercache.blocks w
        { st.buffercache.blocks w with
          vals := Function.update (st.buffercache.blocks w).vals off value } j).keys =
          (st.buffercache.blocks j).keys ∧
        (Function.update st.buffercache.blocks w
        { st.buffercache.blocks w with
          vals := Function.update (st.buffercache.blocks w).vals off value } j).ptrs =
          (st.buffercache.blocks j).ptrs := by
      intro j
      by_cases hj : j = w
      · subst hj; simp
      · simp [Function.update_noteq hj]
    refine ⟨hs.sbi, hs.nb, hs.four, hs.root, hs.nkeys, hs.free, ?_, ?_, ?_, ?_, ?_, ?_, ?_, ?_,
      ?_, ?_, ?_⟩
    · simp only [(hsame 1).1]; exact hs.rootType
    · simp only [(hsame 1).1]; exact hs.rootKeys
    · simp only [(hsame 1).2.1]; exact hs.rootKey
    · simp only [(hsame 1).2.2]; exact hs.rootLeft
    · simp only [(hsame 1).2.2]; exact hs.rootRight
    · simp only [(hsame 2).1]; exact hs.leftType
    · simp only [(hsame 2).1]; exact hs.leftKeys
    · simp only [(hsame 2).2.1]; exact hs.leftKey
    · simp only [(hsame 3).1]; exact hs.rightType
    · simp only [(hsame 3).1]; exact hs.rightKeys
    · intro j hj1 hj2
      simp only [(hsame j).1]
      exact hs.chain j hj1 hj2
  · simp at h
  · simp at h

/-- On an index in the fresh shape the descent of `Lookup` and `Update` ends in
the empty root with `NotFound`. -/
theorem LOU_fresh {n fuel : Nat} {st : BTreeIndex} (hs : FreshShape n st) (op : BTreeOp)
    (key value : Nat) (rc : ERROR_T) (v : Nat) (c : BufferCache)
    (h : LookupOrUpdateInternal fuel st.buffercache st.superblock.info.rootnode op key value =
      .ret (rc, v, c)) : rc ≠ ERROR_NOERROR := by
  have h2 := hs.two
  have hnb := hs.nb
  cases fuel with
  | zero => simp [LookupOrUpdateInternal] at h
  | succ f =>
    rw [hs.root, LOU_interior_empty f st.buffercache 1 op key value (by omega)
      (by rw [hs.rootType]; rfl) hs.rootKeys] at h
    simp only [Res.ret.injEq, Prod.mk.injEq] at h
    rw [← h.1]
    decide

theorem Detach_eq (st : BTreeIndex) (h0 : st.superblock_index = 0)
    (hn : 0 < st.buffercache.numblocks) :
    Detach st = (ERROR_NOERROR,
      { st with
        buffercache :=
          { st.buffercache with
            blocks := Function.update st.buffercache.blocks 0 st.superblock } }) := by
  simp [Detach, Serialize, h0, hn]

theorem reattach_eq (st : BTreeIndex) (h0 : st.superblock_index = 0)
    (hn : 0 < st.buffercache.numblocks) :
    Attach
      { st with
        buffercache :=
          { st.buffercache with
            blocks := Function.update st.buffercache.blocks 0 st.superblock } } 0 false =
      .ret (ERROR_NOERROR,
        { st with
          buffercache :=
            { st.buffercache with
              blocks := Function.update st.buffercache.blocks 0 st.superblock } }) := by
  obtain ⟨c, sbi, sb⟩ := st
  simp only at h0 hn
  subst h0
  simp [Attach, Unserialize, hn]

theorem numInserts_cons (op : Op) (ops : List Op) :
    numInserts (op :: ops) = numInserts [op] + numInserts ops := by
  cases op <;> simp [numInserts]; omega

/-- One operation that returns `NoError` takes an index in one of the two shapes
to an index in one of the two shapes, with one key more after an `Insert`. -/
theorem applyOp_shape {n fuel m : Nat} {st st1 : BTreeIndex} (op : Op)
    (hs : ShapeCount n st m) (h : applyOp fuel st op = some st1) :
    ShapeCount n st1 (m + numInserts [op]) := by
  have hsbi : st.superblock_index = 0 := by
    rcases hs with ⟨_, hf⟩ | ⟨_, k, ho⟩
    · exact hf.sbi
    · exact ho.sbi
  have hpos : 0 < st.buffercache.numblocks := by
    rcases hs with ⟨_, hf⟩ | ⟨_, k, ho⟩
    · have := hf.two; have := hf.nb; omega
    · have := ho.four; have := ho.nb; omega
  have hblock0 : ∀ x, ShapeCount n
      { st with
        buffercache :=
          { st.buffercache with blocks := Function.update st.buffercache.blocks 0 x } } m := by
    intro x
    rcases hs with ⟨hm, hf⟩ | ⟨hm, k, ho⟩
    · exact Or.inl ⟨hm, hf.block0 x⟩
    · exact Or.inr ⟨hm, k, ho.superblock_write x⟩
  cases op with
  | insert k v =>
    simp only [applyOp] at h
    split at h
    · rename_i rc st2 heq
      split at h
      · rename_i hrc
        subst hrc
        simp only [Option.some.injEq] at h
        subst h
        rcases hs with ⟨hm, hf⟩ | ⟨hm, k2, ho⟩
        · obtain ⟨h4, he⟩ := Insert_fresh hf heq
          subst he
          exact Or.inr ⟨by simp [numInserts, hm], k, OneKeyShape_afterFirstInsert k v hf h4⟩
        · exact absurd heq (Insert_oneKey ho)
      · simp at h
    · simp at h
  | update k v =>
    simp only [applyOp] at h
    split at h
    · rename_i rc st2 heq
      split at h
      · rename_i hrc
        subst hrc
        simp only [Option.some.injEq] at h
        subst h
        rcases hs with ⟨hm, hf⟩ | ⟨hm, k2, ho⟩
        · exfalso
          unfold Update at heq
          split at heq
          · rename_i rc2 v2 c2 hlou
            simp only [Res.ret.injEq, Prod.mk.injEq] at heq
            exact LOU_fresh hf _ _ _ _ _ _ hlou heq.1
          · simp at heq
          · simp at heq
        · exact Or.inr ⟨by simp [numInserts, hm], k2, Update_oneKey ho heq⟩
      · simp at h
    · simp at h
  | lookup k =>
    simp only [applyOp] at h
    split at h
    · split at h
      · simp only [Option.some.injEq] at h
        subst h
        simpa [numInserts] using hs
      · simp at h
    · simp at h
  | delete k =>
    simp [applyOp, Delete] at h
  | sanityCheck t =>
    simp only [applyOp] at h
    split at h
    · simp only [Option.some.injEq] at h
      subst h
      simpa [numInserts] using hs
    · simp at h
  | detach =>
    simp only [applyOp, Detach_eq st hsbi hpos, if_true, Option.some.injEq] at h
    subst h
    simpa [numInserts] using hblock0 st.superblock
  | reattach =>
    simp only [applyOp, Detach_eq st hsbi hpos, if_true, reattach_eq st hsbi hpos,
      Option.some.injEq] at h
    subst h
    simpa [numInserts] using hblock0 st.superblock

theorem runOps_shape {n fuel : Nat} :
    ∀ (ops : List Op) (m : Nat) (st stN : BTreeIndex), ShapeCount n st m →
      runOps fuel st ops = some stN → ShapeCount n stN (m + numInserts ops) := by
  intro ops
  induction ops with
  | nil =>
    intro m st stN hs h
    simp only [runOps, Option.some.injEq] at h
    subst h
    simpa [numInserts] using hs
  | cons op ops ih =>
    intro m st stN hs h
    simp only [runOps] at h
    split at h
    · rename_i st1 heq
      have h1 := applyOp_shape op hs heq
      have h2 := ih _ _ _ h1 h
      rw [numInserts_cons, ← Nat.add_assoc]
      exact h2
    · simp at h

/-- What operations returning `NoError` reach from a freshly created index. -/
theorem reach_shape {fuel : Nat} {st0 st1 stN : BTreeIndex} {ops : List Op}
    (hA : Attach st0 0 true = .ret (ERROR_NOERROR, st1))
    (hR : runOps fuel st1 ops = some stN) :
    ShapeCount st0.buffercache.numblocks stN (numInserts ops) := by
  have h := runOps_shape ops 0 st1 stN (Or.inl ⟨rfl, FreshShape_of_Attach hA⟩) hR
  simpa using h

theorem ShapeCount.numkeys_eq {n m : Nat} {st : BTreeIndex} (hs : ShapeCount n st m) :
    st.superblock.info.numkeys = m := by
  rcases hs with ⟨hm, hf⟩ | ⟨hm, k, ho⟩
  · rw [hm]; exact hf.nkeys
  · rw [hm]; exact ho.nkeys

theorem mapM_range_two {α : Type} (f : Nat → Option α) :
    (List.range (1 + 1)).mapM f =
      match f 0, f 1 with
      | some a, some b => some [a, b]
      | _, _ => none := by
  have hr : List.range (1 + 1) = [0, 1] := rfl
  rw [hr]
  cases h0 : f 0 <;> cases h1 : f 1 <;> simp [List.mapM, List.mapM.loop, h0, h1]

theorem leafKeyTotal_leaf (c : BufferCache) (g node : Nat) (h : node < c.numblocks)
    (ht : (c.blocks node).info.nodetype = BTREE_LEAF_NODE) :
    leafKeyTotal c (g + 1) node = some (c.blocks node).info.numkeys := by
  simp [leafKeyTotal, Unserialize, h, ht, NodeType.isInterior]

theorem subtreeKeys_leaf (c : BufferCache) (g node : Nat) (h : node < c.numblocks)
    (ht : (c.blocks node).info.nodetype = BTREE_LEAF_NODE) :
    subtreeKeys c (g + 1) node =
      some ((List.range (c.blocks node).info.numkeys).map (c.blocks node).keys) := by
  simp [subtreeKeys, Unserialize, h, ht, NodeType.isInterior]

theorem treeBlocks_leaf (c : BufferCache) (g node : Nat) (h : node < c.numblocks)
    (ht : (c.blocks node).info.nodetype = BTREE_LEAF_NODE) :
    treeBlocks c (g + 1) node = some [node] := by
  simp [treeBlocks, Unserialize, h, ht, NodeType.isInterior]

theorem leafKeyTotal_interior (c : BufferCache) (g node : Nat) (h : node < c.numblocks)
    (ht : (c.blocks node).info.nodetype.isInterior = true)
    (hn : (c.blocks node).info.numkeys ≠ 0) :
    leafKeyTotal c (g + 1) node =
      ((List.range ((c.blocks node).info.numkeys + 1)).mapM
        (fun i => leafKeyTotal c g ((c.blocks node).ptrs i))).map List.sum := by
  simp only [leafKeyTotal, Unserialize, h, if_true, ht, hn, if_false]

theorem treeBlocks_interior (c : BufferCache) (g node : Nat) (h : node < c.numblocks)
    (ht : (c.blocks node).info.nodetype.isInterior = true)
    (hn : (c.blocks node).info.numkeys ≠ 0) :
    treeBlocks c (g + 1) node =
      ((List.range ((c.blocks node).info.numkeys + 1)).mapM
        (fun i => treeBlocks c g ((c.blocks node).ptrs i))).map
          (fun ls => node :: ls.flatten) := by
  simp only [treeBlocks, Unserialize, h, if_true, ht, hn, if_false]

theorem ShapeCount.total_eq {n m : Nat} {st : BTreeIndex} (hs : ShapeCount n st m)
    (f : Nat) (hf2 : 2 ≤ f) :
    leafKeyTotal st.buffercache f st.superblock.info.rootnode = some m := by
  obtain ⟨g, rfl⟩ : ∃ g, f = g + 2 := ⟨f - 2, by omega⟩
  rcases hs with ⟨hm, hf⟩ | ⟨hm, k, ho⟩
  · have h2 := hf.two
    have hnb := hf.nb
    have h1 : 1 < st.buffercache.numblocks := by omega
    simp [leafKeyTotal, hf.root, Unserialize, h1, hf.rootType, hf.rootKeys,
      NodeType.isInterior, hm]
  · have h4 := ho.four
    have hnb := ho.nb
    have h1 : 1 < st.buffercache.numblocks := by omega
    have hl := leafKeyTotal_leaf st.buffercache g 2 (by omega) ho.leftType
    have hr := leafKeyTotal_leaf st.buffercache g 3 (by omega) ho.rightType
    rw [ho.leftKeys] at hl
    rw [ho.rightKeys] at hr
    have hint : (st.buffercache.blocks 1).info.nodetype.isInterior = true := by
      rw [ho.rootType]; rfl
    rw [ho.root, leafKeyTotal_interior st.buffercache (g + 1) 1 h1 hint
      (by rw [ho.rootKeys]; decide), ho.rootKeys, mapM_range_two, ho.rootLeft, ho.rootRight,
      hl, hr, hm]
    rfl

theorem ShapeCount.ordered {n m : Nat} {st : BTreeIndex} (hs : ShapeCount n st m)
    (f : Nat) (hf2 : 2 ≤ f) :
    searchOrder st.buffercache f (fun x k => decide (x ≤ k)) (fun k x => decide (k ≤ x))
      st.superblock.info.rootnode = true := by
  obtain ⟨g, rfl⟩ : ∃ g, f = g + 2 := ⟨f - 2, by omega⟩
  rcases hs with ⟨hm, hf⟩ | ⟨hm, k, ho⟩
  · have h2 := hf.two
    have hnb := hf.nb
    have h1 : 1 < st.buffercache.numblocks := by omega
    simp [searchOrder, treeBlocks, hf.root, Unserialize, h1, hf.rootType, hf.rootKeys,
      NodeType.isInterior]
  · have h4 := ho.four
    have hnb := ho.nb
    have h1 : 1 < st.buffercache.numblocks := by omega
    have hint : (st.buffercache.blocks 1).info.nodetype.isInterior = true := by
      rw [ho.rootType]; rfl
    have hl := treeBlocks_leaf st.buffercache g 2 (by omega) ho.leftType
    have hr := treeBlocks_leaf st.buffercache g 3 (by omega) ho.rightType
    have hkl := subtreeKeys_leaf st.buffercache (g + 1) 2 (by omega) ho.leftType
    have hkr := subtreeKeys_leaf st.buffercache (g + 1) 3 (by omega) ho.rightType
    rw [ho.leftKeys] at hkl
    rw [ho.rightKeys] at hkr
    have ht : treeBlocks st.buffercache (g + 2) 1 = some [1, 2, 3] := by
      rw [treeBlocks_interior st.buffercache (g + 1) 1 h1 hint
        (by rw [ho.rootKeys]; decide), ho.rootKeys, mapM_range_two, ho.rootLeft, ho.rootRight,
        hl, hr]
      rfl
    have hnl : (st.buffercache.blocks 2).info.nodetype.isInterior = false := by
      rw [ho.leftType]; rfl
    have hnr : (st.buffercache.blocks 3).info.nodetype.isInterior = false := by
      rw [ho.rightType]; rfl
    have ho0 : orderAt st.buffercache (g + 2) (fun x k => decide (x ≤ k))
        (fun k x => decide (k ≤ x)) (st.buffercache.blocks 1) 0 = true := by
      simp only [orderAt, ho.rootLeft, ho.rootRight, hkl, hkr]
      simp [ho.rootKey, ho.leftKey]
    rw [ho.root]
    simp only [searchOrder, ht, List.all_cons, List.all_nil, hint, hnl, hnr, ho.rootKeys]
    have hr1 : List.range 1 = [0] := rfl
    simp [hr1, ho0]

theorem freeChain_from (c : BufferCache) (n lo : Nat) (hlo : 1 ≤ lo) (hn : c.numblocks = n)
    (hb : ∀ j, lo ≤ j → j < n → (c.blocks j).info.freelist = if j + 1 = n then 0 else j + 1) :
    ∀ (d i : Nat), lo ≤ i → i + d = n → ∀ fuel, d + 1 ≤ fuel →
      freeChain c fuel (if d = 0 then 0 else i) = some (List.range' i d) := by
  intro d
  induction d with
  | zero =>
    intro i _ _ fuel hf
    obtain ⟨f, rfl⟩ : ∃ f, fuel = f + 1 := ⟨fuel - 1, by omega⟩
    simp [freeChain]
  | succ d ih =>
    intro i hi hid fuel hf
    obtain ⟨f, rfl⟩ : ∃ f, fuel = f + 1 := ⟨fuel - 1, by omega⟩
    have hlt : i < c.numblocks := by omega
    have hi0 : i ≠ 0 := by omega
    have hfl := hb i hi (by omega)
    have ih1 := ih (i + 1) (by omega) (by omega) f (by omega)
    simp only [freeChain, Nat.succ_ne_zero, if_false, hi0, Unserialize, hlt, if_true, hfl]
    by_cases hd : d = 0
    · subst hd
      have : i + 1 = n := by omega
      simp only [this, if_true] at ih1 ⊢
      rw [ih1]
      simp [List.range']
    · have : ¬ i + 1 = n := by omega
      simp only [this, if_false, hd] at ih1 ⊢
      rw [ih1]
      simp [List.range']

/-- Over at least three blocks an index in one of the two shapes has every block
in exactly one of the superblock, the tree and the free-list chain: block 0, the
blocks of the tree and the blocks of the chain, in this order, are the block ids
`0, 1, ..., n-1`. -/
theorem ShapeCount.partition {n m : Nat} {st : BTreeIndex} (hs : ShapeCount n st m)
    (h3 : 3 ≤ n) (f : Nat) (hf : n ≤ f) :
    ∃ T F, treeBlocks st.buffercache f st.superblock.info.rootnode = some T ∧
      freeChain st.buffercache f st.superblock.info.freelist = some F ∧
      0 :: (T ++ F) = List.range n := by
  rcases hs with ⟨_, hfr⟩ | ⟨_, k, ho⟩
  · obtain ⟨g, rfl⟩ : ∃ g, f = g + 1 := ⟨f - 1, by omega⟩
    obtain ⟨e, rfl⟩ : ∃ e, n = e + 3 := ⟨n - 3, by omega⟩
    have hnb := hfr.nb
    have h1 : 1 < st.buffercache.numblocks := by omega
    have hc := freeChain_from st.buffercache (e + 3) 2 (by decide) hnb
      (fun j a b => (hfr.chain j a b).2) (e + 1) 2 (le_refl 2) (by omega) (g + 1) (by omega)
    simp only [Nat.succ_ne_zero, if_false] at hc
    refine ⟨[1], List.range' 2 (e + 1), ?_, ?_, ?_⟩
    · simp [treeBlocks, hfr.root, Unserialize, h1, hfr.rootType, hfr.rootKeys,
        NodeType.isInterior]
    · rw [hfr.free]; exact hc
    · rw [List.range_eq_range']; rfl
  · obtain ⟨g, rfl⟩ : ∃ g, f = g + 2 := ⟨f - 2, by omega⟩
    obtain ⟨e, rfl⟩ : ∃ e, n = e + 4 := ⟨n - 4, by have := ho.four; omega⟩
    have hnb := ho.nb
    have h1 : 1 < st.buffercache.numblocks := by omega
    have hint : (st.buffercache.blocks 1).info.nodetype.isInterior = true := by
      rw [ho.rootType]; rfl
    have hl := treeBlocks_leaf st.buffercache g 2 (by omega) ho.leftType
    have hr := treeBlocks_leaf st.buffercache g 3 (by omega) ho.rightType
    have ht : treeBlocks st.buffercache (g + 2) 1 = some [1, 2, 3] := by
      rw [treeBlocks_interior st.buffercache (g + 1) 1 h1 hint
        (by rw [ho.rootKeys]; decide), ho.rootKeys, mapM_range_two, ho.rootLeft, ho.rootRight,
        hl, hr]
      rfl
    have hc := freeChain_from st.buffercache (e + 4) 4 (by decide) hnb
      (fun j a b => (ho.chain j a b).2) e 4 (le_refl 4) (by omega) (g + 2) (by omega)
    have hfree : st.superblock.info.freelist = if e = 0 then 0 else 4 := by
      rw [ho.free]
      by_cases he : e = 0
      · simp [he]
      · have : ¬ 4 = e + 4 := by omega
        simp [he, this]
    refine ⟨[1, 2, 3], List.range' 4 e, ?_, ?_, ?_⟩
    · rw [ho.root]; exact ht
    · rw [hfree]; exact hc
    · rw [List.range_eq_range']; rfl

/-- After `Attach(0, create=true)` on a cache with at least three blocks and any
sequence of operations that all returned `NoError`, block 0, the blocks
reachable from `superblock.rootnode` and the blocks of the free-list chain are
the block ids `0, 1, ..., n-1`, each once. -/
theorem partition_reached {fuel : Nat} {st0 st1 stN : BTreeIndex} {ops : List Op}
    (hA : Attach st0 0 true = .ret (ERROR_NOERROR, st1))
    (hR : runOps fuel st1 ops = some stN) (h3 : 3 ≤ st0.buffercache.numblocks)
    (f : Nat) (hf : st0.buffercache.numblocks ≤ f) :
    ∃ T F, treeBlocks stN.buffercache f stN.superblock.info.rootnode = some T ∧
      freeChain stN.buffercache f stN.superblock.info.freelist = some F ∧
      0 :: (T ++ F) = List.range st0.buffercache.numblocks :=
  (reach_shape hA hR).partition h3 f hf

/-- C14, as stated, fails: after `Insert(50, 1)` on a freshly created index over
four blocks the root in block 1 has the key 50 in slot 0 and the child 2 in
pointer slot 0, and the leaf in block 2 stores the key 50, which is not strictly
less than 50. -/
theorem C14_counterexample :
    Attach (sampleIndex 4) 0 true = .ret (ERROR_NOERROR, freshIndex 4) ∧
    runOps 1 (freshIndex 4) [.insert 50 1] = some (insertedIndex 4) ∧
    (insertedIndex 4).superblock.info.rootnode = 1 ∧
    ((insertedIndex 4).buffercache.blocks 1).info.nodetype = BTREE_ROOT_NODE ∧
    ((insertedIndex 4).buffercache.blocks 1).keys 0 = 50 ∧
    ((insertedIndex 4).buffercache.blocks 1).ptrs 0 = 2 ∧
    subtreeKeys (insertedIndex 4).buffercache 2 2 = some [50] ∧
    searchOrder (insertedIndex 4).buffercache 2 (fun x k => decide (x < k))
      (fun k x => decide (k ≤ x)) 1 = false :=
  ⟨rfl, rfl, rfl, rfl, rfl, rfl, rfl, rfl⟩

/-- C14, amended. Search-tree order: after every sequence of operations on a
freshly created index in which every operation returned `NoError`, for every
root or interior node of the tree with keys `k_0..k_(n-1)` and children
`c_0..c_n`, every key stored in the subtree of `c_i` is less than or equal to
`k_i` and every key stored in the subtree of `c_(i+1)` is greater than or equal
to `k_i`. -/
theorem C14_search_order (fuel : Nat) (st0 st1 stN : BTreeIndex) (ops : List Op)
    (hA : Attach st0 0 true = .ret (ERROR_NOERROR, st1))
    (hR : runOps fuel st1 ops = some stN) :
    ∀ f, 2 ≤ f →
      searchOrder stN.buffercache f (fun x k => decide (x ≤ k)) (fun k x => decide (k ≤ x))
        stN.superblock.info.rootnode = true :=
  fun f hf => (reach_shape hA hR).ordered f hf

/-- C14, amended, on the index that `sampleOps` leave over five blocks. -/
theorem C14_search_order_witness :
    Attach (sampleIndex 5) 0 true = .ret (ERROR_NOERROR, freshIndex 5) ∧
    runOps 2 (freshIndex 5) sampleOps = some ranIndex ∧
    searchOrder ranIndex.buffercache 2 (fun x k => decide (x ≤ k)) (fun k x => decide (k ≤ x))
      ranIndex.superblock.info.rootnode = true :=
  ⟨rfl, rfl,
    C14_search_order 2 (sampleIndex 5) (freshIndex 5) ranIndex sampleOps rfl rfl 2 (le_refl 2)⟩

/-- Count consistency as long as the superblock is not loaded from block 0
without a `Detach` before: after every sequence of the operations of `Op` on a
freshly created index in which every operation returned `NoError`, the in-memory
`superblock.numkeys` equals the sum of `numkeys` over all leaves reachable from
`superblock.rootnode`, and equals the number of `Insert` calls of the sequence
(all of which returned `NoError`). -/
theorem count_without_reload (fuel : Nat) (st0 st1 stN : BTreeIndex) (ops : List Op)
    (hA : Attach st0 0 true = .ret (ERROR_NOERROR, st1))
    (hR : runOps fuel st1 ops = some stN) :
    stN.superblock.info.numkeys = numInserts ops ∧
    ∀ f, 2 ≤ f →
      leafKeyTotal stN.buffercache f stN.superblock.info.rootnode =
        some stN.superblock.info.numkeys := by
  have hs := reach_shape hA hR
  refine ⟨hs.numkeys_eq, fun f hf => ?_⟩
  rw [hs.numkeys_eq]
  exact hs.total_eq f hf

/-- The count on the index that `sampleOps` leave over five blocks: one
`Insert`, one key in the leaves, `numkeys = 1`. -/
theorem count_without_reload_sample :
    Attach (sampleIndex 5) 0 true = .ret (ERROR_NOERROR, freshIndex 5) ∧
    runOps 2 (freshIndex 5) sampleOps = some ranIndex ∧
    numInserts sampleOps = 1 ∧
    ranIndex.superblock.info.numkeys = 1 ∧
    leafKeyTotal ranIndex.buffercache 2 ranIndex.superblock.info.rootnode = some 1 :=
  ⟨rfl, rfl, rfl,
    (count_without_reload 2 (sampleIndex 5) (freshIndex 5) ranIndex sampleOps rfl rfl).1,
    rfl⟩

/-- C15 at a failing input. On the fresh index over five blocks `Insert(50, 1)`
returns `NoError`, and so does `Attach(0, create=false)` issued after it without
a `Detach`. One `Insert` has returned `NoError` and the leaves reachable from
the root hold one key, but the in-memory `superblock.numkeys` is 0: `Insert`
increments it (btree.cc:393) without writing the superblock to block 0, and
`Attach` loads the superblock from block 0. -/
theorem C15_failing_input :
    Attach (sampleIndex 5) 0 true = .ret (ERROR_NOERROR, freshIndex 5) ∧
    Insert 2 (freshIndex 5) 50 1 = .ret (ERROR_NOERROR, insertedIndex 5) ∧
    (insertedIndex 5).superblock.info.numkeys = 1 ∧
    ((insertedIndex 5).buffercache.blocks 0).info.numkeys = 0 ∧
    Attach (insertedIndex 5) 0 false = .ret (ERROR_NOERROR, reattachedIndex 5) ∧
    runAny 2 (freshIndex 5) [.op (.insert 50 1), .attach false] = some (reattachedIndex 5) ∧
    (reattachedIndex 5).superblock.info.rootnode = 1 ∧
    (reattachedIndex 5).superblock.info.numkeys = 0 ∧
    leafKeyTotal (reattachedIndex 5).buffercache 2
      (reattachedIndex 5).superblock.info.rootnode = some 1 :=
  ⟨rfl, rfl, rfl, rfl, rfl, rfl, rfl, rfl, rfl⟩

/-- C17 at a failing input. `Attach(0, create=true)` on a cache of exactly two
blocks returns `NoError` and sets `superblock.freelist` to 2 (btree.cc:133),
which is not a block id below `n = 2`: the free-list chain starts outside the
cache and the walk along it never reaches 0. -/
theorem C17_failing_input :
    Attach (sampleIndex 2) 0 true = .ret (ERROR_NOERROR, freshIndex 2) ∧
    runOps 1 (freshIndex 2) [] = some (freshIndex 2) ∧
    (freshIndex 2).buffercache.numblocks = 2 ∧
    (freshIndex 2).superblock.info.freelist = 2 ∧
    ((freshIndex 2).buffercache.blocks 0).info.freelist = 2 ∧
    treeBlocks (freshIndex 2).buffercache 2 (freshIndex 2).superblock.info.rootnode =
      some [1] ∧
    ∀ fuel, freeChain (freshIndex 2).buffercache fuel (freshIndex 2).superblock.info.freelist =
      none :=
  ⟨rfl, rfl, rfl, rfl, rfl, rfl, fun fuel => by cases fuel <;> rfl⟩

/-! ## The descent rule -/

/-- On a root or interior node the key scan stops at the least slot `j` whose key
is not below `key`, or runs past the last key. -/
theorem findSlot_least (b : BTreeNode) (key j : Nat)
    (ht : b.info.nodetype.isInterior = true) (hj : j ≤ b.info.numkeys)
    (hat : j < b.info.numkeys → key ≤ b.keys j) :
    ∀ (m i : Nat), i ≤ j → b.info.numkeys ≤ i + m →
      (∀ t, i ≤ t → t < j → b.keys t < key) →
      findSlot b key m i = if j < b.info.numkeys then .slot j (b.keys j) else .last := by
  intro m
  induction m with
  | zero =>
    intro i h1 h2 _
    have : ¬ j < b.info.numkeys := by omega
    simp [findSlot, this]
  | succ m ih =>
    intro i h1 h2 hbelow
    by_cases hi : i < b.info.numkeys
    · by_cases hij : i = j
      · subst hij
        have hle := hat hi
        have hor : key < b.keys i ∨ key = b.keys i := by omega
        simp [findSlot, hi, GetKey_interior ht hi, hor]
      · have hlt := hbelow i (le_refl _) (by omega)
        have hno : ¬ (key < b.keys i ∨ key = b.keys i) := by omega
        have hstep : findSlot b key (m + 1) i = findSlot b key m (i + 1) := by
          simp [findSlot, hi, GetKey_interior ht hi, hno]
        rw [hstep]
        exact ih (i + 1) (by omega) (by omega) (fun t a c => hbelow t (by omega) c)
    · have : ¬ j < b.info.numkeys := by omega
      simp [findSlot, hi, this]

theorem childFor_least (b : BTreeNode) (key j : Nat)
    (ht : b.info.nodetype.isInterior = true) (hj : j ≤ b.info.numkeys)
    (hbelow : ∀ t, t < j → b.keys t < key)
    (hat : j < b.info.numkeys → key ≤ b.keys j) :
    childFor b key = b.ptrs j := by
  have h := findSlot_least b key j ht hj hat b.info.numkeys 0 (Nat.zero_le _) (by omega)
    (fun t _ c => hbelow t c)
  by_cases hjn : j < b.info.numkeys
  · simp [childFor, h, hjn]
  · have : j = b.info.numkeys := by omega
    simp [childFor, h, hjn, this]

/-- Every key has a descent slot: the least slot whose key is not below it, or
the slot past the last key. -/
theorem descent_slot_exists (keys : Nat → Nat) (key : Nat) :
    ∀ n : Nat, ∃ j, j ≤ n ∧ (∀ t, t < j → keys t < key) ∧ (j < n → key ≤ keys j) := by
  intro n
  induction n with
  | zero =>
    exact ⟨0, le_refl _, fun t h => absurd h (Nat.not_lt_zero t),
      fun h => absurd h (Nat.lt_irrefl 0)⟩
  | succ n ih =>
    obtain ⟨j, h1, h2, h3⟩ := ih
    by_cases hj : j < n
    · exact ⟨j, by omega, h2, fun _ => h3 hj⟩
    · have hjn : j = n := by omega
      subst hjn
      by_cases hk : key ≤ keys j
      · exact ⟨j, by omega, h2, fun _ => hk⟩
      · refine ⟨j + 1, le_refl _, ?_, fun h => absurd h (Nat.lt_irrefl _)⟩
        intro t ht
        by_cases htj : t < j
        · exact h2 t htj
        · have : t = j := by omega
          subst this
          omega

/-- C26. Lookup descent rule: on a root or interior node with `n >= 1` keys,
`LookupOrUpdateInternal` returns exactly the result of the call on the child
`ptr[j]`, where `j` is the least index with `k <= key[j]`, and `j = n` when `k`
is greater than every key of the node (such a `j` always exists); on a root or
interior node with `n = 0` it returns `NotFound`. -/
theorem C26_lookup_descent (fuel : Nat) (c : BufferCache) (node : Nat) (op : BTreeOp)
    (k v : Nat) (h : node < c.numblocks)
    (ht : (c.blocks node).info.nodetype.isInterior = true) :
    (0 < (c.blocks node).info.numkeys →
      (∀ j, j ≤ (c.blocks node).info.numkeys → (∀ t, t < j → (c.blocks node).keys t < k) →
        (j < (c.blocks node).info.numkeys → k ≤ (c.blocks node).keys j) →
        LookupOrUpdateInternal (fuel + 1) c node op k v =
          LookupOrUpdateInternal fuel c ((c.blocks node).ptrs j) op k v) ∧
      ∃ j, j ≤ (c.blocks node).info.numkeys ∧ (∀ t, t < j → (c.blocks node).keys t < k) ∧
        (j < (c.blocks node).info.numkeys → k ≤ (c.blocks node).keys j)) ∧
    ((c.blocks node).info.numkeys = 0 →
      LookupOrUpdateInternal (fuel + 1) c node op k v = .ret (ERROR_NONEXISTENT, v, c)) := by
  refine ⟨fun hn => ⟨?_, descent_slot_exists _ k _⟩, fun hn => ?_⟩
  · intro j hj hbelow hat
    rw [LOU_interior fuel c node op k v h ht hn, childFor_least _ k j ht hj hbelow hat]
  · exact LOU_interior_empty fuel c node op k v h ht hn

/-- C26 on the root of the index holding key 50: the keys 30 and 50 go to
`ptr[0] = 2`, the key 70 goes to `ptr[1] = 3`. -/
theorem C26_lookup_descent_witness :
    LookupOrUpdateInternal 2 (insertedIndex 4).buffercache 1 BTREE_OP_LOOKUP 30 0 =
      LookupOrUpdateInternal 1 (insertedIndex 4).buffercache 2 BTREE_OP_LOOKUP 30 0 ∧
    LookupOrUpdateInternal 2 (insertedIndex 4).buffercache 1 BTREE_OP_LOOKUP 50 0 =
      LookupOrUpdateInternal 1 (insertedIndex 4).buffercache 2 BTREE_OP_LOOKUP 50 0 ∧
    LookupOrUpdateInternal 2 (insertedIndex 4).buffercache 1 BTREE_OP_LOOKUP 70 0 =
      LookupOrUpdateInternal 1 (insertedIndex 4).buffercache 3 BTREE_OP_LOOKUP 70 0 := by
  have hn : ((insertedIndex 4).buffercache.blocks 1).info.numkeys = 1 := rfl
  have hk : ((insertedIndex 4).buffercache.blocks 1).keys 0 = 50 := rfl
  have key := fun k => (C26_lookup_descent 1 (insertedIndex 4).buffercache 1 BTREE_OP_LOOKUP k 0
    (by decide) rfl).1 (by decide)
  refine ⟨(key 30).1 0 (by decide) (fun t ht => absurd ht (Nat.not_lt_zero t))
      (fun _ => by rw [hk]; decide),
    (key 50).1 0 (by decide) (fun t ht => absurd ht (Nat.not_lt_zero t))
      (fun _ => by rw [hk]),
    (key 70).1 1 (by decide) (fun t ht => ?_) (fun hlt => ?_)⟩
  · have : t = 0 := by omega
    subst this
    rw [hk]; decide
  · rw [hn] at hlt
    exact absurd hlt (Nat.lt_irrefl 1)

/-! ## The last pointer and the new root -/

/-- C21 at a failing input. In the index holding key 50 (root in block 1 with
`n = 1`, `ptr[1] = 3`) the insert of the larger key 70 takes the last pointer;
the recursion into block 3 returns `NoError` with the promotion (70, block 4).
`InsertRecursion` on the root returns that result at once (btree.cc:569): the
root is not rewritten and keeps `numkeys = 1`, `key[0] = 50`, `ptr[0] = 2`,
`ptr[1] = 3`, where the claim has `numkeys = 2`, `key[1] = 70`, `ptr[2] = 4`. -/
theorem C21_failing_input :
    ((insertedIndex 5).buffercache.blocks 1).info.numkeys = 1 ∧
    findSlot ((insertedIndex 5).buffercache.blocks 1) 70 1 0 = .last ∧
    ((insertedIndex 5).buffercache.blocks 1).ptrs 1 = 3 ∧
    InsertRecursion 1 (insertedIndex 5) 3 70 2 0 0 =
      .ret (ERROR_NOERROR, 70, 4, lastSplitIndex 5) ∧
    InsertRecursion 2 (insertedIndex 5) 1 70 2 0 0 =
      .ret (ERROR_NOERROR, 70, 4, lastSplitIndex 5) ∧
    ((lastSplitIndex 5).buffercache.blocks 4).info.nodetype = BTREE_LEAF_NODE ∧
    ((lastSplitIndex 5).buffercache.blocks 4).keys 0 = 70 ∧
    (lastSplitIndex 5).buffercache.blocks 1 = (insertedIndex 5).buffercache.blocks 1 ∧
    ((lastSplitIndex 5).buffercache.blocks 1).info.numkeys = 1 ∧
    ((lastSplitIndex 5).buffercache.blocks 1).keys 0 = 50 ∧
    ((lastSplitIndex 5).buffercache.blocks 1).ptrs 0 = 2 ∧
    ((lastSplitIndex 5).buffercache.blocks 1).ptrs 1 = 3 :=
  ⟨rfl, rfl, rfl, rfl, rfl, rfl, rfl, rfl, rfl, rfl, rfl, rfl⟩

/-- The new-root code of `Insert` returns before it writes anything. -/
theorem insertNewRoot_state {st st2 : BTreeIndex} {newkey newnode : Nat} {rc : ERROR_T}
    (h : insertNewRoot st newkey newnode = .ret (rc, st2)) : st2 = st := by
  unfold insertNewRoot at h
  split at h
  · simp only [Res.ret.injEq, Prod.mk.injEq] at h
    exact h.2.symm
  · simp only [ne_eq, reduceCtorEq, not_false_eq_true, ↓reduceIte, Res.ret.injEq,
      Prod.mk.injEq] at h
    exact h.2.symm

/-- C23 at a failing input. On the index holding key 50 over six blocks
`InsertRecursion` on the root with the key 70 returns `NoError` with the
promotion (70, block 4) and leaves block 5 on the free list. `Insert` then
returns the code with the value 1 that `rc=newRoot.info.numkeys=1` stores
(btree.cc:375): no block is allocated (block 5 stays `Unallocated`,
`superblock.freelist` stays 5), no new root is written and `superblock.numkeys`
stays 1. The new-root code returns before any write for every index. -/
theorem C23_failing_input :
    InsertRecursion 2 (insertedIndex 6) (insertedIndex 6).superblock.info.rootnode 70 2 0 0 =
      .ret (ERROR_NOERROR, 70, 4, lastSplitIndex 6) ∧
    (lastSplitIndex 6).superblock.info.freelist = 5 ∧
    ((lastSplitIndex 6).buffercache.blocks 5).info.nodetype = BTREE_UNALLOCATED_BLOCK ∧
    insertNewRoot (lastSplitIndex 6) 70 4 = .ret (ERROR_ONE, lastSplitIndex 6) ∧
    Insert 2 (insertedIndex 6) 70 2 = .ret (ERROR_ONE, lastSplitIndex 6) ∧
    (lastSplitIndex 6).superblock.info.numkeys = 1 ∧
    (∀ (st st2 : BTreeIndex) (newkey newnode : Nat) (rc : ERROR_T),
      insertNewRoot st newkey newnode = .ret (rc, st2) → rc ≠ ERROR_NOERROR ∧ st2 = st) :=
  ⟨rfl, rfl, rfl, rfl, rfl, rfl,
    fun _ _ _ _ _ h => ⟨insertNewRoot_ne_NOERROR h, insertNewRoot_state h⟩⟩

/-! ## The interior split -/

/-- The interior split with a free block at hand: it returns `NoError` with the
key of slot `last + 1` and the block taken from the free list; the old block
keeps its slots and gets `numkeys = last + 1`, the new block holds the keys from
`last + 2` on and the pointers from `last + 2` on, moved to position 0. -/
theorem interiorSplit_ok (st : BTreeIndex) (node m : Nat) (b : BTreeNode) (newkey newnode : Nat)
    (ht : b.info.nodetype.isInterior = true) (hn : 2 ≤ b.info.numkeys)
    (hlt : node < st.buffercache.numblocks)
    (hfl : st.superblock.info.freelist = m) (hm0 : m ≠ 0)
    (hmlt : m < st.buffercache.numblocks)
    (hmt : (st.buffercache.blocks m).info.nodetype = BTREE_UNALLOCATED_BLOCK)
    (hmn : m ≠ node) :
    ∃ st2, interiorSplit st node b newkey newnode =
        .ret (ERROR_NOERROR, b.keys (b.info.numkeys / 2 - 1 + 1), m, st2) ∧
      st2.buffercache.blocks node =
        { b with info := { b.info with numkeys := b.info.numkeys / 2 - 1 + 1 } } ∧
      (st2.buffercache.blocks m).info =
        { b.info with numkeys := b.info.numkeys - (b.info.numkeys / 2 - 1 + 2) } ∧
      (∀ j, j < b.info.numkeys - (b.info.numkeys / 2 - 1 + 2) →
        (st2.buffercache.blocks m).keys j = b.keys (b.info.numkeys / 2 - 1 + 2 + j)) ∧
      (∀ j, j ≤ b.info.numkeys - (b.info.numkeys / 2 - 1 + 2) →
        (st2.buffercache.blocks m).ptrs j = b.ptrs (b.info.numkeys / 2 - 1 + 2 + j)) := by
  have hhalf : b.info.numkeys / 2 - 1 + 1 < b.info.numkeys := by omega
  obtain ⟨sp2, tp2, e1, e2, _, e4, e5⟩ := interiorMove_spec b ht b.info.numkeys
    (b.info.numkeys / 2 - 1 + 2) 0 b 0 rfl (Nat.zero_le _) (by omega) (by omega)
  have hsp : sp2.info.nodetype.isInterior = true := by rw [e2]; exact ht
  have hins : 0 + (b.info.numkeys - (b.info.numkeys / 2 - 1 + 2)) ≤ sp2.info.numkeys := by
    rw [e2]; omega
  obtain ⟨st1, a1, a2, _⟩ := AllocateNode_head st m hfl hm0 hmlt hmt
  have hm1 : m < st1.buffercache.numblocks := by rw [a2]; exact hmlt
  have hn1 : node < st1.buffercache.numblocks := by rw [a2]; exact hlt
  have hL : interiorSplit st node b newkey newnode =
      .ret (ERROR_NOERROR, b.keys (b.info.numkeys / 2 - 1 + 1), m,
        { st1 with
          buffercache :=
            { st1.buffercache with
              blocks := Function.update
                (Function.update st1.buffercache.blocks m
                  { sp2 with
                    info := { sp2.info with
                              numkeys := 0 + (b.info.numkeys - (b.info.numkeys / 2 - 1 + 2)) },
                    ptrs := Function.update sp2.ptrs
                      (0 + (b.info.numkeys - (b.info.numkeys / 2 - 1 + 2)))
                      (b.ptrs b.info.numkeys) })
                node
                { b with info := { b.info with numkeys := b.info.numkeys / 2 - 1 + 1 } } } }) := by
    simp only [interiorSplit, fillThreshold, Nat.reduceDiv, mul_zero, Nat.zero_le, if_true,
      GetKey_interior ht hhalf, e1, GetPtr_interior ht (le_refl _), SetPtr_interior hsp hins,
      a1, ne_eq, not_true_eq_false, if_false, Serialize, hm1, hn1]
  refine ⟨_, hL, ?_, ?_, ?_, ?_⟩
  · simp
  · simp [Function.update_noteq hmn, e2]
  · intro j hj
    have c : 0 ≤ j ∧ j < 0 + (b.info.numkeys - (b.info.numkeys / 2 - 1 + 2)) := by omega
    simp [Function.update_noteq hmn, e4 j, hj]
  · intro j hj
    rcases Nat.eq_or_lt_of_le hj with heq | hlt2
    · have harith : b.info.numkeys / 2 - 1 + 2 +
          (b.info.numkeys - (b.info.numkeys / 2 - 1 + 2)) = b.info.numkeys := by omega
      simp [Function.update_noteq hmn, heq, harith]
    · have hne : j ≠ b.info.numkeys - (b.info.numkeys / 2 - 1 + 2) := by omega
      have c : 0 ≤ j ∧ j < 0 + (b.info.numkeys - (b.info.numkeys / 2 - 1 + 2)) := by omega
      simp only [Function.update_same, Function.update_noteq hmn, Nat.zero_add]
      rw [Function.update_noteq hne, e5 j, if_pos c]
      simp

/-- C22. Interior split. Let `b` be a root or interior node with `n >= 2` keys
`k_0..k_(n-1)` and pointers `p_0..p_n`, let the free list start with an
unallocated block `m`, and let `last = n/2 - 1`. The split of `b`, stored in
block `node`, returns `NoError`, the promoted key `k_(last+1)` and the promoted
child `m`; the old block ends as `b` with `numkeys = last + 1` (keys
`k_0..k_last`, pointers `p_0..p_(last+1)`); block `m` ends with
`numkeys = n - (last + 2)`, the keys `k_(last+2)..k_(n-1)` at positions 0.. and
the pointers `p_(last+2)..p_n` at positions 0..; when the keys of `b` are
strictly ascending the promoted key is in neither block. -/
theorem C22_interior_split (st : BTreeIndex) (node m : Nat) (b : BTreeNode)
    (newkey newnode : Nat)
    (ht : b.info.nodetype.isInterior = true) (hn : 2 ≤ b.info.numkeys)
    (hlt : node < st.buffercache.numblocks)
    (hfl : st.superblock.info.freelist = m) (hm0 : m ≠ 0)
    (hmlt : m < st.buffercache.numblocks)
    (hmt : (st.buffercache.blocks m).info.nodetype = BTREE_UNALLOCATED_BLOCK)
    (hmn : m ≠ node) :
    ∃ st2 last, last + 1 = b.info.numkeys / 2 ∧
      interiorSplit st node b newkey newnode =
        .ret (ERROR_NOERROR, b.keys (last + 1), m, st2) ∧
      (st2.buffercache.blocks node).info.numkeys = last + 1 ∧
      (st2.buffercache.blocks node).info.nodetype = b.info.nodetype ∧
      (∀ j, j ≤ last → (st2.buffercache.blocks node).keys j = b.keys j) ∧
      (∀ j, j ≤ last + 1 → (st2.buffercache.blocks node).ptrs j = b.ptrs j) ∧
      (st2.buffercache.blocks m).info.numkeys = b.info.numkeys - (last + 2) ∧
      (st2.buffercache.blocks m).info.nodetype = b.info.nodetype ∧
      (∀ j, j < b.info.numkeys - (last + 2) →
        (st2.buffercache.blocks m).keys j = b.keys (last + 2 + j)) ∧
      (∀ j, j ≤ b.info.numkeys - (last + 2) →
        (st2.buffercache.blocks m).ptrs j = b.ptrs (last + 2 + j)) ∧
      ((∀ a c, a < c → c < b.info.numkeys → b.keys a < b.keys c) →
        (∀ j, j < (st2.buffercache.blocks node).info.numkeys →
          (st2.buffercache.blocks node).keys j ≠ b.keys (last + 1)) ∧
        (∀ j, j < (st2.buffercache.blocks m).info.numkeys →
          (st2.buffercache.blocks m).keys j ≠ b.keys (last + 1))) := by
  obtain ⟨st2, h1, h2, h3, h4, h5⟩ :=
    interiorSplit_ok st node m b newkey newnode ht hn hlt hfl hm0 hmlt hmt hmn
  refine ⟨st2, b.info.numkeys / 2 - 1, by omega, h1, ?_, ?_, ?_, ?_, ?_, ?_, h4, h5, ?_⟩
  · rw [h2]
  · rw [h2]
  · intro j _; rw [h2]
  · intro j _; rw [h2]
  · rw [h3]
  · rw [h3]
  · intro hasc
    constructor
    · intro j hj
      rw [h2] at hj ⊢
      simp only at hj ⊢
      exact Nat.ne_of_lt (hasc j (b.info.numkeys / 2 - 1 + 1) hj (by omega))
    · intro j hj
      rw [h3] at hj
      simp only at hj
      rw [h4 j hj]
      exact Nat.ne_of_gt (hasc (b.info.numkeys / 2 - 1 + 1) (b.info.numkeys / 2 - 1 + 2 + j)
        (by omega) (by omega))

/-- C22 on a root with the keys 10, 20, 30, split into the free block 4 of the
index over six blocks: the key 20 is promoted, the old block keeps the key 10,
block 4 gets the key 30. -/
theorem C22_interior_split_witness :
    ∃ st2, interiorSplit (insertedIndex 6) 1 sampleInterior 0 0 =
        .ret (ERROR_NOERROR, 20, 4, st2) ∧
      (st2.buffercache.blocks 1).info.numkeys = 1 ∧
      (st2.buffercache.blocks 1).keys 0 = 10 ∧
      (st2.buffercache.blocks 4).info.numkeys = 1 ∧
      (st2.buffercache.blocks 4).keys 0 = 30 ∧
      (st2.buffercache.blocks 4).ptrs 0 = sampleInterior.ptrs 2 ∧
      (st2.buffercache.blocks 4).ptrs 1 = sampleInterior.ptrs 3 := by
  obtain ⟨st2, last, h0, h1, h2, _, h4, _, h6, _, h8, h9, _⟩ :=
    C22_interior_split (insertedIndex 6) 1 4 sampleInterior 0 0 rfl (by decide) (by decide)
      rfl (by decide) (by decide) rfl (by decide)
  have hl : last = 0 := by
    have : sampleInterior.info.numkeys = 3 := rfl
    rw [this] at h0
    omega
  subst hl
  have hN : sampleInterior.info.numkeys = 3 := rfl
  rw [hN] at h6 h8 h9
  exact ⟨st2, h1, h2, h4 0 (le_refl 0), h6, h8 0 (by decide), h9 0 (by decide),
    h9 1 (by decide)⟩

/-! ## The overfull test -/

theorem GetPtr_error_ne {b : BTreeNode} {i : Nat} {rc : ERROR_T}
    (h : GetPtr b i = .error rc) : rc ≠ ERROR_NOERROR := by
  unfold GetPtr at h
  repeat' split at h
  all_goals first
    | (simp at h; done)
    | (simp only [Except.error.injEq] at h; subst h; decide)

theorem SetPtr_error_ne {b : BTreeNode} {i p : Nat} {rc : ERROR_T}
    (h : SetPtr b i p = .error rc) : rc ≠ ERROR_NOERROR := by
  unfold SetPtr at h
  repeat' split at h
  all_goals first
    | (simp at h; done)
    | (simp only [Except.error.injEq] at h; subst h; decide)

theorem SetKey_info {b b2 : BTreeNode} {i k : Nat} (h : SetKey b i k = .ok b2) :
    b2.info = b.info := by
  unfold SetKey at h
  repeat' split at h
  all_goals first
    | (simp at h; done)
    | (simp only [Except.ok.injEq] at h; subst h; rfl)

theorem SetPtr_info {b b2 : BTreeNode} {i p : Nat} (h : SetPtr b i p = .ok b2) :
    b2.info = b.info := by
  unfold SetPtr at h
  repeat' split at h
  all_goals first
    | (simp at h; done)
    | (simp only [Except.ok.injEq] at h; subst h; rfl)

theorem fixupShift_error_ne :
    ∀ (m i : Nat) (s : ShiftState) (rc : ERROR_T),
      fixupShift m i s = .error rc → rc ≠ ERROR_NOERROR := by
  intro m
  induction m with
  | zero => intro i s rc h; simp [fixupShift] at h
  | succ m ih =>
    intro i s rc h
    unfold fixupShift at h
    repeat' split at h
    all_goals first
      | (simp at h; done)
      | exact ih _ _ _ h
      | (simp only [Except.error.injEq] at h; subst h
         first
           | exact GetKey_error_ne (by assumption)
           | exact SetKey_error_ne (by assumption)
           | exact GetPtr_error_ne (by assumption)
           | exact SetPtr_error_ne (by assumption))

/-- The shift loop of the interior fix-up leaves the header of the node,
`numkeys` included, as it was. -/
theorem fixupShift_info :
    ∀ (m i : Nat) (s s2 : ShiftState), fixupShift m i s = .ok s2 → s2.b.info = s.b.info := by
  intro m
  induction m with
  | zero =>
    intro i s s2 h
    simp only [fixupShift, Except.ok.injEq] at h
    rw [← h]
  | succ m ih =>
    intro i s s2 h
    unfold fixupShift at h
    split at h
    · split at h
      · simp at h
      · rename_i b1 h1
        split at h
        · simp at h
        · rename_i b2 h2
          split at h
          · simp at h
          · split at h
            · simp at h
            · have := ih _ _ _ h
              simp only at this
              rw [this, SetPtr_info h2, SetKey_info h1]
    · simp only [Except.ok.injEq] at h
      rw [← h]

/-- The interior fix-up either returns a code other than `NoError` before the
overfull test, handing the promotion back as it came, or runs the split code on
the node with one key more. -/
theorem interiorFixup_cases (st : BTreeIndex) (node : Nat) (b : BTreeNode)
    (offset testkey newkey newnode : Nat) :
    (∃ rc st1, rc ≠ ERROR_NOERROR ∧
      interiorFixup st node b offset testkey newkey newnode =
        .ret (rc, newkey, newnode, st1)) ∨
    (∃ b3 st1, b3.info = { b.info with numkeys := b.info.numkeys + 1 } ∧
      interiorFixup st node b offset testkey newkey newnode =
        interiorSplit st1 node b3 newkey newnode) := by
  unfold interiorFixup
  split
  · rename_i rc h
    exact Or.inl ⟨rc, st, GetPtr_error_ne h, rfl⟩
  · split
    · rename_i rc h
      exact Or.inl ⟨rc, st, fixupShift_error_ne _ _ _ _ h, rfl⟩
    · rename_i s hs
      have hinfo := fixupShift_info _ _ _ _ hs
      simp only at hinfo ⊢
      split
      · rename_i rc h
        exact Or.inl ⟨rc, st, SetKey_error_ne h, rfl⟩
      · rename_i b2 h2
        split
        · rename_i rc h
          exact Or.inl ⟨rc, st, SetPtr_error_ne h, rfl⟩
        · rename_i b3 h3
          split
          · rename_i hne
            exact Or.inl ⟨_, _, hne, rfl⟩
          · refine Or.inr ⟨b3, _, ?_, rfl⟩
            rw [SetPtr_info h3, SetKey_info h2, hinfo]

theorem findSlot_slot_lt (b : BTreeNode) (key : Nat) :
    ∀ (m i off t : Nat), findSlot b key m i = .slot off t → off < b.info.numkeys := by
  intro m
  induction m with
  | zero => intro i off t h; simp [findSlot] at h
  | succ m ih =>
    intro i off t h
    unfold findSlot at h
    repeat' split at h
    all_goals first
      | (simp at h; done)
      | exact ih _ _ _ h
      | (simp only [Descent.slot.injEq] at h
         obtain ⟨h1, _⟩ := h
         subst h1
         assumption)

/-- C28. The interior split index never underflows. The split code is run by
the interior fix-up only, on the node whose `numkeys` the fix-up has incremented,
and the fix-up is entered with a descent slot `offset < numkeys`, so with
`numkeys >= 1`: the node that is split has `numkeys >= 2`. For every root or
interior node with `numkeys >= 2`, `floor(numkeys/2) - 1` does not underflow,
`lastKeyIndex + 1 < numkeys`, and the read of the promoted key
`key[lastKeyIndex+1]`, the reads of the copy loop and the read of the last
pointer are all within the live range. -/
theorem C28_split_index (b : BTreeNode) (ht : b.info.nodetype.isInterior = true)
    (hn : 2 ≤ b.info.numkeys) :
    (∀ (b0 : BTreeNode) (key off t : Nat),
      findSlot b0 key b0.info.numkeys 0 = .slot off t → off < b0.info.numkeys) ∧
    (∀ (st : BTreeIndex) (node : Nat) (b0 : BTreeNode) (off t nk nn : Nat),
      off < b0.info.numkeys →
      (∃ rc st1, rc ≠ ERROR_NOERROR ∧
        interiorFixup st node b0 off t nk nn = .ret (rc, nk, nn, st1)) ∨
      (∃ b3 st1, b3.info.numkeys = b0.info.numkeys + 1 ∧ 2 ≤ b3.info.numkeys ∧
        b3.info.nodetype = b0.info.nodetype ∧
        interiorFixup st node b0 off t nk nn = interiorSplit st1 node b3 nk nn)) ∧
    1 ≤ b.info.numkeys / 2 ∧
    b.info.numkeys / 2 - 1 + 1 < b.info.numkeys ∧
    GetKey b (b.info.numkeys / 2 - 1 + 1) = .ok (b.keys (b.info.numkeys / 2 - 1 + 1)) ∧
    (∃ sp tp, interiorMove b b.info.numkeys (b.info.numkeys / 2 - 1 + 2) 0 b 0 =
      .ok (sp, b.info.numkeys - (b.info.numkeys / 2 - 1 + 2), tp)) ∧
    (∀ i, b.info.numkeys / 2 - 1 + 2 ≤ i → i < b.info.numkeys →
      GetKey b i = .ok (b.keys i) ∧ GetPtr b i = .ok (b.ptrs i)) ∧
    GetPtr b b.info.numkeys = .ok (b.ptrs b.info.numkeys) := by
  have hhalf : b.info.numkeys / 2 - 1 + 1 < b.info.numkeys := by omega
  refine ⟨fun b0 key off t h => findSlot_slot_lt b0 key _ _ _ _ h, ?_, by omega, hhalf,
    GetKey_interior ht hhalf, ?_, ?_, GetPtr_interior ht (le_refl _)⟩
  · intro st node b0 off t nk nn hoff
    rcases interiorFixup_cases st node b0 off t nk nn with h | ⟨b3, st1, h1, h2⟩
    · exact Or.inl h
    · refine Or.inr ⟨b3, st1, by rw [h1], by rw [h1]; simp only; omega, by rw [h1], h2⟩
  · obtain ⟨sp2, tp2, e1, _⟩ := interiorMove_spec b ht b.info.numkeys
      (b.info.numkeys / 2 - 1 + 2) 0 b 0 rfl (Nat.zero_le _) (by omega) (by omega)
    rw [Nat.zero_add] at e1
    exact ⟨sp2, tp2, e1⟩
  · intro i _ hi
    exact ⟨GetKey_interior ht hi, GetPtr_interior ht (le_of_lt hi)⟩

/-- C28 on a root with three keys: `lastKeyIndex = 0`, the promoted key is read
from slot 1, the copy loop reads slot 2 and the last pointer is read from
slot 3. -/
theorem C28_split_index_witness :
    sampleInterior.info.numkeys = 3 ∧
    1 ≤ sampleInterior.info.numkeys / 2 ∧
    sampleInterior.info.numkeys / 2 - 1 + 1 < sampleInterior.info.numkeys ∧
    GetKey sampleInterior 1 = .ok 20 ∧
    GetKey sampleInterior 2 = .ok 30 ∧
    GetPtr sampleInterior 3 = .ok 3 := by
  obtain ⟨_, _, h3, h4, h5, _, h7, h8⟩ := C28_split_index sampleInterior rfl (by decide)
  exact ⟨rfl, h3, h4, h5, (h7 2 (by decide) (by decide)).1, h8⟩

/-- The scan of a leaf ends with a conflict, at a slot inside the leaf whose key
it hands on, or past the last slot; it does not fail. -/
theorem leafScan_cases (b : BTreeNode) (key : Nat) (ht : b.info.nodetype = BTREE_LEAF_NODE) :
    ∀ (m i : Nat), leafScan b key m i = .conflict ∨
      (∃ p, p < b.info.numkeys ∧ leafScan b key m i = .insertAt p (b.keys p)) ∨
      leafScan b key m i = .append := by
  intro m
  induction m with
  | zero => intro i; exact Or.inr (Or.inr rfl)
  | succ m ih =>
    intro i
    by_cases hi : i < b.info.numkeys
    · by_cases heq : b.keys i = key
      · left
        simp [leafScan, hi, GetKey_leaf ht hi, heq]
      · by_cases hlt : key < b.keys i
        · right; left
          exact ⟨i, hi, by simp [leafScan, hi, GetKey_leaf ht hi, heq, hlt]⟩
        · have hstep : leafScan b key (m + 1) i = leafScan b key m (i + 1) := by
            simp [leafScan, hi, GetKey_leaf ht hi, heq, hlt]
          rw [hstep]
          exact ih (i + 1)
    · right; right
      simp [leafScan, hi]

/-- The split of a leaf with at least one key always tries to allocate. -/
theorem leafSplit_alloc (st : BTreeIndex) (node : Nat) (b3 : BTreeNode) (newkey newnode : Nat)
    (ht : b3.info.nodetype = BTREE_LEAF_NODE) (hn : 0 < b3.info.numkeys) :
    SplitsWithAlloc (leafSplit st node b3 newkey newnode) st
      (b3.keys (b3.info.numkeys / 2)) := by
  have hhalf : b3.info.numkeys / 2 < b3.info.numkeys := Nat.div_lt_self hn (by decide)
  obtain ⟨sp2, e1, _⟩ := leafMove_spec b3 ht b3.info.numkeys
    (b3.info.numkeys / 2) 0 b3 rfl (Nat.zero_le _) (le_of_lt hhalf) (by omega)
  unfold SplitsWithAlloc
  cases hA : AllocateNode st with
  | abort =>
    simp [leafSplit, fillThreshold, GetKey_leaf ht hhalf, e1, hA]
  | nofuel =>
    simp [leafSplit, fillThreshold, GetKey_leaf ht hhalf, e1, hA]
  | ret x =>
    obtain ⟨rc1, n1, st1⟩ := x
    by_cases hrc : rc1 = ERROR_NOERROR
    · subst hrc
      simp only [leafSplit, fillThreshold, Nat.reduceDiv, mul_zero, Nat.zero_le, if_true,
        GetKey_leaf ht hhalf, e1, hA, ne_eq, not_true_eq_false, if_false]
      split
      · exact ⟨_, _, rfl⟩
      · split
        · exact ⟨_, _, rfl⟩
        · exact ⟨_, _, rfl⟩
    · simp [leafSplit, fillThreshold, GetKey_leaf ht hhalf, e1, hA, hrc]

/-- The split of a root or interior node with at least two keys always tries to
allocate. -/
theorem interiorSplit_alloc (st : BTreeIndex) (node : Nat) (b : BTreeNode)
    (newkey newnode : Nat) (ht : b.info.nodetype.isInterior = true)
    (hn : 2 ≤ b.info.numkeys) :
    SplitsWithAlloc (interiorSplit st node b newkey newnode) st
      (b.keys (b.info.numkeys / 2 - 1 + 1)) := by
  have hhalf : b.info.numkeys / 2 - 1 + 1 < b.info.numkeys := by omega
  obtain ⟨sp2, tp2, e1, _⟩ := interiorMove_spec b ht b.info.numkeys
    (b.info.numkeys / 2 - 1 + 2) 0 b 0 rfl (Nat.zero_le _) (by omega) (by omega)
  unfold SplitsWithAlloc
  cases hA : AllocateNode st with
  | abort =>
    simp [interiorSplit, fillThreshold, GetKey_interior ht hhalf, e1, hA]
  | nofuel =>
    simp [interiorSplit, fillThreshold, GetKey_interior ht hhalf, e1, hA]
  | ret x =>
    obtain ⟨rc1, n1, st1⟩ := x
    by_cases hrc : rc1 = ERROR_NOERROR
    · subst hrc
      simp only [interiorSplit, fillThreshold, Nat.reduceDiv, mul_zero, Nat.zero_le, if_true,
        GetKey_interior ht hhalf, e1, hA, ne_eq, not_true_eq_false, if_false]
      split
      · exact ⟨_, _, rfl⟩
      · split
        · exact ⟨_, _, rfl⟩
        · exact ⟨_, _, rfl⟩
    · simp [interiorSplit, fillThreshold, GetKey_interior ht hhalf, e1, hA, hrc]

/-- An insert into a leaf returns `Conflict` and leaves the index alone, or
writes the leaf with the new entry and goes on to the split, which tries to
allocate. -/
theorem leaf_insert_alloc (fuel : Nat) (st : BTreeIndex) (node key value newkey newnode : Nat)
    (hlt : node < st.buffercache.numblocks)
    (ht : (st.buffercache.blocks node).info.nodetype = BTREE_LEAF_NODE) :
    InsertRecursion (fuel + 1) st node key value newkey newnode =
      .ret (ERROR_CONFLICT, newkey, newnode, st) ∨
    ∃ b3 p, InsertedAt (st.buffercache.blocks node) b3 p key value ∧
      p ≤ (st.buffercache.blocks node).info.numkeys ∧
      InsertRecursion (fuel + 1) st node key value newkey newnode =
        leafSplit
          { st with
            buffercache :=
              { st.buffercache with
                blocks := Function.update st.buffercache.blocks node b3 } }
          node b3 newkey newnode ∧
      SplitsWithAlloc (InsertRecursion (fuel + 1) st node key value newkey newnode)
        { st with
          buffercache :=
            { st.buffercache with
              blocks := Function.update st.buffercache.blocks node b3 } }
        (b3.keys (b3.info.numkeys / 2)) := by
  rw [IR_leaf fuel st node key value newkey newnode hlt ht]
  rcases leafScan_cases (st.buffercache.blocks node) key ht
      (st.buffercache.blocks node).info.numkeys 0 with hc | ⟨p, hp, hs⟩ | ha
  · left
    rw [hc]
  · right
    obtain ⟨b3, h1, h2⟩ := leafInsertAt_eq st node (st.buffercache.blocks node) p key value
      newkey newnode ht hp hlt
    refine ⟨b3, p, h1, le_of_lt hp, ?_, ?_⟩
    · rw [hs]; exact h2
    · rw [hs]
      simp only
      rw [h2]
      exact leafSplit_alloc _ node b3 newkey newnode (by rw [h1.1]; exact ht)
        (by rw [h1.1]; simp)
  · right
    obtain ⟨b3, h1, h2⟩ := leafAppend_eq st node (st.buffercache.blocks node) key value
      newkey newnode ht hlt
    refine ⟨b3, _, h1, le_refl _, ?_, ?_⟩
    · rw [ha]; exact h2
    · rw [ha]
      simp only
      rw [h2]
      exact leafSplit_alloc _ node b3 newkey newnode (by rw [h1.1]; exact ht)
        (by rw [h1.1]; simp)

/-- C25 at a failing input. On the index holding key 50 over six blocks the
insert of the key 30 splits the leaf in block 2 and hands the promotion
(50, block 4) to the fix-up of the root. The threshold of the root is 0 and
block 5 is free, so an allocation would succeed, but the fix-up returns
`SizeError` from its shift loop (btree.cc:488) before it reaches the overfull
test: it does not go on to split the root and does not try to allocate. -/
theorem C25_failing_input :
    fillThreshold (GetNumSlotsAsInterior ((insertedIndex 6).buffercache.blocks 1).info) = 0 ∧
    InsertRecursion 1 (insertedIndex 6) 2 30 2 0 0 =
      .ret (ERROR_NOERROR, 50, 4, childSplitIndex 6) ∧
    (childSplitIndex 6).superblock.info.freelist = 5 ∧
    ((childSplitIndex 6).buffercache.blocks 5).info.nodetype = BTREE_UNALLOCATED_BLOCK ∧
    (AllocateNode (childSplitIndex 6)).code = .ret ERROR_NOERROR ∧
    interiorFixup (childSplitIndex 6) 1 ((insertedIndex 6).buffercache.blocks 1) 0 50 50 4 =
      .ret (ERROR_SIZE, 50, 4, childSplitIndex 6) ∧
    InsertRecursion 2 (insertedIndex 6) 1 30 2 0 0 =
      .ret (ERROR_SIZE, 50, 4, childSplitIndex 6) ∧
    (∀ pk, ¬ SplitsWithAlloc
      (interiorFixup (childSplitIndex 6) 1 ((insertedIndex 6).buffercache.blocks 1) 0 50 50 4)
      (childSplitIndex 6) pk) := by
  refine ⟨rfl, rfl, rfl, rfl, rfl, rfl, rfl, ?_⟩
  intro pk h
  obtain ⟨st1, hA, _⟩ := AllocateNode_head (childSplitIndex 6) 5 rfl (by decide) (by decide) rfl
  have e : interiorFixup (childSplitIndex 6) 1 ((insertedIndex 6).buffercache.blocks 1)
      0 50 50 4 = .ret (ERROR_SIZE, 50, 4, childSplitIndex 6) := rfl
  unfold SplitsWithAlloc at h
  rw [hA, e] at h
  simp at h

/-- What the threshold forces. The fill threshold `floor(capacity * (2/3))` of
the source is 0 for every leaf and interior capacity, so the overfull test
`threshold <= numkeys` holds for every node. Every insert into a leaf that does
not return `Conflict` writes the leaf with the new entry and goes on to split it,
trying to allocate a block. Every interior fix-up that does not return an error
code before the overfull test goes on to the split code, on the node with one
key more, and the split of a root or interior node with at least two keys tries
to allocate a block. -/
theorem threshold_forces_split :
    (∀ slots, fillThreshold slots = 0) ∧
    (∀ b : BTreeNode, fillThreshold (GetNumSlotsAsLeaf b.info) ≤ b.info.numkeys ∧
      fillThreshold (GetNumSlotsAsInterior b.info) ≤ b.info.numkeys) ∧
    (∀ (fuel : Nat) (st : BTreeIndex) (node key value newkey newnode : Nat),
      node < st.buffercache.numblocks →
      (st.buffercache.blocks node).info.nodetype = BTREE_LEAF_NODE →
      InsertRecursion (fuel + 1) st node key value newkey newnode =
        .ret (ERROR_CONFLICT, newkey, newnode, st) ∨
      ∃ b3 p, InsertedAt (st.buffercache.blocks node) b3 p key value ∧
        SplitsWithAlloc (InsertRecursion (fuel + 1) st node key value newkey newnode)
          { st with
            buffercache :=
              { st.buffercache with
                blocks := Function.update st.buffercache.blocks node b3 } }
          (b3.keys (b3.info.numkeys / 2))) ∧
    (∀ (st : BTreeIndex) (node : Nat) (b : BTreeNode) (offset testkey newkey newnode : Nat),
      (∃ rc st1, rc ≠ ERROR_NOERROR ∧
        interiorFixup st node b offset testkey newkey newnode =
          .ret (rc, newkey, newnode, st1)) ∨
      (∃ b3 st1, b3.info = { b.info with numkeys := b.info.numkeys + 1 } ∧
        interiorFixup st node b offset testkey newkey newnode =
          interiorSplit st1 node b3 newkey newnode)) ∧
    (∀ (st : BTreeIndex) (node : Nat) (b : BTreeNode) (newkey newnode : Nat),
      b.info.nodetype.isInterior = true → 2 ≤ b.info.numkeys →
      SplitsWithAlloc (interiorSplit st node b newkey newnode) st
        (b.keys (b.info.numkeys / 2 - 1 + 1))) := by
  refine ⟨fillThreshold_eq_zero, fun b => ?_, ?_, interiorFixup_cases, interiorSplit_alloc⟩
  · rw [fillThreshold_eq_zero, fillThreshold_eq_zero]
    exact ⟨Nat.zero_le _, Nat.zero_le _⟩
  · intro fuel st node key value newkey newnode hlt ht
    rcases leaf_insert_alloc fuel st node key value newkey newnode hlt ht with h | h
    · exact Or.inl h
    · obtain ⟨b3, p, h1, _, _, h4⟩ := h
      exact Or.inr ⟨b3, p, h1, h4⟩

/-- The threshold at work on the index holding key 50 over six blocks: the
insert of the key 30 into the leaf in block 2 does not return `Conflict`; it
takes block 4 from the free list and promotes (50, block 4). -/
theorem threshold_forces_split_sample :
    fillThreshold (GetNumSlotsAsLeaf ((insertedIndex 6).buffercache.blocks 2).info) = 0 ∧
    InsertRecursion 1 (insertedIndex 6) 2 30 2 0 0 ≠
      .ret (ERROR_CONFLICT, 0, 0, insertedIndex 6) ∧
    (InsertRecursion 1 (insertedIndex 6) 2 30 2 0 0 =
        .ret (ERROR_CONFLICT, 0, 0, insertedIndex 6) ∨
      ∃ b3 p, InsertedAt ((insertedIndex 6).buffercache.blocks 2) b3 p 30 2 ∧
        SplitsWithAlloc (InsertRecursion 1 (insertedIndex 6) 2 30 2 0 0)
          { insertedIndex 6 with
            buffercache :=
              { (insertedIndex 6).buffercache with
                blocks := Function.update (insertedIndex 6).buffercache.blocks 2 b3 } }
          (b3.keys (b3.info.numkeys / 2))) :=
  ⟨threshold_forces_split.1 _,
    by
      rw [show InsertRecursion 1 (insertedIndex 6) 2 30 2 0 0 =
        .ret (ERROR_NOERROR, 50, 4, childSplitIndex 6) from rfl]
      simp,
    threshold_forces_split.2.2.1 0 (insertedIndex 6) 2 30 2 0 0 (by decide) rfl⟩

/-! ## The indexes that operations reach, whatever they return -/


theorem AllocateNode_pop (st : BTreeIndex) (m : Nat) (hfl : st.superblock.info.freelist = m)
    (hm0 : m ≠ 0) (hlt : m < st.buffercache.numblocks)
    (hty : (st.buffercache.blocks m).info.nodetype = BTREE_UNALLOCATED_BLOCK) :
    AllocateNode st =
      .ret (ERROR_NOERROR, m, popFree st (st.buffercache.blocks m).info.freelist) := by
  subst hfl
  simp only [AllocateNode, hm0, if_false, Unserialize, hlt, if_true, hty, ne_eq,
    not_true_eq_false, popFree]

theorem AllocateNode_pop_outside (st : BTreeIndex) (m : Nat)
    (hfl : st.superblock.info.freelist = m) (hm0 : m ≠ 0)
    (hm : ¬ m < st.buffercache.numblocks) :
    AllocateNode st = .ret (ERROR_NOERROR, m, popFree st 0) := by
  subst hfl
  simp [AllocateNode, Unserialize, hm0, hm, BTreeNode.blank, BTreeNode.construct, popFree]

theorem popFree_numblocks (st : BTreeIndex) (link : Nat) :
    (popFree st link).buffercache.numblocks = st.buffercache.numblocks :=
  (Serialize_numblocks _ _ _).1

theorem popFree_blocks (st : BTreeIndex) (link j : Nat) (hj : j ≠ st.superblock_index) :
    (popFree st link).buffercache.blocks j = st.buffercache.blocks j := by
  simp only [popFree, Serialize]
  split
  · simp [Function.update_noteq hj]
  · rfl

/-- The leaf split with an unallocated block `m` at the head of the free list,
written out: the superblock is advanced, the upper half goes to block `m` and the
lower half stays in block `node`. -/
theorem leafSplit_explicit (st : BTreeIndex) (node m : Nat) (b3 : BTreeNode)
    (newkey newnode : Nat)
    (ht : b3.info.nodetype = BTREE_LEAF_NODE) (hn : 0 < b3.info.numkeys)
    (hlt : node < st.buffercache.numblocks)
    (hfl : st.superblock.info.freelist = m) (hm0 : m ≠ 0)
    (hmlt : m < st.buffercache.numblocks)
    (hmt : (st.buffercache.blocks m).info.nodetype = BTREE_UNALLOCATED_BLOCK) :
    ∃ sR, sR.info.nodetype = BTREE_LEAF_NODE ∧
      leafSplit st node b3 newkey newnode =
        .ret (ERROR_NOERROR, b3.keys (b3.info.numkeys / 2), m,
          setBlock (setBlock (popFree st (st.buffercache.blocks m).info.freelist) m sR) node
            { b3 with info := { b3.info with numkeys := b3.info.numkeys / 2 } }) := by
  have hhalf : b3.info.numkeys / 2 < b3.info.numkeys := Nat.div_lt_self hn (by decide)
  obtain ⟨sp2, e1, e2, _⟩ := leafMove_spec b3 ht b3.info.numkeys
    (b3.info.numkeys / 2) 0 b3 rfl (Nat.zero_le _) (le_of_lt hhalf) (by omega)
  have a1 := AllocateNode_pop st m hfl hm0 hmlt hmt
  have hm1 : m < (popFree st (st.buffercache.blocks m).info.freelist).buffercache.numblocks := by
    rw [popFree_numblocks]; exact hmlt
  have hn1 : node <
      (popFree st (st.buffercache.blocks m).info.freelist).buffercache.numblocks := by
    rw [popFree_numblocks]; exact hlt
  refine ⟨{ sp2 with info := { sp2.info with numkeys := 0 + (b3.info.numkeys -
    b3.info.numkeys / 2) } }, by simp only [e2]; exact ht, ?_⟩
  simp only [leafSplit, fillThreshold, Nat.reduceDiv, mul_zero, Nat.zero_le, if_true,
    GetKey_leaf ht hhalf, e1, a1, ne_eq, not_true_eq_false, if_false, Serialize, hm1, hn1,
    setBlock]


/-- The invariant carries over to an index with the same superblock index, size
and root pointer whose root block has the same header and pointers, whose free
blocks from `h2 >= h` on have the same headers, whose leaves below `h` are still
leaves, and whose free list starts at `h2`. -/
theorem Reached.transfer {n h h2 : Nat} {st st2 : BTreeIndex} (hs : Reached n h st)
    (hh : h ≤ h2) (hh2 : h2 ≤ n)
    (hsbi : st2.superblock_index = st.superblock_index)
    (hnb : st2.buffercache.numblocks = st.buffercache.numblocks)
    (hroot : st2.superblock.info.rootnode = st.superblock.info.rootnode)
    (hinfo : (st2.buffercache.blocks 1).info = (st.buffercache.blocks 1).info)
    (hptrs : (st2.buffercache.blocks 1).ptrs = (st.buffercache.blocks 1).ptrs)
    (hchain : ∀ j, h2 ≤ j → j < n →
      (st2.buffercache.blocks j).info = (st.buffercache.blocks j).info)
    (hleaf : ∀ j, 2 ≤ j → j < h →
      (st.buffercache.blocks j).info.nodetype = BTREE_LEAF_NODE →
      (st2.buffercache.blocks j).info.nodetype = BTREE_LEAF_NODE)
    (hstored : (st2.buffercache.blocks 0).info.rootnode = 1 ∧
      (st2.buffercache.blocks 0).info.freelist = st2.superblock.info.freelist)
    (hfree : FreeAt n h2 st2 ∨
      ((st.buffercache.blocks 1).info.numkeys = 0 ∧ st2.superblock.info.freelist = h2)) :
    Reached n h2 st2 := by
  refine ⟨by rw [hsbi]; exact hs.sbi, by rw [hnb]; exact hs.nb, le_trans hs.lo hh, hh2,
    by rw [hroot]; exact hs.root, by rw [hinfo]; exact hs.rootType, hstored, ?_, ?_⟩
  · intro j hj1 hj2
    rw [hchain j hj1 hj2]
    exact hs.chain j (le_trans hh hj1) hj2
  · rw [hinfo, hptrs]
    rcases hs.phase with ⟨h0, _⟩ | ⟨h1, a1, a2, a3, a4, a5, a6, _⟩
    · left
      refine ⟨h0, ?_⟩
      rcases hfree with hf | ⟨_, hf⟩
      · rcases hf with ⟨_, hf⟩ | ⟨he, hf⟩
        · exact Or.inl hf
        · exact Or.inr ⟨he, hf⟩
      · exact Or.inl hf
    · right
      refine ⟨h1, a1, by omega, a3, by omega, hleaf _ a1 a2 a5, hleaf _ a3 a4 a6, ?_⟩
      rcases hfree with hf | ⟨h0, _⟩
      · exact hf
      · rw [h0] at h1
        exact absurd h1 (by decide)

theorem Reached.freeAt {n h : Nat} {st : BTreeIndex} (hs : Reached n h st) :
    FreeAt n h st ∨
      ((st.buffercache.blocks 1).info.numkeys = 0 ∧ st.superblock.info.freelist = h) := by
  rcases hs.phase with ⟨h0, hf | ⟨he, hf⟩⟩ | ⟨_, _, _, _, _, _, _, hf⟩
  · exact Or.inr ⟨h0, hf⟩
  · exact Or.inl (Or.inr ⟨he, hf⟩)
  · exact Or.inl hf

/-- Overwriting a block below the free blocks that is not the root, by the
superblock or by a leaf, keeps the invariant. -/
theorem Reached.setBlock_low {n h : Nat} {st : BTreeIndex} (hs : Reached n h st) (c : Nat)
    (x : BTreeNode) (hc1 : c ≠ 1) (hch : c < h)
    (hx : 2 ≤ c → x.info.nodetype = BTREE_LEAF_NODE)
    (hx0 : c = 0 → x.info.rootnode = 1 ∧ x.info.freelist = st.superblock.info.freelist) :
    Reached n h (setBlock st c x) := by
  refine hs.transfer (le_refl _) hs.hi rfl rfl rfl ?_ ?_ ?_ ?_ ?_ hs.freeAt
  · simp [setBlock, Function.update_noteq (Ne.symm hc1)]
  · simp [setBlock, Function.update_noteq (Ne.symm hc1)]
  · intro j hj1 _
    have : j ≠ c := by omega
    simp [setBlock, Function.update_noteq this]
  · intro j hj1 hj2 hl
    by_cases hjc : j = c
    · subst hjc
      simp [setBlock, hx hj1]
    · simp [setBlock, Function.update_noteq hjc, hl]
  · by_cases hc0 : c = 0
    · subst hc0
      simpa [setBlock] using hx0 rfl
    · simpa [setBlock, Function.update_noteq (Ne.symm hc0)] using hs.stored

/-- Overwriting a block by a node with the same header and pointers keeps the
invariant. -/
theorem Reached.setBlock_same {n h : Nat} {st : BTreeIndex} (hs : Reached n h st) (w : Nat)
    (x : BTreeNode) (hinfo : x.info = (st.buffercache.blocks w).info)
    (hptrs : x.ptrs = (st.buffercache.blocks w).ptrs) : Reached n h (setBlock st w x) := by
  have hb : ∀ j, ((setBlock st w x).buffercache.blocks j).info = (st.buffercache.blocks j).info ∧
      ((setBlock st w x).buffercache.blocks j).ptrs = (st.buffercache.blocks j).ptrs := by
    intro j
    by_cases hj : j = w
    · subst hj; simp [setBlock, hinfo, hptrs]
    · simp [setBlock, Function.update_noteq hj]
  refine hs.transfer (le_refl _) hs.hi rfl rfl rfl (hb 1).1 (hb 1).2 (fun j _ _ => (hb j).1)
    ?_ ?_ hs.freeAt
  · intro j _ _ hl
    rw [(hb j).1]
    exact hl
  · rw [(hb 0).1]
    exact hs.stored

/-- Popping the head `h` of the free list keeps the invariant, with the free
blocks now starting at `h + 1`. -/
theorem Reached.pop {n h : Nat} {st : BTreeIndex} (hs : Reached n h st) (hlt : h < n)
    (hfl : st.superblock.info.freelist = h) :
    Reached n (h + 1) (popFree st (nextFree n h)) := by
  have hb : ∀ j, j ≠ 0 → (popFree st (nextFree n h)).buffercache.blocks j =
      st.buffercache.blocks j := by
    intro j hj
    exact popFree_blocks st _ j (by rw [hs.sbi]; exact hj)
  have hlo := hs.lo
  have h0n : 0 < st.buffercache.numblocks := by rw [hs.nb]; omega
  refine hs.transfer (Nat.le_succ h) hlt rfl (popFree_numblocks _ _) rfl ?_ ?_ ?_ ?_ ?_ ?_
  · rw [hb 1 (by decide)]
  · rw [hb 1 (by decide)]
  · intro j hj1 _
    rw [hb j (by omega)]
  · intro j hj1 _ hl
    rw [hb j (by omega)]
    exact hl
  · simp [popFree, Serialize, hs.sbi, h0n, hs.root]
  · left
    by_cases he : h + 1 = n
    · right
      exact ⟨he, by simp [popFree, nextFree, he]⟩
    · left
      exact ⟨by omega, by simp [popFree, nextFree, he]⟩

/-- An allocation with the head of the free list outside the cache, as on a
fresh index over two blocks, keeps the invariant and empties the free list. -/
theorem Reached.pop_outside {n : Nat} {st : BTreeIndex} (hs : Reached n n st) :
    Reached n n (popFree st 0) := by
  have hb : ∀ j, j ≠ 0 → (popFree st 0).buffercache.blocks j = st.buffercache.blocks j := by
    intro j hj
    exact popFree_blocks st _ j (by rw [hs.sbi]; exact hj)
  have hlo := hs.lo
  have h0n : 0 < st.buffercache.numblocks := by rw [hs.nb]; omega
  refine hs.transfer (le_refl _) (le_refl _) rfl (popFree_numblocks _ _) rfl ?_ ?_ ?_ ?_ ?_ ?_
  · rw [hb 1 (by decide)]
  · rw [hb 1 (by decide)]
  · intro j hj1 _
    rw [hb j (by omega)]
  · intro j hj1 _ hl
    rw [hb j (by omega)]
    exact hl
  · simp [popFree, Serialize, hs.sbi, h0n, hs.root]
  · left
    right
    exact ⟨rfl, rfl⟩

theorem Reached.incr {n h : Nat} {st : BTreeIndex} (hs : Reached n h st) :
    Reached n h (incrNumkeys st) := by
  refine hs.transfer (le_refl _) hs.hi rfl rfl rfl rfl rfl (fun _ _ _ => rfl)
    (fun _ _ _ hl => hl) hs.stored ?_
  rcases hs.freeAt with hf | hf
  · exact Or.inl hf
  · exact Or.inr hf

/-- The index `Attach(0, create=true)` leaves satisfies the invariant with the
free blocks starting at block 2. -/
theorem Reached.of_Attach {st st1 : BTreeIndex}
    (h : Attach st 0 true = .ret (ERROR_NOERROR, st1)) :
    Reached st.buffercache.numblocks 2 st1 := by
  have h2 := Attach_create_two h
  have hs := FreshShape_of_Attach h
  obtain ⟨s, e1, _, _, _, e5, e6, _⟩ := Attach_create_eq st h2
  rw [e1] at h
  have hst : s = st1 := by
    simpa using h
  subst hst
  refine ⟨hs.sbi, hs.nb, le_refl 2, hs.two, hs.root, hs.rootType, ?_, ?_,
    Or.inl ⟨hs.rootKeys, Or.inl hs.free⟩⟩
  · rw [← e5]
    exact ⟨hs.root, rfl⟩
  · intro j hj1 hj2
    exact hs.chain j hj1 hj2

/-- `Attach(0, create=false)` issued again loads the root pointer and the head
of the free list that block 0 holds, which are those of the in-memory
superblock. -/
theorem Reached.reload {n h : Nat} {st : BTreeIndex} (hs : Reached n h st) :
    Attach st 0 false =
      .ret (ERROR_NOERROR,
        { st with superblock_index := 0, superblock := st.buffercache.blocks 0 }) ∧
    Reached n h { st with superblock_index := 0, superblock := st.buffercache.blocks 0 } := by
  have hlo := hs.lo
  have hhi := hs.hi
  have h0n : 0 < st.buffercache.numblocks := by rw [hs.nb]; omega
  refine ⟨by simp [Attach, Unserialize, h0n], ?_⟩
  refine hs.transfer (le_refl _) hs.hi hs.sbi.symm rfl (hs.stored.1.trans hs.root.symm) rfl rfl
    (fun _ _ _ => rfl) (fun _ _ _ hl => hl) ⟨hs.stored.1, rfl⟩ ?_
  rcases hs.freeAt with hf | ⟨h0, hf⟩
  · left
    rcases hf with ⟨a, b⟩ | ⟨a, b⟩
    · exact Or.inl ⟨a, hs.stored.2.trans b⟩
    · exact Or.inr ⟨a, hs.stored.2.trans b⟩
  · exact Or.inr ⟨h0, hs.stored.2.trans hf⟩


/-- When `InsertRecursion` on the root hands up a new node, `Insert` returns the
code that `rc=newRoot.info.numkeys=1` stores and leaves the index as the
recursion left it. -/
theorem Insert_newroot (fuel : Nat) (st st1 : BTreeIndex) (key value nk nn : Nat)
    (hnn : nn ≠ 0) (hroot : st1.superblock.info.rootnode < st1.buffercache.numblocks)
    (h : InsertRecursion fuel st st.superblock.info.rootnode key value 0 0 =
      .ret (ERROR_NOERROR, nk, nn, st1)) :
    Insert fuel st key value = .ret (ERROR_ONE, st1) := by
  simp [Insert, h, hnn, insertNewRoot, Unserialize, hroot]

/-- The index after the first insert satisfies the invariant, with the root
holding one key and the two blocks taken from the free list as its leaves. -/
theorem Reached.first {n h : Nat} {st : BTreeIndex} (hs : Reached n h st) (k v : Nat)
    (hlt : h + 1 < n) :
    Reached n (h + 2) (afterFirstInsert st k v 1 h (h + 1)) := by
  have hlo := hs.lo
  have c0 : h ≠ 0 := by omega
  have c1 : h ≠ 1 := by omega
  have d0 : h + 1 ≠ 0 := by omega
  have d1 : h + 1 ≠ 1 := by omega
  have e1 : (1 : Nat) ≠ h := by omega
  have e2 : (1 : Nat) ≠ h + 1 := by omega
  have hnext := (hs.chain (h + 1) (by omega) hlt).2
  refine ⟨hs.sbi, hs.nb, by omega, by omega, hs.root, ?_, ?_, ?_, Or.inr ⟨?_, ?_, ?_, ?_, ?_,
    ?_, ?_, ?_⟩⟩
  · simp [afterFirstInsert, Function.update_noteq e1, Function.update_noteq e2, hs.rootType]
  · simp [afterFirstInsert, Function.update_noteq (Ne.symm c0),
      Function.update_noteq (Ne.symm d0), hs.root]
  · intro j hj1 hj2
    have a0 : j ≠ 0 := by omega
    have a1 : j ≠ 1 := by omega
    have a2 : j ≠ h := by omega
    have a3 : j ≠ h + 1 := by omega
    have e : (afterFirstInsert st k v 1 h (h + 1)).buffercache.blocks j =
        st.buffercache.blocks j := by
      simp [afterFirstInsert, Function.update_noteq, a0, a1, a2, a3]
    rw [e]
    exact hs.chain j (by omega) hj2
  · simp [afterFirstInsert, Function.update_noteq e1, Function.update_noteq e2]
  · simp [afterFirstInsert, Function.update_noteq e1, Function.update_noteq e2]
    omega
  · simp [afterFirstInsert, Function.update_noteq e1, Function.update_noteq e2]
  · simp [afterFirstInsert, Function.update_noteq e1, Function.update_noteq e2]
    omega
  · simp [afterFirstInsert, Function.update_noteq e1, Function.update_noteq e2]
  · simp [afterFirstInsert, Function.update_noteq e1, Function.update_noteq e2]
  · simp [afterFirstInsert, Function.update_noteq e1, Function.update_noteq e2]
  · by_cases he : h + 2 = n
    · right
      refine ⟨he, ?_⟩
      simp [afterFirstInsert, hnext, nextFree, he]
    · left
      refine ⟨by omega, ?_⟩
      simp [afterFirstInsert, hnext, nextFree, he]

/-- `Insert` on an index with an empty root returns, with `NoError` or
`NoSpace`, and keeps the invariant. -/
theorem Insert_empty_outcome {n h : Nat} {st : BTreeIndex} (hs : Reached n h st)
    (h0 : (st.buffercache.blocks 1).info.numkeys = 0) (fuel k v : Nat) :
    ∃ rc st2 h2, Insert (fuel + 1) st k v = .ret (rc, st2) ∧ Reached n h2 st2 ∧
      (rc = ERROR_NOERROR ∨ rc = ERROR_NOSPACE) := by
  have hlo := hs.lo
  have hhi := hs.hi
  have hnb := hs.nb
  have hint : (st.buffercache.blocks 1).info.nodetype.isInterior = true := by
    rw [hs.rootType]; rfl
  have hIR : ∀ nk nn, InsertRecursion (fuel + 1) st st.superblock.info.rootnode k v nk nn =
      insertEmptyRoot st 1 (st.buffercache.blocks 1) k v nk nn := by
    intro nk nn
    rw [hs.root]
    exact IR_empty_root fuel st 1 k v nk nn (by omega) hs.rootType h0
  have hfl : st.superblock.info.freelist = h ∨ (h = n ∧ st.superblock.info.freelist = 0) := by
    rcases hs.phase with ⟨_, hf⟩ | ⟨h1, _⟩
    · exact hf
    · rw [h0] at h1
      exact absurd h1 (by decide)
  by_cases hz : st.superblock.info.freelist = 0
  · refine ⟨ERROR_NOSPACE, st, h, ?_, hs, Or.inr rfl⟩
    refine (Insert_error (fuel + 1) st st k v ERROR_NOSPACE 0 0 (by decide) ?_).1
    rw [hIR]
    exact insertEmptyRoot_nospace_first st 1 _ k v 0 0 hint hz
  · have hf : st.superblock.info.freelist = h := by
      rcases hfl with hf | ⟨_, hf⟩
      · exact hf
      · exact absurd hf hz
    by_cases hout : h < n
    · have hb := hs.chain h (le_refl _) hout
      have hA := AllocateNode_pop st h hf (by omega) (by omega) hb.1
      rw [hb.2] at hA
      by_cases hlast : h + 1 = n
      · refine ⟨ERROR_NOSPACE, popFree st (nextFree n h), h + 1, ?_, hs.pop hout hf,
          Or.inr rfl⟩
        refine (Insert_error (fuel + 1) st _ k v ERROR_NOSPACE 0 0 (by decide) ?_).1
        rw [hIR]
        exact insertEmptyRoot_nospace_second st _ 1 h _ k v 0 0 hint hA
          (by simp [popFree, nextFree, hlast])
      · have hb2 := hs.chain (h + 1) (by omega) (by omega)
        refine ⟨ERROR_NOERROR, afterFirstInsert st k v 1 h (h + 1), h + 2, ?_,
          hs.first k v (by omega), Or.inl rfl⟩
        exact Insert_empty_root fuel st k v 1 h (h + 1) hs.sbi hs.root (by omega) (by decide)
          hs.rootType h0 hf (by omega) (by omega) hb.1 (by rw [hb.2]; simp [nextFree, hlast])
          (by omega) (by omega) hb2.1
    · have hhn : h = n := by omega
      subst hhn
      have hA := AllocateNode_pop_outside st h hf (by omega) (by omega)
      refine ⟨ERROR_NOSPACE, popFree st 0, h, ?_, hs.pop_outside, Or.inr rfl⟩
      refine (Insert_error (fuel + 1) st _ k v ERROR_NOSPACE 0 0 (by decide) ?_).1
      rw [hIR]
      exact insertEmptyRoot_nospace_second st _ 1 h _ k v 0 0 hint hA rfl


/-- An insert into a leaf `c` below the free blocks returns: with `Conflict` and
the index untouched, with `NoSpace` when the free list is empty, or with
`NoError` and the head `h` of the free list as the new node; the invariant is
kept. -/
theorem leaf_outcome {n h : Nat} {st : BTreeIndex} (hs : Reached n h st)
    (hfree : FreeAt n h st) (c : Nat) (hc2 : 2 ≤ c) (hch : c < h)
    (ht : (st.buffercache.blocks c).info.nodetype = BTREE_LEAF_NODE)
    (fuel k v nk nn : Nat) :
    InsertRecursion (fuel + 1) st c k v nk nn = .ret (ERROR_CONFLICT, nk, nn, st) ∨
    (∃ pk st2, InsertRecursion (fuel + 1) st c k v nk nn = .ret (ERROR_NOSPACE, pk, 0, st2) ∧
      Reached n h st2) ∨
    (∃ pk st2, InsertRecursion (fuel + 1) st c k v nk nn = .ret (ERROR_NOERROR, pk, h, st2) ∧
      Reached n (h + 1) st2) := by
  have hhi := hs.hi
  have hnb := hs.nb
  have hlt : c < st.buffercache.numblocks := by omega
  rcases leaf_insert_alloc fuel st c k v nk nn hlt ht with hconf | ⟨b3, p, hins, _, hEq, _⟩
  · exact Or.inl hconf
  · right
    have hEq2 : InsertRecursion (fuel + 1) st c k v nk nn =
        leafSplit (setBlock st c b3) c b3 nk nn := hEq
    have ht3 : b3.info.nodetype = BTREE_LEAF_NODE := by rw [hins.1]; exact ht
    have hn3 : 0 < b3.info.numkeys := by rw [hins.1]; simp
    have hs1 : Reached n h (setBlock st c b3) :=
      hs.setBlock_low c b3 (by omega) hch (fun _ => ht3) (fun h0 => by omega)
    rcases hfree with ⟨hlt2, hfl⟩ | ⟨he, hfl⟩
    · right
      have hb := hs1.chain h (le_refl _) hlt2
      obtain ⟨sR, hsR, hL⟩ := leafSplit_explicit (setBlock st c b3) c h b3 nk nn ht3 hn3
        (by rw [hs1.nb]; omega) hfl (by have := hs.lo; omega) (by rw [hs1.nb]; exact hlt2) hb.1
      rw [hb.2] at hL
      refine ⟨_, _, hEq2.trans hL, ?_⟩
      have hp := hs1.pop hlt2 hfl
      have hq := hp.setBlock_low h sR (by have := hs.lo; omega) (Nat.lt_succ_self h)
        (fun _ => hsR) (fun h0 => by have := hs.lo; omega)
      exact hq.setBlock_low c _ (by omega) (by omega) (fun _ => ht3) (fun h0 => by omega)
    · left
      refine ⟨_, _, hEq2.trans (leafSplit_nospace (setBlock st c b3) c b3 nk nn ht3 hn3 hfl),
        hs1⟩

/-- `Insert` on an index whose root has a key returns, with `Conflict`,
`NoSpace`, `SizeError` or the code of value 1, and keeps the invariant. -/
theorem Insert_rooted_outcome {n h : Nat} {st : BTreeIndex} (hs : Reached n h st)
    (h1 : (st.buffercache.blocks 1).info.numkeys = 1) (fuel k v : Nat) :
    ∃ rc st2 h2, Insert (fuel + 2) st k v = .ret (rc, st2) ∧ Reached n h2 st2 ∧
      (rc = ERROR_CONFLICT ∨ rc = ERROR_NOSPACE ∨ rc = ERROR_SIZE ∨ rc = ERROR_ONE) := by
  have hlo := hs.lo
  have hhi := hs.hi
  have hnb := hs.nb
  have hint : (st.buffercache.blocks 1).info.nodetype.isInterior = true := by
    rw [hs.rootType]; rfl
  obtain ⟨a1, a2, a3, a4, a5, a6, hfree⟩ :
      2 ≤ (st.buffercache.blocks 1).ptrs 0 ∧ (st.buffercache.blocks 1).ptrs 0 < h ∧
      2 ≤ (st.buffercache.blocks 1).ptrs 1 ∧ (st.buffercache.blocks 1).ptrs 1 < h ∧
      (st.buffercache.blocks ((st.buffercache.blocks 1).ptrs 0)).info.nodetype =
        BTREE_LEAF_NODE ∧
      (st.buffercache.blocks ((st.buffercache.blocks 1).ptrs 1)).info.nodetype =
        BTREE_LEAF_NODE ∧ FreeAt n h st := by
    rcases hs.phase with ⟨h0, _⟩ | ⟨_, b1, b2, b3, b4, b5, b6, b7⟩
    · rw [h1] at h0
      exact absurd h0 (by decide)
    · exact ⟨b1, b2, b3, b4, b5, b6, b7⟩
  have h1lt : 1 < st.buffercache.numblocks := by omega
  rcases findSlot_interior (st.buffercache.blocks 1) k hint
      (st.buffercache.blocks 1).info.numkeys 0 with hl | ⟨off, _, hoff, hsl⟩
  · -- the last pointer: the result of the leaf is handed up as it is
    have hstep : InsertRecursion (fuel + 2) st st.superblock.info.rootnode k v 0 0 =
        InsertRecursion (fuel + 1) st ((st.buffercache.blocks 1).ptrs 1) k v 0 0 := by
      rw [hs.root, IR_interior_last (fuel + 1) st 1 k v 0 0 h1lt hint (by rw [h1]; decide) hl,
        h1]
    rcases leaf_outcome hs hfree _ a3 a4 a6 fuel k v 0 0 with hc | ⟨pk, st2, hc, hr⟩ |
      ⟨pk, st2, hc, hr⟩
    · refine ⟨ERROR_CONFLICT, st, h, ?_, hs, Or.inl rfl⟩
      exact (Insert_error (fuel + 2) st st k v ERROR_CONFLICT 0 0 (by decide)
        (hstep.trans hc)).1
    · refine ⟨ERROR_NOSPACE, st2, h, ?_, hr, Or.inr (Or.inl rfl)⟩
      exact (Insert_error (fuel + 2) st st2 k v ERROR_NOSPACE pk 0 (by decide)
        (hstep.trans hc)).1
    · refine ⟨ERROR_ONE, st2, h + 1, ?_, hr, Or.inr (Or.inr (Or.inr rfl))⟩
      exact Insert_newroot (fuel + 2) st st2 k v pk h (by omega)
        (by rw [hr.root, hr.nb]; omega) (hstep.trans hc)
  · -- slot 0: a promotion from the leaf ends in the fix-up
    have hoff0 : off = 0 := by rw [h1] at hoff; omega
    subst hoff0
    have hstep := IR_interior_slot (fuel + 1) st 1 k v 0 0 0 _ h1lt hint hoff hsl
    rcases leaf_outcome hs hfree _ a1 a2 a5 fuel k v 0 0 with hc | ⟨pk, st2, hc, hr⟩ |
      ⟨pk, st2, hc, hr⟩
    · refine ⟨ERROR_CONFLICT, st, h, ?_, hs, Or.inl rfl⟩
      refine (Insert_error (fuel + 2) st st k v ERROR_CONFLICT 0 0 (by decide) ?_).1
      rw [hs.root, hstep, hc]
      simp
    · refine ⟨ERROR_NOSPACE, st2, h, ?_, hr, Or.inr (Or.inl rfl)⟩
      refine (Insert_error (fuel + 2) st st2 k v ERROR_NOSPACE pk 0 (by decide) ?_).1
      rw [hs.root, hstep, hc]
      simp
    · refine ⟨ERROR_SIZE, st2, h + 1, ?_, hr, Or.inr (Or.inr (Or.inl rfl))⟩
      refine (Insert_error (fuel + 2) st st2 k v ERROR_SIZE pk h (by decide) ?_).1
      have hh0 : h ≠ 0 := by omega
      rw [hs.root, hstep, hc]
      simp only [ne_eq, not_true_eq_false, if_false, hh0, not_false_eq_true, if_true]
      exact interiorFixup_size_error st2 1 _ 0 _ pk h hint hoff


theorem Insert_rooted_fuel {n h : Nat} {st : BTreeIndex} (hs : Reached n h st)
    (h1 : (st.buffercache.blocks 1).info.numkeys = 1) (fuel k v : Nat) (hf : fuel < 2) :
    Insert fuel st k v = .nofuel := by
  have hlo := hs.lo
  have hhi := hs.hi
  have hnb := hs.nb
  have hint : (st.buffercache.blocks 1).info.nodetype.isInterior = true := by
    rw [hs.rootType]; rfl
  have h1lt : 1 < st.buffercache.numblocks := by omega
  cases fuel with
  | zero => simp [Insert, InsertRecursion]
  | succ f =>
    have hf0 : f = 0 := by omega
    subst hf0
    rcases findSlot_interior (st.buffercache.blocks 1) k hint
        (st.buffercache.blocks 1).info.numkeys 0 with hl | ⟨off, _, hoff, hsl⟩
    · have e : InsertRecursion (0 + 1) st 1 k v 0 0 = .nofuel := by
        rw [IR_interior_last 0 st 1 k v 0 0 h1lt hint (by rw [h1]; decide) hl]
        rfl
      simp only [Insert, hs.root, e]
    · have e : InsertRecursion (0 + 1) st 1 k v 0 0 = .nofuel := by
        rw [IR_interior_slot 0 st 1 k v 0 0 off _ h1lt hint hoff hsl]
        rfl
      simp only [Insert, hs.root, e]

/-- `Insert`, whatever it returns, keeps the invariant. -/
theorem Insert_reached {n h fuel : Nat} {st st2 : BTreeIndex} {k v : Nat} {rc : ERROR_T}
    (hs : Reached n h st) (hI : Insert fuel st k v = .ret (rc, st2)) :
    ∃ h2, Reached n h2 st2 := by
  rcases hs.phase with ⟨h0, _⟩ | ⟨h1, _⟩
  · cases fuel with
    | zero => simp [Insert, InsertRecursion] at hI
    | succ f =>
      obtain ⟨rc3, st3, h3, e, hr, _⟩ := Insert_empty_outcome hs h0 f k v
      rw [e] at hI
      simp only [Res.ret.injEq, Prod.mk.injEq] at hI
      rw [← hI.2]
      exact ⟨h3, hr⟩
  · by_cases hf : fuel < 2
    · rw [Insert_rooted_fuel hs h1 fuel k v hf] at hI
      simp at hI
    · obtain ⟨f, rfl⟩ : ∃ f, fuel = f + 2 := ⟨fuel - 2, by omega⟩
      obtain ⟨rc3, st3, h3, e, hr, _⟩ := Insert_rooted_outcome hs h1 f k v
      rw [e] at hI
      simp only [Res.ret.injEq, Prod.mk.injEq] at hI
      rw [← hI.2]
      exact ⟨h3, hr⟩

/-- `Update`, whatever it returns, keeps the invariant: it writes at most one
value slot of a leaf. -/
theorem Update_reached {n h fuel : Nat} {st st2 : BTreeIndex} {k v : Nat} {rc : ERROR_T}
    (hs : Reached n h st) (hU : Update fuel st k v = .ret (rc, st2)) : Reached n h st2 := by
  unfold Update at hU
  split at hU
  · rename_i rc1 v1 c heq
    simp only [Res.ret.injEq, Prod.mk.injEq] at hU
    obtain ⟨_, rfl⟩ := hU
    obtain ⟨_, hok, herr⟩ := update_effect fuel st.buffercache _ k v _ v1 c heq
    by_cases hrc : rc1 = ERROR_NOERROR
    · obtain ⟨w, off, _, _, _, _, _, hc⟩ := hok hrc
      subst hc
      exact hs.setBlock_same w _ rfl rfl
    · rw [herr hrc]
      exact hs
  · simp at hU
  · simp at hU

theorem Detach_reached {n h : Nat} {st : BTreeIndex} (hs : Reached n h st) :
    Reached n h (Detach st).2 := by
  have hlo := hs.lo
  have hhi := hs.hi
  have hnb := hs.nb
  rw [Detach_eq st hs.sbi (by omega)]
  exact hs.setBlock_low 0 st.superblock (by decide) (by omega)
    (fun h2 => absurd h2 (by decide)) (fun _ => ⟨hs.root, rfl⟩)

/-- One operation, whatever it returns, keeps the invariant. -/
theorem stepOp_reached {n h fuel : Nat} {st st2 : BTreeIndex} (op : Op)
    (hs : Reached n h st) (hst : stepOp fuel st op = some st2) : ∃ h2, Reached n h2 st2 := by
  have hlo := hs.lo
  have hhi := hs.hi
  have hnb := hs.nb
  cases op with
  | insert k v =>
    simp only [stepOp] at hst
    split at hst
    · rename_i rc st1 heq
      simp only [Option.some.injEq] at hst
      subst hst
      exact Insert_reached hs heq
    · simp at hst
  | update k v =>
    simp only [stepOp] at hst
    split at hst
    · rename_i rc st1 heq
      simp only [Option.some.injEq] at hst
      subst hst
      exact ⟨h, Update_reached hs heq⟩
    · simp at hst
  | lookup k =>
    simp only [stepOp] at hst
    split at hst
    · simp only [Option.some.injEq] at hst
      subst hst
      exact ⟨h, hs⟩
    · simp at hst
  | delete k =>
    simp only [stepOp, Delete, Option.some.injEq] at hst
    subst hst
    exact ⟨h, hs⟩
  | sanityCheck t =>
    simp only [stepOp, Option.some.injEq] at hst
    subst hst
    exact ⟨h, hs⟩
  | detach =>
    simp only [stepOp, Option.some.injEq] at hst
    subst hst
    exact ⟨h, Detach_reached hs⟩
  | reattach =>
    have hd := Detach_reached hs
    simp only [stepOp, Detach_eq st hs.sbi (by omega), reattach_eq st hs.sbi (by omega),
      Option.some.injEq] at hst hd
    subst hst
    exact ⟨h, hd⟩

/-- One call, whatever it returns, keeps the invariant. -/
theorem stepCall_reached {n h fuel : Nat} {st st2 : BTreeIndex} (call : Call)
    (hs : Reached n h st) (hst : stepCall fuel st call = some st2) :
    ∃ h2, Reached n h2 st2 := by
  cases call with
  | op o => exact stepOp_reached o hs hst
  | attach create =>
    cases create with
    | false =>
      obtain ⟨e, hr⟩ := hs.reload
      simp only [stepCall, e, Option.some.injEq] at hst
      subst hst
      exact ⟨h, hr⟩
    | true =>
      have h2 : 2 ≤ st.buffercache.numblocks := by
        have := hs.lo; have := hs.hi; have := hs.nb; omega
      obtain ⟨s, e1, _⟩ := Attach_create_eq st h2
      simp only [stepCall, e1, Option.some.injEq] at hst
      subst hst
      have := Reached.of_Attach e1
      rw [hs.nb] at this
      exact ⟨2, this⟩

theorem runAny_reached {n fuel : Nat} :
    ∀ (calls : List Call) (h : Nat) (st stN : BTreeIndex), Reached n h st →
      runAny fuel st calls = some stN → ∃ h2, Reached n h2 stN := by
  intro calls
  induction calls with
  | nil =>
    intro h st stN hs hr
    simp only [runAny, Option.some.injEq] at hr
    subst hr
    exact ⟨h, hs⟩
  | cons call calls ih =>
    intro h st stN hs hr
    simp only [runAny] at hr
    split at hr
    · rename_i st1 heq
      obtain ⟨h2, hs2⟩ := stepCall_reached call hs heq
      exact ih h2 st1 stN hs2 hr
    · simp at hr

/-- What operations reach from a freshly created index, whatever they return. -/
theorem reach_any {fuel : Nat} {st0 st1 stN : BTreeIndex} {calls : List Call}
    (hA : Attach st0 0 true = .ret (ERROR_NOERROR, st1))
    (hR : runAny fuel st1 calls = some stN) :
    ∃ h, Reached st0.buffercache.numblocks h stN :=
  runAny_reached calls 2 st1 stN (Reached.of_Attach hA) hR


/-- C24. The root pointer never moves. For every index state, key and value,
`Insert`, whatever it returns, and `Update` leave `superblock.rootnode`
unchanged, `Lookup` writes nothing and `Delete` hands the index back as it is;
so after `Attach(0, create=true)` and any calls of the operations or of
`Attach`, whatever they returned, `superblock.rootnode = 1` and the descents of
`Lookup`, `Update` and `Insert` start at block 1. -/
theorem C24_root_fixed :
    (∀ (fuel : Nat) (st st2 : BTreeIndex) (k v : Nat) (rc : ERROR_T),
      Insert fuel st k v = .ret (rc, st2) →
      st2.superblock.info.rootnode = st.superblock.info.rootnode) ∧
    (∀ (fuel : Nat) (st st2 : BTreeIndex) (k v : Nat) (rc : ERROR_T),
      Update fuel st k v = .ret (rc, st2) → st2.superblock = st.superblock) ∧
    (∀ (fuel : Nat) (c c2 : BufferCache) (node k v0 v : Nat) (rc : ERROR_T),
      LookupOrUpdateInternal fuel c node BTREE_OP_LOOKUP k v0 = .ret (rc, v, c2) → c2 = c) ∧
    (∀ (st : BTreeIndex) (k : Nat), (Delete st k).2 = st) ∧
    (∀ (fuel : Nat) (st0 st1 stN : BTreeIndex) (ops : List Call),
      Attach st0 0 true = .ret (ERROR_NOERROR, st1) → runAny fuel st1 ops = some stN →
      stN.superblock.info.rootnode = 1 ∧
      (∀ f k v, Lookup f stN k v =
        lookupResult (LookupOrUpdateInternal f stN.buffercache 1 BTREE_OP_LOOKUP k v)) ∧
      (∀ f k v, (Update f stN k v).code =
        (LookupOrUpdateInternal f stN.buffercache 1 BTREE_OP_UPDATE k v).code) ∧
      (∀ f k v, InsertRecursion f stN stN.superblock.info.rootnode k v 0 0 =
        InsertRecursion f stN 1 k v 0 0)) := by
  refine ⟨?_, ?_, ?_, fun _ _ => rfl, ?_⟩
  · intro fuel st st2 k v rc h
    obtain ⟨h1, h2⟩ := Insert_frame h
    by_cases hrc : rc = ERROR_NOERROR
    · obtain ⟨st1, hf, rfl⟩ := h2 hrc
      exact hf.rootnode
    · exact (h1 hrc).rootnode
  · intro fuel st st2 k v rc h
    unfold Update at h
    split at h
    · simp only [Res.ret.injEq, Prod.mk.injEq] at h
      rw [← h.2]
    · simp at h
    · simp at h
  · intro fuel c c2 node k v0 v rc h
    exact lookup_no_write fuel c node k v0 rc v c2 h
  · intro fuel st0 st1 stN ops hA hR
    obtain ⟨h, hs⟩ := reach_any hA hR
    refine ⟨hs.root, fun f k v => ?_, fun f k v => ?_, fun f k v => ?_⟩
    · rw [Lookup_eq, hs.root]
    · rw [Update_code, hs.root]
    · rw [hs.root]

/-- C24 on the index that `mixedOps`, with a failing `Insert` and an `Attach`
without `Detach` among them, leave over five blocks. -/
theorem C24_root_fixed_witness :
    Attach (sampleIndex 5) 0 true = .ret (ERROR_NOERROR, freshIndex 5) ∧
    runAny 2 (freshIndex 5) mixedOps = some mixedIndex ∧
    (Insert 2 (insertedIndex 5) 30 2).code = .ret ERROR_SIZE ∧
    mixedIndex.superblock.info.rootnode = 1 :=
  ⟨rfl, rfl, rfl,
    (C24_root_fixed.2.2.2.2 2 (sampleIndex 5) (freshIndex 5) mixedIndex mixedOps rfl rfl).1⟩

/-- C27. At most one `Insert` ever succeeds. In every index reached from
`Attach(0, create=true)` by calls of the operations or of `Attach`, whatever
they returned, in which the root has at least one key, `Insert(k, v)` returns
for every key and value (two levels of recursion are enough), the code is
`Conflict`, `NoSpace`, the accessor error `SizeError` or the code of value 1
that `rc=newRoot.info.numkeys=1` stores, and `superblock.numkeys` is not
incremented; `Insert` returns `NoError` only when the root is empty. -/
theorem C27_one_insert (fuel : Nat) (st0 st1 stN : BTreeIndex) (ops : List Call)
    (hA : Attach st0 0 true = .ret (ERROR_NOERROR, st1))
    (hR : runAny fuel st1 ops = some stN) :
    (0 < (stN.buffercache.blocks stN.superblock.info.rootnode).info.numkeys →
      ∀ f k v, ∃ rc st2, Insert (f + 2) stN k v = .ret (rc, st2) ∧
        (rc = ERROR_CONFLICT ∨ rc = ERROR_NOSPACE ∨ rc = ERROR_SIZE ∨ rc = ERROR_ONE) ∧
        st2.superblock.info.numkeys = stN.superblock.info.numkeys) ∧
    (∀ f k v st2, Insert f stN k v = .ret (ERROR_NOERROR, st2) →
      (stN.buffercache.blocks stN.superblock.info.rootnode).info.numkeys = 0) := by
  obtain ⟨h, hs⟩ := reach_any hA hR
  rw [hs.root]
  have hone : 0 < (stN.buffercache.blocks 1).info.numkeys →
      (stN.buffercache.blocks 1).info.numkeys = 1 := by
    intro hpos
    rcases hs.phase with ⟨h0, _⟩ | ⟨h1, _⟩
    · omega
    · exact h1
  constructor
  · intro hpos f k v
    obtain ⟨rc, st2, _, e, _, hcode⟩ := Insert_rooted_outcome hs (hone hpos) f k v
    refine ⟨rc, st2, e, hcode, ?_⟩
    have hne : rc ≠ ERROR_NOERROR := by
      rcases hcode with hc | hc | hc | hc <;> rw [hc] <;> decide
    exact ((Insert_frame e).1 hne).numkeys
  · intro f k v st2 hI
    by_contra hne
    have h1 := hone (Nat.pos_of_ne_zero hne)
    by_cases hf : f < 2
    · rw [Insert_rooted_fuel hs h1 f k v hf] at hI
      simp at hI
    · obtain ⟨g, rfl⟩ : ∃ g, f = g + 2 := ⟨f - 2, by omega⟩
      obtain ⟨rc, st3, _, e, _, hcode⟩ := Insert_rooted_outcome hs h1 g k v
      rw [e] at hI
      simp only [Res.ret.injEq, Prod.mk.injEq] at hI
      rcases hcode with hc | hc | hc | hc <;> rw [hc] at hI <;> simp at hI

/-- C27 on the index that `mixedOps` leave over five blocks: the root has one
key, the free list is used up, and `Insert(70, 3)` returns `NoSpace` with
`superblock.numkeys` still 1. -/
theorem C27_one_insert_witness :
    Attach (sampleIndex 5) 0 true = .ret (ERROR_NOERROR, freshIndex 5) ∧
    runAny 2 (freshIndex 5) mixedOps = some mixedIndex ∧
    (mixedIndex.buffercache.blocks mixedIndex.superblock.info.rootnode).info.numkeys = 1 ∧
    (Insert 2 mixedIndex 70 3).code = .ret ERROR_NOSPACE ∧
    ∃ rc st2, Insert 2 mixedIndex 70 3 = .ret (rc, st2) ∧
      (rc = ERROR_CONFLICT ∨ rc = ERROR_NOSPACE ∨ rc = ERROR_SIZE ∨ rc = ERROR_ONE) ∧
      st2.superblock.info.numkeys = mixedIndex.superblock.info.numkeys :=
  ⟨rfl, rfl, rfl, rfl,
    (C27_one_insert 2 (sampleIndex 5) (freshIndex 5) mixedIndex mixedOps rfl rfl).1
      (by decide) 0 70 3⟩

end Btrees
